import Mathlib

set_option linter.unusedVariables false
set_option linter.unnecessarySeqFocus false

/-!
Verification development for a TOML parser/serializer (scanner, parser
combinators, token recognizers, table-assignment algorithm, driver, and
serializer).  The JavaScript source is embedded shallowly: the mutable
`Scanner` becomes a pure record threaded through every parser, thrown
exceptions become an explicit error constructor of the result type, and
the mutually recursive value grammar takes an explicit fuel argument
(structural recursion on the fuel; adequacy of a concrete fuel bound is
proved separately).
-/

namespace TomlSpec

/-! ## Character classes (JavaScript regular expressions used by the source) -/

/-- The class `[ \t]` (the scanner's `#whitespace` field). -/
def isWsTab (c : Char) : Bool := c == ' ' || c == '\t'

/-- The JavaScript `\s` class (ECMAScript WhiteSpace plus LineTerminator). -/
def isJsSpace (c : Char) : Bool :=
  c == ' ' || c == '\t' || c == '\n' || c.val == 11 || c.val == 12 || c == '\r' ||
  c.val == 0xa0 || c.val == 0x1680 || (0x2000 ≤ c.val && c.val ≤ 0x200a) ||
  c.val == 0x2028 || c.val == 0x2029 || c.val == 0x202f || c.val == 0x205f ||
  c.val == 0x3000 || c.val == 0xfeff

/-- The class `[A-Za-z0-9_-]` (`Patterns.BARE_KEY`). -/
def isBareKeyChar (c : Char) : Bool :=
  c.isAlpha || c.isDigit || c == '_' || c == '-'

/-- The class `[0-9_\.e+\-]` with the `i` flag (`Patterns.FLOAT`). -/
def isFloatChar (c : Char) : Bool :=
  c.isDigit || c == '_' || c == '.' || c == 'e' || c == 'E' || c == '+' || c == '-'

/-- The class `[ \t\r\n#,}\]]` (`Patterns.END_OF_VALUE`). -/
def isEndOfValue (c : Char) : Bool :=
  c == ' ' || c == '\t' || c == '\r' || c == '\n' || c == '#' || c == ',' ||
  c == '}' || c == ']'

/-- The class `[0-9a-f_]` with the `i` flag (hex digits of a radix integer). -/
def isHexUnd (c : Char) : Bool :=
  c.isDigit || ('a' ≤ c && c ≤ 'f') || ('A' ≤ c && c ≤ 'F') || c == '_'

/-- The class `[+-]`. -/
def isSign (c : Char) : Bool := c == '+' || c == '-'

/-- The class `[0-9_]`. -/
def isDigitUnd (c : Char) : Bool := c.isDigit || c == '_'

/-- The class `[ 0-9TZ.:-]` (date-time tail characters). -/
def isDateTimeChar (c : Char) : Bool :=
  c == ' ' || c.isDigit || c == 'T' || c == 'Z' || c == '.' || c == ':' || c == '-'

/-- Lift a character predicate to the scanner's `char()` result, which is the
empty string (here: `none`) past the end of input; every regex test on the
empty string is false. -/
def testO (p : Char → Bool) : Option Char → Bool
  | some c => p c
  | none => false

@[simp] theorem testO_none (p : Char → Bool) : testO p none = false := rfl
@[simp] theorem testO_some (p : Char → Bool) (c : Char) : testO p (some c) = p c := rfl

/-! ## Scanner -/

/-- The scanner: an immutable source and a cursor.  The JavaScript class keeps
the cursor as mutable private state; here every operation returns the updated
scanner. -/
structure Scanner where
  source : List Char
  position : Nat
deriving Repr, DecidableEq

namespace Scanner

/-- `char(index)`: character at `position + index`, or the empty-string
sentinel (`none`) past the end. -/
def char (s : Scanner) (index : Nat := 0) : Option Char :=
  s.source[s.position + index]?

/-- `slice(start, end)`: `source.slice(position + start, position + end)`. -/
def slice (s : Scanner) (start stop : Nat) : List Char :=
  (s.source.drop (s.position + start)).take (stop - start)

/-- `next(count)`: advance the cursor. -/
def next (s : Scanner) (count : Nat := 1) : Scanner :=
  { s with position := s.position + count }

/-- `eof()`: cursor at or past the end of the source. -/
def eof (s : Scanner) : Bool := s.source.length ≤ s.position

/-- `isCurrentCharEOL()`: current character starts `\n` or `\r\n`.
(`position()` is simply the `position` field.) -/
def isCurrentCharEOL (s : Scanner) : Bool :=
  s.char == some '\n' || s.slice 0 2 == ['\r', '\n']

@[simp] theorem next_source (s : Scanner) (n : Nat) : (s.next n).source = s.source := rfl
@[simp] theorem next_position (s : Scanner) (n : Nat) :
    (s.next n).position = s.position + n := rfl

theorem lt_length_of_not_eof {s : Scanner} (h : s.eof = false) :
    s.position < s.source.length := by
  simpa [eof, Nat.not_le] using h

/-- The inline-skip loop
`while (whitespace.test(char()) && !eof()) next()`, bounded by a fuel of
one unit per iteration; the wrapper supplies the remaining input length,
which the loop can never exceed since every iteration consumes one
character (at zero fuel the remaining length is zero, so the loop guard
would fail anyway). -/
def skipInlineGo : Nat → Scanner → Scanner
  | 0, s => s
  | n + 1, s =>
    if testO isWsTab s.char ∧ s.eof = false then skipInlineGo n (s.next 1) else s

/-- The scanner's inline whitespace skip. -/
def skipInline (s : Scanner) : Scanner :=
  skipInlineGo (s.source.length - s.position) s

/-- The comment-skip loop `while (!isCurrentCharEOL() && !eof()) next()`,
fuel-bounded like `skipInlineGo`. -/
def skipCommentGo : Nat → Scanner → Scanner
  | 0, s => s
  | n + 1, s =>
    if s.isCurrentCharEOL = false ∧ s.eof = false then skipCommentGo n (s.next 1)
    else s

/-- Skip to the end of the current line. -/
def skipComment (s : Scanner) : Scanner :=
  skipCommentGo (s.source.length - s.position) s

theorem skipCommentGo_source (n : Nat) (s : Scanner) :
    (skipCommentGo n s).source = s.source := by
  induction n generalizing s with
  | zero => rfl
  | succ n ih =>
    rw [skipCommentGo]
    split
    · simpa using ih (s.next 1)
    · rfl

theorem skipCommentGo_position_le (n : Nat) (s : Scanner) :
    s.position ≤ (skipCommentGo n s).position := by
  induction n generalizing s with
  | zero => exact le_refl _
  | succ n ih =>
    rw [skipCommentGo]
    split
    · exact le_trans (by simp) (ih (s.next 1))
    · exact le_refl _

theorem skipComment_source (s : Scanner) : (skipComment s).source = s.source :=
  skipCommentGo_source _ s

theorem skipComment_position_le (s : Scanner) : s.position ≤ (skipComment s).position :=
  skipCommentGo_position_le _ s

theorem skipInlineGo_source (n : Nat) (s : Scanner) :
    (skipInlineGo n s).source = s.source := by
  induction n generalizing s with
  | zero => rfl
  | succ n ih =>
    rw [skipInlineGo]
    split
    · simpa using ih (s.next 1)
    · rfl

theorem skipInlineGo_position_le (n : Nat) (s : Scanner) :
    s.position ≤ (skipInlineGo n s).position := by
  induction n generalizing s with
  | zero => exact le_refl _
  | succ n ih =>
    rw [skipInlineGo]
    split
    · exact le_trans (by simp) (ih (s.next 1))
    · exact le_refl _

theorem skipInline_source (s : Scanner) : (skipInline s).source = s.source :=
  skipInlineGo_source _ s

theorem skipInline_position_le (s : Scanner) : s.position ≤ (skipInline s).position :=
  skipInlineGo_position_le _ s

/-- The full-skip loop of `nextUntilChar`: skip whitespace and EOLs, and
(when `comment` is set) `#`-comments through end of line; fuel-bounded
(every iteration consumes at least one character: the comment branch only
fires on `#`, which is neither an EOL nor past the end). -/
def skipFullGo (comment : Bool) : Nat → Scanner → Scanner
  | 0, s => s
  | n + 1, s =>
    if s.eof = false then
      if testO isWsTab s.char || s.isCurrentCharEOL then
        skipFullGo comment n (s.next 1)
      else if comment ∧ s.char = some '#' then
        skipFullGo comment n (skipComment s)
      else s
    else s

/-- The scanner's full skip. -/
def skipFull (comment : Bool) (s : Scanner) : Scanner :=
  skipFullGo comment (s.source.length - s.position) s

theorem skipFullGo_source (c : Bool) (n : Nat) (s : Scanner) :
    (skipFullGo c n s).source = s.source := by
  induction n generalizing s with
  | zero => rfl
  | succ n ih =>
    rw [skipFullGo]
    split
    · split
      · simpa using ih (s.next 1)
      · split
        · rw [ih (skipComment s), skipComment_source]
        · rfl
    · rfl

theorem skipFullGo_position_le (c : Bool) (n : Nat) (s : Scanner) :
    s.position ≤ (skipFullGo c n s).position := by
  induction n generalizing s with
  | zero => exact le_refl _
  | succ n ih =>
    rw [skipFullGo]
    split
    · split
      · exact le_trans (by simp) (ih (s.next 1))
      · split
        · exact le_trans (skipComment_position_le s) (ih (skipComment s))
        · exact le_refl _
    · exact le_refl _

theorem skipFull_source (c : Bool) (s : Scanner) : (skipFull c s).source = s.source :=
  skipFullGo_source c _ s

theorem skipFull_position_le (c : Bool) (s : Scanner) :
    s.position ≤ (skipFull c s).position :=
  skipFullGo_position_le c _ s

end Scanner

/-! ## Thrown errors and the parse-result type -/

/-- Values thrown during parsing: `toml` models a thrown `TOMLParseError`;
`other` models any other host `Error` (the plain `Error`s thrown by the
assignment algorithm, and the `RangeError` raised by
`String.fromCodePoint`). -/
inductive JsErr where
  | toml (msg : String)
  | other (msg : String)
deriving Repr, DecidableEq

/-- `err.message`. -/
def JsErr.message : JsErr → String
  | .toml m => m
  | .other m => m

/-- `"\\u" + char.charCodeAt(0).toString(16)` (lower-case hex, no padding);
only reached for characters of the `\s` class, which are all in the basic
multilingual plane, where `charCodeAt` equals the code point. -/
def escapeUnicode (c : Char) : String :=
  "\\u" ++ String.mk (Nat.toDigits 16 c.toNat)

/-- The check at the end of `nextUntilChar`: throw if the current character
is a unicode whitespace other than an EOL (it runs after inline skips as
well as full skips). -/
def Scanner.invalidWsCheck (s1 : Scanner) : Except (JsErr × Scanner) Scanner :=
  match s1.char with
  | some c =>
    if s1.isCurrentCharEOL = false ∧ isJsSpace c then
      .error (.toml ("Contains invalid whitespaces: `" ++ escapeUnicode c ++ "`"), s1)
    else .ok s1
  | none => .ok s1

/-- `nextUntilChar(options)`: run the requested skip (inline: spaces and
tabs only; full: whitespace, EOLs, and optionally comments), then apply the
invalid-whitespace check.  The error carries the scanner state at the
throw (the source mutates the scanner in place). -/
def Scanner.nextUntilChar (s : Scanner) (inline comment : Bool) :
    Except (JsErr × Scanner) Scanner :=
  Scanner.invalidWsCheck
    (if inline then Scanner.skipInline s else Scanner.skipFull comment s)

/-- The outcome of running one parser: `matched`/`notMatched` are the
`{ok: true}` / `{ok: false}` results (each carries the scanner, which the
source mutates in place), `thrown` is a raised exception, and `timeout`
marks fuel exhaustion of the embedding (proved unreachable for the fuel
that `parse` uses). -/
inductive PRes (α : Type) where
  | matched (body : α) (s : Scanner)
  | notMatched (s : Scanner)
  | thrown (e : JsErr) (s : Scanner)
  | timeout (s : Scanner)
deriving Repr

/-- Sequence a parse result: propagate non-match, errors and timeouts. -/
def PRes.andThen : PRes α → (α → Scanner → PRes β) → PRes β
  | .matched v s, k => k v s
  | .notMatched s, _ => .notMatched s
  | .thrown e s, _ => .thrown e s
  | .timeout s, _ => .timeout s

/-- Run `nextUntilChar` and continue, converting a thrown error into the
`thrown` parse result. -/
def withSkip (inline comment : Bool) (s : Scanner) (k : Scanner → PRes α) : PRes α :=
  match s.nextUntilChar inline comment with
  | .ok s1 => k s1
  | .error (e, s1) => .thrown e s1

/-! ## The value tree -/

/-- Numbers as produced by the recognizers.  `int` models `parseInt`
results exactly (host doubles round above `2^53`; no claim depends on that
range); `float lit` stands for `parseFloat(lit)` of a literal that passed
the recognizer's not-a-number test and is kept as the literal text (the host
double and its shortest decimal rendering are not modelled); `inf`,
`neginf` and `nan` are the special values returned for the symbol
literals and for `parseInt` applied to a digitless string. -/
inductive JsNum where
  | int (i : Int)
  | float (lit : String)
  | inf
  | neginf
  | nan
deriving Repr, DecidableEq

/-- The parsed value tree: strings, numbers, booleans, date-times (kept as
the trimmed source text that the host `Date` constructor accepted),
sequences and insertion-ordered mappings. -/
inductive JsValue where
  | vStr (s : String)
  | vNum (n : JsNum)
  | vBool (b : Bool)
  | vDate (iso : String)
  | arr (elems : List JsValue)
  | table (fields : List (String × JsValue))
deriving Repr

/-! ## The deep-merge collaborator (external, modelled) -/

mutual

/-- Structural size of a value (the auto-derived `SizeOf` instance of this
nested inductive is not executable, so the fuel computations use this
function instead). -/
def jsValueSize : JsValue → Nat
  | .arr xs => jsListSize xs + 1
  | .table fs => jsFieldsSize fs + 1
  | _ => 1

/-- Structural size of an element list. -/
def jsListSize : List JsValue → Nat
  | [] => 1
  | x :: t => jsValueSize x + jsListSize t + 1

/-- Structural size of a field list. -/
def jsFieldsSize : List (String × JsValue) → Nat
  | [] => 1
  | (_, v) :: t => jsValueSize v + jsFieldsSize t + 1

end

mutual

/-- The recursion engine of the modelled deep merge, fuel-bounded (one
unit per call; the wrapper supplies more than the recursion can use, and
exhausted fuel resolves to the right-hand value, consistent with the
contract's right-bias). -/
def deepMergeGo : Nat → JsValue → JsValue → JsValue
  | 0, _, b => b
  | n + 1, a, b =>
    match a, b with
    | .table fa, .table fb => .table (deepMergeFieldsGo n fa fb)
    | _, b => b

/-- Fold the right-hand fields into the left-hand fields, left to right. -/
def deepMergeFieldsGo : Nat → List (String × JsValue) → List (String × JsValue) →
    List (String × JsValue)
  | 0, fa, _ => fa
  | _ + 1, fa, [] => fa
  | n + 1, fa, (k, v) :: rest => deepMergeFieldsGo n (deepMergeInsertGo n fa k v) rest

/-- Merge one right-hand field into the left-hand fields, preserving the
position of an existing key. -/
def deepMergeInsertGo : Nat → List (String × JsValue) → String → JsValue →
    List (String × JsValue)
  | 0, fa, _, _ => fa
  | _ + 1, [], k, v => [(k, v)]
  | n + 1, (k2, v2) :: t, k, v =>
    if k2 = k then (k2, deepMergeGo n v2 v) :: t
    else (k2, v2) :: deepMergeInsertGo n t k v

/-- Modelled from the spec: the external deep-merge collaborator
(`deepMerge` of `@jsr/std__collections`, not part of this repository).
The spec treats it as a black box that recursively combines two mappings,
right-hand values overriding left-hand values at conflicting leaves,
concatenating nothing and never erroring.  Keys present on both sides with
two mapping values merge recursively; any other conflict is resolved by
the right value in place; keys only on the right are appended in order. -/
def deepMerge (a b : JsValue) : JsValue :=
  deepMergeGo ((jsValueSize a + jsValueSize b) * (jsValueSize a + jsValueSize b)) a b

end

/-! ## Utils: unflat and deepAssignWithTable -/

/-- `Utils.unflat(keys, values)`: wrap `values` in singleton mappings keyed
by each segment from right to left, so `[a, b, c]` yields
`{a: {b: {c: values}}}`. -/
def unflat (keys : List String) (values : JsValue) : JsValue :=
  keys.foldr (fun k acc => .table [(k, acc)]) values

/-- First-match association-list lookup (JavaScript object keys are
unique, so first match is the only match). -/
def lookupField : List (String × JsValue) → String → Option JsValue
  | [], _ => none
  | (k, v) :: t, key => if k = key then some v else lookupField t key

/-- Property read `target[key]`; `none` is `undefined`.  Only mappings have
string-keyed own properties in the shapes the parser builds. -/
def jsGet (target : JsValue) (key : String) : Option JsValue :=
  match target with
  | .table fields => lookupField fields key
  | _ => none

/-- Property write `target[key] = v`: replace in place, or append. -/
def setField : List (String × JsValue) → String → JsValue → List (String × JsValue)
  | [], k, v => [(k, v)]
  | (k2, v2) :: t, k, v => if k2 = k then (k2, v) :: t else (k2, v2) :: setField t k v

/-- Property write on a value; writing to a non-mapping is lost (the
JavaScript write would land on a transient boxed wrapper). -/
def jsSet (target : JsValue) (key : String) (v : JsValue) : JsValue :=
  match target with
  | .table fields => .table (setField fields key v)
  | t => t

/-- `Object.assign(target, src)`: copy each own property of `src` into
`target`, left to right. -/
def jsObjectAssign (target src : JsValue) : JsValue :=
  match src with
  | .table fs => fs.foldl (fun acc kv => jsSet acc kv.1 kv.2) target
  | _ => target

/-- The kind tag of a top-level construct (`"Block"`, `"Table"`,
`"TableArray"` in the source). -/
inductive BlockKind where
  | Block
  | Table
  | TableArray
deriving Repr, DecidableEq

/-- A parsed top-level construct `{type, key, value}` (the `key` list is
empty for a `Block`, whose key field is unused). -/
structure TomlBlock where
  type : BlockKind
  key : List String
  value : JsValue
deriving Repr

/-- The recursion of `deepAssignWithTable`, structural on the key path
(the source recurses with `table.key.slice(1)`). -/
def deepAssignGo (target : JsValue) (ty : BlockKind) (key : List String)
    (value : JsValue) : Except JsErr JsValue :=
  match key with
  | [] => .error (.other "Unexpected key length")
  | k0 :: rest =>
    match jsGet target k0 with
    | none =>
      .ok (jsObjectAssign target
        (unflat key (if ty = BlockKind.Table then value else .arr [value])))
    | some (.arr xs) =>
      if ty = BlockKind.TableArray ∧ rest = [] then
        .ok (jsSet target k0 (.arr (xs ++ [value])))
      else
        match xs.getLast? with
        | none => .error (.other "Cannot read properties of undefined")
        | some lastv =>
          match deepAssignGo lastv ty rest value with
          | .ok lastv2 => .ok (jsSet target k0 (.arr (xs.dropLast ++ [lastv2])))
          | .error e => .error e
    | some (.table fields) =>
      match deepAssignGo (.table fields) ty rest value with
      | .ok v2 => .ok (jsSet target k0 v2)
      | .error e => .error e
    | some (.vDate d) =>
      match deepAssignGo (.vDate d) ty rest value with
      | .ok v2 => .ok (jsSet target k0 v2)
      | .error e => .error e
    | some _ => .error (.other "Unexpected assign")

/-- `Utils.deepAssignWithTable(target, table)` as a function returning the
updated target (the source mutates `target` in place).  A recursion into a
non-object (possible when a table array's last element is a primitive)
leaves the tree unchanged, matching the lost mutation of a boxed
primitive; reading a property of `undefined` (empty table array) throws. -/
def deepAssignWithTable (target : JsValue) (tbl : TomlBlock) :
    Except JsErr JsValue :=
  deepAssignGo target tbl.type tbl.key tbl.value

/-! ## Generic combinators -/

/-- `or(parsers)`: try each in order; the first match wins; a failed
alternative keeps whatever cursor movement it made (the source mutates the
shared scanner). -/
def orP {α : Type} (ps : List (Scanner → PRes α)) (s : Scanner) : PRes α :=
  match ps with
  | [] => .notMatched s
  | p :: rest =>
    match p s with
    | .matched v s1 => .matched v s1
    | .notMatched s1 => orP rest s1
    | r => r

/-- `character(str)`: skip inline whitespace, match the literal exactly,
consume it, skip trailing inline whitespace, succeed with no payload. -/
def character (str : String) (s : Scanner) : PRes Unit :=
  withSkip true false s fun s1 =>
    if s1.slice 0 str.length == str.toList then
      withSkip true false (s1.next str.length) fun s2 => .matched () s2
    else .notMatched s1

/-- The repetition loop of `join(parser, separator)`: while not at EOF, an
absent separator ends the loop; a present separator demands another
instance (hard error otherwise).  One fuel unit per iteration. -/
def joinLoop {α : Type} (p : Scanner → PRes α) (sep : String) (acc : List α) :
    Nat → Scanner → PRes (List α)
  | 0, s => .timeout s
  | fuel + 1, s =>
    if s.eof then .matched acc s
    else
      match character sep s with
      | .matched _ s1 =>
        match p s1 with
        | .matched v s2 => joinLoop p sep (acc ++ [v]) fuel s2
        | .notMatched s2 => .thrown (.toml ("Invalid token after \"" ++ sep ++ "\"")) s2
        | .thrown e s2 => .thrown e s2
        | .timeout s2 => .timeout s2
      | .notMatched s1 => .matched acc s1
      | .thrown e s1 => .thrown e s1
      | .timeout s1 => .timeout s1

/-- `join(parser, separator)`: one instance, then the separator loop. -/
def join {α : Type} (p : Scanner → PRes α) (sep : String) (fuel : Nat)
    (s : Scanner) : PRes (List α) :=
  match p s with
  | .matched v s1 => joinLoop p sep [v] fuel s1
  | .notMatched s1 => .notMatched s1
  | .thrown e s1 => .thrown e s1
  | .timeout s1 => .timeout s1

/-- `merge`'s folding step: deep-merge the parsed records into one mapping,
left to right, starting from `{}` (the body stays a mapping throughout, so
the source's `typeof` guard is always true). -/
def mergeRecords (records : List JsValue) : JsValue :=
  records.foldl (fun body record => deepMerge body record) (.table [])

/-- `surround(left, parser, right)`: an absent left literal is a soft
non-match; after it, a failing inner parser or a missing right literal is
a hard error. -/
def surround {α : Type} (left : String) (p : Nat → Scanner → PRes α)
    (right : String) (fuel : Nat) (s : Scanner) : PRes α :=
  match character left s with
  | .matched _ s1 =>
    match p fuel s1 with
    | .matched v s2 =>
      match character right s2 with
      | .matched _ s3 => .matched v s3
      | .notMatched s3 =>
        .thrown (.toml ("Not closed by \"" ++ right ++ "\" after started with \"" ++
          left ++ "\"")) s3
      | .thrown e s3 => .thrown e s3
      | .timeout s3 => .timeout s3
    | .notMatched s2 => .thrown (.toml ("Invalid token after \"" ++ left ++ "\"")) s2
    | .thrown e s2 => .thrown e s2
    | .timeout s2 => .timeout s2
  | .notMatched s1 => .notMatched s1
  | .thrown e s1 => .thrown e s1
  | .timeout s1 => .timeout s1

/-! ## Scanning loops shared by the token recognizers -/

theorem Scanner.char_isSome_lt {s : Scanner} {c : Char} (h : s.char = some c) :
    s.position < s.source.length := by
  have h2 : s.source[s.position]? = some c := by simpa [Scanner.char] using h
  obtain ⟨hlt, -⟩ := List.getElem?_eq_some.mp h2
  exact hlt

theorem testO_eq_true {p : Char → Bool} {o : Option Char} (h : testO p o = true) :
    ∃ c, o = some c ∧ p c = true := by
  cases o with
  | some c => exact ⟨c, rfl, by simpa using h⟩
  | none => simp at h

theorem Scanner.lt_of_testO {p : Char → Bool} {s : Scanner}
    (h : testO p s.char = true) : s.position < s.source.length := by
  obtain ⟨c, hc, -⟩ := testO_eq_true h
  exact Scanner.char_isSome_lt hc

/-- A `while (PATTERN.test(char()) && !eof()) { acc.push(char()); next() }`
scan loop, fuel-bounded by the remaining input length (the EOF test is
redundant: past the end `char()` is the empty string, on which every
pattern test is false — which is also why zero fuel, i.e. zero remaining
input, coincides with the loop guard failing). -/
def scanWhileGo (p : Char → Bool) : Nat → Scanner → List Char →
    List Char × Scanner
  | 0, s, acc => (acc, s)
  | n + 1, s, acc =>
    if testO p s.char then
      scanWhileGo p n (s.next 1) (acc ++ [(s.char).getD ' '])
    else (acc, s)

/-- The scan loop at its full fuel. -/
def scanWhile (p : Char → Bool) (s : Scanner) (acc : List Char) :
    List Char × Scanner :=
  scanWhileGo p (s.source.length - s.position) s acc

theorem scanWhileGo_source (p : Char → Bool) (n : Nat) (s : Scanner)
    (acc : List Char) : (scanWhileGo p n s acc).2.source = s.source := by
  induction n generalizing s acc with
  | zero => rfl
  | succ n ih =>
    rw [scanWhileGo]
    split
    · simpa using ih (s.next 1) _
    · rfl

theorem scanWhileGo_position_le (p : Char → Bool) (n : Nat) (s : Scanner)
    (acc : List Char) : s.position ≤ (scanWhileGo p n s acc).2.position := by
  induction n generalizing s acc with
  | zero => exact le_refl _
  | succ n ih =>
    rw [scanWhileGo]
    split
    · exact le_trans (by simp) (ih (s.next 1) _)
    · exact le_refl _

theorem scanWhile_source (p : Char → Bool) (s : Scanner) (acc : List Char) :
    (scanWhile p s acc).2.source = s.source :=
  scanWhileGo_source p _ s acc

theorem scanWhile_position_le (p : Char → Bool) (s : Scanner) (acc : List Char) :
    s.position ≤ (scanWhile p s acc).2.position :=
  scanWhileGo_position_le p _ s acc

theorem Scanner.invalidWsCheck_ok {t s1 : Scanner}
    (h : Scanner.invalidWsCheck t = .ok s1) : s1 = t := by
  unfold Scanner.invalidWsCheck at h
  split at h
  · split at h <;> simp_all
  · simp_all

theorem Scanner.nextUntilChar_ok {s s1 : Scanner} {i c : Bool}
    (h : s.nextUntilChar i c = .ok s1) :
    s1.source = s.source ∧ s.position ≤ s1.position := by
  unfold Scanner.nextUntilChar at h
  have h1 := Scanner.invalidWsCheck_ok h
  subst h1
  rcases i with _ | _ <;> simp only [if_true, if_false, Bool.false_eq_true]
  · exact ⟨Scanner.skipFull_source c s, Scanner.skipFull_position_le c s⟩
  · exact ⟨Scanner.skipInline_source s, Scanner.skipInline_position_le s⟩

/-! ## Escape sequences -/

/-- One hexadecimal digit of `parseInt(-, 16)`. -/
def isHexDigit (c : Char) : Bool :=
  c.isDigit || ('a' ≤ c && c ≤ 'f') || ('A' ≤ c && c ≤ 'F')

/-- Value of a hexadecimal digit. -/
def hexDigitVal (c : Char) : Nat :=
  if c.isDigit then c.toNat - 48
  else if 'a' ≤ c ∧ c ≤ 'f' then c.toNat - 87
  else if 'A' ≤ c ∧ c ≤ 'F' then c.toNat - 55
  else 0

/-- `parseInt("0x" + s, 16)`: the maximal hexadecimal prefix of `s`
evaluated in base 16; no valid digit at all gives `NaN` (`none`). -/
def jsParseIntHex (s : List Char) : Option Nat :=
  let digits := s.takeWhile isHexDigit
  if digits.isEmpty then none
  else some (digits.foldl (fun n c => 16 * n + hexDigitVal c) 0)

/-- `String.fromCodePoint(n)`: a `RangeError` for `NaN` or a value above
`0x10FFFF` (messages as produced by V8); surrogate code points, which
JavaScript would keep as lone surrogates, go through `Char.ofNat` (no
claim exercises them). -/
def fromCodePoint : Option Nat → Except JsErr String
  | none => .error (.other "Invalid code point NaN")
  | some n =>
    if n ≤ 0x10FFFF then .ok (String.mk [Char.ofNat n])
    else .error (.other ("Invalid code point " ++ toString n))

/-- The `\u`/`\U` arm of `EscapeSequence` (at the scanner position of the
`u`): decode `codePointLen` hex digits; `fromCodePoint` may throw, before
the cursor advances. -/
def escapeUnicodeCase (s1 : Scanner) (codePointLen : Nat) : PRes String :=
  match fromCodePoint (jsParseIntHex (s1.slice 1 (1 + codePointLen))) with
  | .ok str => .matched str (s1.next (codePointLen + 1))
  | .error e => .thrown e s1

/-- `EscapeSequence`: decode one backslash escape.  An unrecognized escape
character (including end of input) is a hard `TOMLParseError`; no leading
backslash is a soft non-match with the cursor untouched. -/
def EscapeSequence (s : Scanner) : PRes String :=
  if s.char = some '\\' then
    match (s.next 1).char with
    | some 'b' => .matched "\x08" ((s.next 1).next 1)
    | some 't' => .matched "\t" ((s.next 1).next 1)
    | some 'n' => .matched "\n" ((s.next 1).next 1)
    | some 'f' => .matched "\x0c" ((s.next 1).next 1)
    | some 'r' => .matched "\r" ((s.next 1).next 1)
    | some 'u' => escapeUnicodeCase (s.next 1) 4
    | some 'U' => escapeUnicodeCase (s.next 1) 6
    | some '"' => .matched "\"" ((s.next 1).next 1)
    | some '\\' => .matched "\\" ((s.next 1).next 1)
    | some c =>
      .thrown (.toml ("Invalid escape sequence: \\" ++ String.mk [c])) (s.next 1)
    | none => .thrown (.toml "Invalid escape sequence: \\") (s.next 1)
  else .notMatched s

theorem EscapeSequence_matched {s : Scanner} {v : String} {s1 : Scanner}
    (h : EscapeSequence s = .matched v s1) :
    s1.source = s.source ∧ s.position < s1.position := by
  unfold EscapeSequence at h
  split at h
  · split at h <;>
      first
      | (cases h; exact ⟨rfl, by simp only [Scanner.next_position]; omega⟩)
      | (unfold escapeUnicodeCase at h; split at h <;> cases h <;>
          exact ⟨rfl, by simp only [Scanner.next_position]; omega⟩)
      | cases h
  · cases h

theorem EscapeSequence_notMatched {s s1 : Scanner}
    (h : EscapeSequence s = .notMatched s1) : s1 = s := by
  unfold EscapeSequence at h
  split at h
  · split at h <;>
      first
      | cases h
      | (unfold escapeUnicodeCase at h; split at h <;> cases h)
  · cases h; rfl

theorem EscapeSequence_thrown {s : Scanner} {e : JsErr} {s1 : Scanner}
    (h : EscapeSequence s = .thrown e s1) :
    s1.source = s.source ∧ s.position ≤ s1.position := by
  unfold EscapeSequence at h
  split at h
  · split at h <;>
      first
      | (cases h; exact ⟨rfl, by simp only [Scanner.next_position]; omega⟩)
      | (unfold escapeUnicodeCase at h; split at h <;> cases h <;>
          exact ⟨rfl, by simp only [Scanner.next_position]; omega⟩)
      | cases h
  · cases h

/-! ## String recognizers -/

/-- The content loop of `BasicString`: stop at `"` or EOF; a raw newline is
a hard error; otherwise append an escape expansion or one raw character.
Fuel-bounded by the remaining input length: every iteration consumes at
least one character, and at zero fuel the guard (not at EOF) would fail
anyway. -/
def basicStringLoopGo : Nat → Scanner → List Char → PRes (List Char)
  | 0, s, acc => .matched acc s
  | n + 1, s, acc =>
    if s.char ≠ some '"' ∧ s.eof = false then
      if s.char = some '\n' then
        .thrown (.toml "Single-line string cannot contain EOL") s
      else
        match EscapeSequence s with
        | .matched str s1 => basicStringLoopGo n s1 (acc ++ str.toList)
        | .notMatched s1 => basicStringLoopGo n (s1.next 1) (acc ++ (s1.char).toList)
        | .thrown e s1 => .thrown e s1
        | .timeout s1 => .timeout s1
    else .matched acc s

/-- The content loop at its full fuel. -/
def basicStringLoop (s : Scanner) (acc : List Char) : PRes (List Char) :=
  basicStringLoopGo (s.source.length - s.position) s acc

/-- `BasicString`: double-quote-delimited single-line string with escape
processing; unterminated is a hard error. -/
def BasicString (s : Scanner) : PRes String :=
  withSkip true false s fun s1 =>
    if s1.char = some '"' then
      match basicStringLoop (s1.next 1) [] with
      | .matched acc s2 =>
        if s2.eof then
          .thrown (.toml ("Single-line string is not closed:\n" ++ String.mk acc)) s2
        else .matched (String.mk acc) (s2.next 1)
      | .notMatched s2 => .notMatched s2
      | .thrown e s2 => .thrown e s2
      | .timeout s2 => .timeout s2
    else .notMatched s1

/-- The content loop of `LiteralString`: stop at `'` or EOF; a raw newline
is a hard error; no escape processing.  Fuel-bounded like
`basicStringLoopGo`. -/
def literalStringLoopGo : Nat → Scanner → List Char → PRes (List Char)
  | 0, s, acc => .matched acc s
  | n + 1, s, acc =>
    if s.char ≠ some '\'' ∧ s.eof = false then
      if s.char = some '\n' then
        .thrown (.toml "Single-line string cannot contain EOL") s
      else literalStringLoopGo n (s.next 1) (acc ++ (s.char).toList)
    else .matched acc s

/-- The content loop at its full fuel. -/
def literalStringLoop (s : Scanner) (acc : List Char) : PRes (List Char) :=
  literalStringLoopGo (s.source.length - s.position) s acc

/-- `LiteralString`: single-quote-delimited single-line string, no escape
processing; unterminated is a hard error. -/
def LiteralString (s : Scanner) : PRes String :=
  withSkip true false s fun s1 =>
    if s1.char = some '\'' then
      match literalStringLoop (s1.next 1) [] with
      | .matched acc s2 =>
        if s2.eof then
          .thrown (.toml ("Single-line string is not closed:\n" ++ String.mk acc)) s2
        else .matched (String.mk acc) (s2.next 1)
      | .notMatched s2 => .notMatched s2
      | .thrown e s2 => .thrown e s2
      | .timeout s2 => .timeout s2
    else .notMatched s1

/-- The content loop of `MultilineBasicString`: stop at `"""` or EOF; a
backslash directly before a line break is a line continuation (the break
and following whitespace and EOLs are skipped with `{comment: false}`, so
comments are not skipped); otherwise append an escape expansion or one
raw character.  Fuel-bounded: every iteration consumes at least one
character (the continuation consumes the backslash before skipping). -/
def mbsLoopGo : Nat → Scanner → List Char → PRes (List Char)
  | 0, s, acc => .matched acc s
  | n + 1, s, acc =>
    if s.slice 0 3 ≠ ['"', '"', '"'] ∧ s.eof = false then
      if s.slice 0 2 = ['\\', '\n'] then
        match (s.next 1).nextUntilChar false false with
        | .ok s1 => mbsLoopGo n s1 acc
        | .error (e, s1) => .thrown e s1
      else if s.slice 0 3 = ['\\', '\r', '\n'] then
        match (s.next 1).nextUntilChar false false with
        | .ok s1 => mbsLoopGo n s1 acc
        | .error (e, s1) => .thrown e s1
      else
        match EscapeSequence s with
        | .matched str s1 => mbsLoopGo n s1 (acc ++ str.toList)
        | .notMatched s1 => mbsLoopGo n (s1.next 1) (acc ++ (s1.char).toList)
        | .thrown e s1 => .thrown e s1
        | .timeout s1 => .timeout s1
    else .matched acc s

/-- The content loop at its full fuel. -/
def mbsLoop (s : Scanner) (acc : List Char) : PRes (List Char) :=
  mbsLoopGo (s.source.length - s.position) s acc

/-- `MultilineBasicString`: `"""`-delimited; a newline directly after the
opening delimiter is trimmed; on exit, a fourth quote directly after the
content is absorbed into the string before the closing three quotes are
consumed. -/
def MultilineBasicString (s : Scanner) : PRes String :=
  withSkip true false s fun s1 =>
    if s1.slice 0 3 = ['"', '"', '"'] then
      let s2 := s1.next 3
      let s3 :=
        if s2.char = some '\n' then s2.next 1
        else if s2.slice 0 2 = ['\r', '\n'] then s2.next 2
        else s2
      match mbsLoop s3 [] with
      | .matched acc s4 =>
        if s4.eof then
          .thrown (.toml ("Multi-line string is not closed:\n" ++ String.mk acc)) s4
        else if s4.char 3 = some '"' then
          .matched (String.mk (acc ++ ['"'])) ((s4.next 1).next 3)
        else .matched (String.mk acc) (s4.next 3)
      | .notMatched s4 => .notMatched s4
      | .thrown e s4 => .thrown e s4
      | .timeout s4 => .timeout s4
    else .notMatched s1

/-- The content loop of `MultilineLiteralString`: everything up to `'''`
or EOF, raw; fuel-bounded by the remaining input length. -/
def mlsLoopGo : Nat → Scanner → List Char → List Char × Scanner
  | 0, s, acc => (acc, s)
  | n + 1, s, acc =>
    if s.slice 0 3 ≠ ['\'', '\'', '\''] ∧ s.eof = false then
      mlsLoopGo n (s.next 1) (acc ++ (s.char).toList)
    else (acc, s)

/-- The content loop at its full fuel. -/
def mlsLoop (s : Scanner) (acc : List Char) : List Char × Scanner :=
  mlsLoopGo (s.source.length - s.position) s acc

/-- `MultilineLiteralString`: `'''`-delimited raw string; same
leading-newline trim and same absorption of a fourth closing quote. -/
def MultilineLiteralString (s : Scanner) : PRes String :=
  withSkip true false s fun s1 =>
    if s1.slice 0 3 = ['\'', '\'', '\''] then
      let s2 := s1.next 3
      let s3 :=
        if s2.char = some '\n' then s2.next 1
        else if s2.slice 0 2 = ['\r', '\n'] then s2.next 2
        else s2
      let (acc, s4) := mlsLoop s3 []
      if s4.eof then
        .thrown (.toml ("Multi-line string is not closed:\n" ++ String.mk acc)) s4
      else if s4.char 3 = some '\'' then
        .matched (String.mk (acc ++ ['\''])) ((s4.next 1).next 3)
      else .matched (String.mk acc) (s4.next 3)
    else .notMatched s1

/-! ## Keys, symbols and numbers -/

/-- `BareKey`: skip inline whitespace; require one bare-key character;
take the maximal run. -/
def BareKey (s : Scanner) : PRes String :=
  withSkip true false s fun s1 =>
    if testO isBareKeyChar s1.char then
      let (acc, s2) := scanWhile isBareKeyChar s1 []
      .matched (String.mk acc) s2
    else .notMatched s1

/-- The ordered symbol table (`true`/`false` booleans, then the special
floats). -/
def symbolPairs : List (String × JsValue) :=
  [("true", .vBool true), ("false", .vBool false),
   ("inf", .vNum .inf), ("+inf", .vNum .inf), ("-inf", .vNum .neginf),
   ("nan", .vNum .nan), ("+nan", .vNum .nan), ("-nan", .vNum .nan)]

/-- `Symbols`: the first table entry whose text equals the upcoming slice
of its own length. -/
def Symbols (s : Scanner) : PRes JsValue :=
  withSkip true false s fun s1 =>
    match symbolPairs.find? (fun p => s1.slice 0 p.1.length == p.1.toList) with
    | some (str, v) => .matched v (s1.next str.length)
    | none => .notMatched s1

/-- The unanchored test `/0(?:x|o|b)/i` applied to a two-character slice:
a zero followed by a radix letter. -/
def isRadixPrefix (f : List Char) : Bool :=
  match f with
  | ['0', c] =>
    c == 'x' || c == 'o' || c == 'b' || c == 'X' || c == 'O' || c == 'B'
  | _ => false

/-- `parseInt(s)` (radix 10) for a string of an optional sign followed by
decimal digits: no digits at all gives `NaN`. -/
def jsParseIntDec (l : List Char) : JsNum :=
  let signDigits : Int × List Char :=
    match l with
    | '+' :: t => (1, t)
    | '-' :: t => (-1, t)
    | t => (1, t)
  if signDigits.2 = [] then .nan
  else
    .int (signDigits.1 *
      (signDigits.2.foldl (fun n c => 10 * n + ((c.toNat : Int) - 48)) 0))

/-- `Integer`: a two-character radix prefix (`0x`/`0o`/`0b`, either case)
commits to collecting hex/underscore characters and returns the literal
string unevaluated; otherwise an optional sign and a digit/underscore run,
underscores stripped, parsed base 10. -/
def Integer (s : Scanner) : PRes JsValue :=
  withSkip true false s fun s1 =>
    let first2 := s1.slice 0 2
    if first2.length = 2 ∧ isRadixPrefix first2 then
      let (digits, s2) := scanWhile isHexUnd (s1.next 2) []
      if digits = [] then .notMatched s2
      else .matched (.vStr (String.mk (first2 ++ digits))) s2
    else
      let signAnd : List Char × Scanner :=
        match s1.char with
        | some c => if isSign c then ([c], s1.next 1) else ([], s1)
        | none => ([], s1)
      let (digits, s2) := scanWhile isDigitUnd signAnd.2 []
      let acc := signAnd.1 ++ digits
      match acc with
      | [] => .notMatched s2
      | [c] =>
        if isSign c then .notMatched s2
        else .matched (.vNum (jsParseIntDec ([c].filter (· ≠ '_')))) s2
      | _ => .matched (.vNum (jsParseIntDec (acc.filter (· ≠ '_')))) s2

/-- `isNaN(parseFloat(s))` for strings over the FLOAT character class:
`parseFloat` yields `NaN` exactly when, after an optional sign, the text
does not begin with a digit or with a dot followed by a digit. -/
def jsParseFloatIsNaN (l : List Char) : Bool :=
  let body := match l with
    | '+' :: t => t
    | '-' :: t => t
    | t => t
  match body with
  | c :: rest =>
    if c.isDigit then false
    else if c = '.' then
      match rest with
      | d :: _ => !d.isDigit
      | [] => true
    else true
  | [] => true

/-- The lookahead loop of `Float`: scan forward without consuming until an
END_OF_VALUE character or the end of input; fail on the first character
outside the FLOAT class.  Fuel-bounded by the input remaining beyond the
lookahead offset (at zero fuel the offset is past the end, where the loop
guard fails and the lookahead passes). -/
def floatLookaheadGo (s : Scanner) : Nat → Nat → Bool
  | 0, _ => true
  | n + 1, position =>
    match s.char position with
    | some c =>
      if isEndOfValue c then true
      else if isFloatChar c then floatLookaheadGo s n (position + 1)
      else false
    | none => true

/-- The lookahead at its full fuel. -/
def floatLookahead (s : Scanner) (position : Nat) : Bool :=
  floatLookaheadGo s (s.source.length - (s.position + position)) position

/-- `Float`: lookahead-validate the upcoming value, then consume an
optional sign and the FLOAT-class run; underscores stripped; a read that
`parseFloat` cannot interpret is a soft non-match. -/
def Float (s : Scanner) : PRes JsValue :=
  withSkip true false s fun s1 =>
    if floatLookahead s1 0 then
      let signAnd : List Char × Scanner :=
        match s1.char with
        | some c => if isSign c then ([c], s1.next 1) else ([], s1)
        | none => ([], s1)
      let (digits, s2) := scanWhile isFloatChar signAnd.2 []
      let acc := signAnd.1 ++ digits
      if acc = [] then .notMatched s2
      else
        let lit := acc.filter (· ≠ '_')
        if jsParseFloatIsNaN lit then .notMatched s2
        else .matched (.vNum (.float (String.mk lit))) s2
    else .notMatched s1

/-! ## Date and time recognizers -/

/-- The anchored test `/^\d{4}-\d{2}-\d{2}/` on the ten-character slice. -/
def isDatePrefix : List Char → Bool
  | [a, b, c, d, e, f, g, h, i, j] =>
    a.isDigit && b.isDigit && c.isDigit && d.isDigit && e == '-' &&
    f.isDigit && g.isDigit && h == '-' && i.isDigit && j.isDigit
  | _ => false

/-- `String.prototype.trim()`. -/
def jsTrim (l : List Char) : List Char :=
  ((l.dropWhile isJsSpace).reverse.dropWhile isJsSpace).reverse

/-- Two decimal digits as a number. -/
def twoDigits (a b : Char) : Nat := 10 * (a.toNat - 48) + (b.toNat - 48)

/-- Fraction tail of a time: optional `.` with at least one digit, then an
optional `Z`. -/
def fracPartOk (l : List Char) : Bool :=
  match l with
  | [] => true
  | ['Z'] => true
  | '.' :: rest =>
    (!(rest.takeWhile Char.isDigit).isEmpty) &&
      (rest.dropWhile Char.isDigit == [] || rest.dropWhile Char.isDigit == ['Z'])
  | _ => false

/-- Seconds tail of a time: optional `:SS` with range check, then the
fraction tail, or a bare `Z`. -/
def secPartOk (l : List Char) : Bool :=
  match l with
  | [] => true
  | ['Z'] => true
  | ':' :: s1 :: s2 :: rest =>
    s1.isDigit && s2.isDigit && decide (twoDigits s1 s2 < 60) && fracPartOk rest
  | _ => false

/-- `HH:MM` with range checks followed by the seconds tail. -/
def hmsOk (l : List Char) : Bool :=
  match l with
  | h1 :: h2 :: ':' :: m1 :: m2 :: rest =>
    h1.isDigit && h2.isDigit && m1.isDigit && m2.isDigit &&
      decide (twoDigits h1 h2 < 24) && decide (twoDigits m1 m2 < 60) && secPartOk rest
  | _ => false

/-- Time part: absent, or introduced by `T` or a space. -/
def timePartOk (l : List Char) : Bool :=
  match l with
  | [] => true
  | sep :: rest => (sep == 'T' || sep == ' ') && hmsOk rest

/-- Models the host `Date` constructor applied to the strings the
`DateTime` recognizer collects (a `YYYY-MM-DD` prefix followed by
characters of the date-time class): valid when the date fields are in
range and any time part is `T`- or space-separated `HH:MM[:SS[.fff]][Z]`
with fields in range.  Host acceptance of other host-specific layouts is
not modelled; no claim evaluates this predicate on a true prefix. -/
def jsDateValid (l : List Char) : Bool :=
  match l with
  | y1 :: y2 :: y3 :: y4 :: '-' :: m1 :: m2 :: '-' :: d1 :: d2 :: rest =>
    y1.isDigit && y2.isDigit && y3.isDigit && y4.isDigit &&
    m1.isDigit && m2.isDigit && d1.isDigit && d2.isDigit &&
    decide (1 ≤ twoDigits m1 m2) && decide (twoDigits m1 m2 ≤ 12) &&
    decide (1 ≤ twoDigits d1 d2) && decide (twoDigits d1 d2 ≤ 31) &&
    timePartOk rest
  | _ => false

/-- `DateTime`: a committed `YYYY-MM-DD` prefix, then absorb the date-time
character class; text the host `Date` cannot parse is a hard error. -/
def DateTime (s : Scanner) : PRes JsValue :=
  withSkip true false s fun s1 =>
    let dateStr := s1.slice 0 10
    if isDatePrefix dateStr then
      let (acc, s2) := scanWhile isDateTimeChar (s1.next 10) []
      let full := dateStr ++ acc
      if jsDateValid (jsTrim full) then
        .matched (.vDate (String.mk (jsTrim full))) s2
      else .thrown (.toml ("Invalid date string \"" ++ String.mk full ++ "\"")) s2
    else .notMatched s1

/-- The anchored test `/^(\d{2}):(\d{2}):(\d{2})/` on the eight-character
slice (no range checks). -/
def isTimePrefix : List Char → Bool
  | [a, b, c, d, e, f, g, h] =>
    a.isDigit && b.isDigit && c == ':' && d.isDigit && e.isDigit && f == ':' &&
    g.isDigit && h.isDigit
  | _ => false

/-- `LocalTime`: `HH:MM:SS` kept as its literal string; a dot extends it
with the following digits. -/
def LocalTime (s : Scanner) : PRes JsValue :=
  withSkip true false s fun s1 =>
    let timeStr := s1.slice 0 8
    if isTimePrefix timeStr then
      if (s1.next 8).char = some '.' then
        let (digits, s3) := scanWhile Char.isDigit ((s1.next 8).next 1) []
        .matched (.vStr (String.mk (timeStr ++ '.' :: digits))) s3
      else .matched (.vStr (String.mk timeStr)) (s1.next 8)
    else .notMatched s1

/-! ## Dotted keys and headers -/

/-- Try the continuation on a non-match (the source's `or` loop advances to
the next alternative with the shared, possibly moved, scanner). -/
def PRes.orElse {α : Type} : PRes α → (Scanner → PRes α) → PRes α
  | .matched v s, _ => .matched v s
  | .notMatched s, k => k s
  | .thrown e s, _ => .thrown e s
  | .timeout s, _ => .timeout s

/-- Map the matched value. -/
def PRes.map {α β : Type} (f : α → β) : PRes α → PRes β
  | .matched v s => .matched (f v) s
  | .notMatched s => .notMatched s
  | .thrown e s => .thrown e s
  | .timeout s => .timeout s

/-- The key alternation `or([BareKey, BasicString, LiteralString])`. -/
def keyAlt : Scanner → PRes String :=
  orP [BareKey, BasicString, LiteralString]

/-- `DottedKey = join(or([BareKey, BasicString, LiteralString]), ".")`. -/
def DottedKey (fuel : Nat) (s : Scanner) : PRes (List String) :=
  join keyAlt "." fuel s

/-- `TableHeader = surround("[", DottedKey, "]")`. -/
def TableHeader (fuel : Nat) (s : Scanner) : PRes (List String) :=
  surround "[" DottedKey "]" fuel s

/-- `TableArrayHeader = surround("[[", DottedKey, "]]")`. -/
def TableArrayHeader (fuel : Nat) (s : Scanner) : PRes (List String) :=
  surround "[[" DottedKey "]]" fuel s

/-- The folding switch of `Toml`: `Block` values deep-merge into the root;
`Table` and `TableArray` go through the assignment algorithm. -/
def tomlFold (body : JsValue) : List TomlBlock → Except JsErr JsValue
  | [] => .ok body
  | blk :: rest =>
    match blk.type with
    | .Block => tomlFold (deepMerge body blk.value) rest
    | _ =>
      match deepAssignWithTable body blk with
      | .ok body2 => tomlFold body2 rest
      | .error e => .error e

/-! ## The recursive value grammar

The source ties the grammar's recursive knot through closures (`Value`
refers to `ArrayValue` and `InlineTable`, which refer back to `Value` and
`Pair`).  Here the knot is tied by one recursion on a fuel counter: a
`Grammar` record holds every function of the knot, `grammarStep` builds
each level from the previous one (each member consumes one fuel unit per
call, loops included, by always invoking the previous level), and level
zero times out.  Adequacy of the fuel `parse` supplies is proved as the
termination theorem. -/

/-- One level of the grammar knot. -/
structure Grammar where
  value : Scanner → PRes JsValue
  arrayValueLoop : Scanner → List JsValue → PRes (List JsValue)
  arrayValue : Scanner → PRes JsValue
  pairJoin : Scanner → PRes (List JsValue)
  pairJoinLoop : Scanner → List JsValue → PRes (List JsValue)
  inlineTable : Scanner → PRes JsValue
  pair : Scanner → PRes JsValue
  repeatPairLoop : Scanner → List JsValue → PRes (List JsValue)
  block : Scanner → PRes TomlBlock
  tableP : Scanner → PRes TomlBlock
  tableArray : Scanner → PRes TomlBlock
  tomlRepeatLoop : Scanner → List TomlBlock → PRes (List TomlBlock)
  toml : Scanner → PRes JsValue

/-- The exhausted level: every member reports fuel exhaustion. -/
def grammarZero : Grammar where
  value s := .timeout s
  arrayValueLoop s _ := .timeout s
  arrayValue s := .timeout s
  pairJoin s := .timeout s
  pairJoinLoop s _ := .timeout s
  inlineTable s := .timeout s
  pair s := .timeout s
  repeatPairLoop s _ := .timeout s
  block s := .timeout s
  tableP s := .timeout s
  tableArray s := .timeout s
  tomlRepeatLoop s _ := .timeout s
  toml s := .timeout s

/-- `Value`: the ordered alternation over every value recognizer
(multiline strings before single-line strings, float before integer,
arrays and inline tables last); the source's `or` applied to the listed
parsers, inlined at the recursive knot. -/
def ValueStep (g : Grammar) (s : Scanner) : PRes JsValue :=
  ((MultilineBasicString s).map .vStr).orElse fun s1 =>
  ((MultilineLiteralString s1).map .vStr).orElse fun s2 =>
  ((BasicString s2).map .vStr).orElse fun s3 =>
  ((LiteralString s3).map .vStr).orElse fun s4 =>
  (Symbols s4).orElse fun s5 =>
  (DateTime s5).orElse fun s6 =>
  (LocalTime s6).orElse fun s7 =>
  (Float s7).orElse fun s8 =>
  (Integer s8).orElse fun s9 =>
  (g.arrayValue s9).orElse fun s10 =>
  g.inlineTable s10

/-- The element loop of `ArrayValue`: skip fully, parse one value, skip
inline, and continue only past a comma (so a trailing comma ends the loop
cleanly without an error). -/
def arrayValueLoopStep (g : Grammar) (s : Scanner) (array : List JsValue) :
    PRes (List JsValue) :=
  if s.eof then .matched array s
  else
    withSkip false true s fun s1 =>
      match g.value s1 with
      | .matched v s2 =>
        withSkip true false s2 fun s3 =>
          if s3.char = some ',' then g.arrayValueLoop (s3.next 1) (array ++ [v])
          else .matched (array ++ [v]) s3
      | .notMatched s2 => .matched array s2
      | .thrown e s2 => .thrown e s2
      | .timeout s2 => .timeout s2

/-- `ArrayValue`: `[`, the element loop, a full skip, then a required `]`
(hard error otherwise). -/
def ArrayValueStep (g : Grammar) (s : Scanner) : PRes JsValue :=
  withSkip true false s fun s1 =>
    if s1.char = some '[' then
      match g.arrayValueLoop (s1.next 1) [] with
      | .matched array s2 =>
        withSkip false true s2 fun s3 =>
          if s3.char = some ']' then .matched (.arr array) (s3.next 1)
          else .thrown (.toml "Array is not closed") s3
      | .notMatched s2 => .notMatched s2
      | .thrown e s2 => .thrown e s2
      | .timeout s2 => .timeout s2
    else .notMatched s1

/-- `join(Pair, ",")` as used by `InlineTable`: first pair, then the
separator loop. -/
def pairJoinStep (g : Grammar) (s : Scanner) : PRes (List JsValue) :=
  match g.pair s with
  | .matched v s1 => g.pairJoinLoop s1 [v]
  | .notMatched s1 => .notMatched s1
  | .thrown e s1 => .thrown e s1
  | .timeout s1 => .timeout s1

/-- The separator loop of `join(Pair, ",")`: an absent comma ends the
loop; a present comma demands another pair. -/
def pairJoinLoopStep (g : Grammar) (s : Scanner) (acc : List JsValue) :
    PRes (List JsValue) :=
  if s.eof then .matched acc s
  else
    match character "," s with
    | .matched _ s1 =>
      match g.pair s1 with
      | .matched v s2 => g.pairJoinLoop s2 (acc ++ [v])
      | .notMatched s2 => .thrown (.toml "Invalid token after \",\"") s2
      | .thrown e s2 => .thrown e s2
      | .timeout s2 => .timeout s2
    | .notMatched s1 => .matched acc s1
    | .thrown e s1 => .thrown e s1
    | .timeout s1 => .timeout s1

/-- `InlineTable`: a full skip, then the empty-table fast path — only the
character at offset 1 is compared with `}` — otherwise
`surround("{", join(Pair, ","), "}")` with the pairs deep-merged left to
right. -/
def InlineTableStep (g : Grammar) (s : Scanner) : PRes JsValue :=
  withSkip false true s fun s1 =>
    if s1.char 1 = some '}' then .matched (.table []) (s1.next 2)
    else
      match character "\x7b" s1 with
      | .matched _ s2 =>
        match g.pairJoin s2 with
        | .matched pairs s3 =>
          match character "\x7d" s3 with
          | .matched _ s4 =>
            .matched (pairs.foldl (fun t p => deepMerge t p) (.table [])) s4
          | .notMatched s4 =>
            .thrown (.toml "Not closed by \"\x7d\" after started with \"\x7b\"") s4
          | .thrown e s4 => .thrown e s4
          | .timeout s4 => .timeout s4
        | .notMatched s3 => .thrown (.toml "Invalid token after \"\x7b\"") s3
        | .thrown e s3 => .thrown e s3
        | .timeout s3 => .timeout s3
      | .notMatched s2 => .notMatched s2
      | .thrown e s2 => .thrown e s2
      | .timeout s2 => .timeout s2

/-- `Pair = kv(DottedKey, "=", Value)`: an absent key is a soft non-match;
a missing `=` or an invalid value after it is a hard error; the result is
the nested singleton mapping `unflat(key, value)`. -/
def PairStep (g : Grammar) (fuel : Nat) (s : Scanner) : PRes JsValue :=
  match DottedKey fuel s with
  | .matched key s1 =>
    match character "=" s1 with
    | .matched _ s2 =>
      match g.value s2 with
      | .matched v s3 => .matched (unflat key v) s3
      | .notMatched s3 =>
        .thrown (.toml "Value of key/value pair is invalid data format") s3
      | .thrown e s3 => .thrown e s3
      | .timeout s3 => .timeout s3
    | .notMatched s2 =>
      .thrown (.toml "key/value pair doesn\x27t have \"=\"") s2
    | .thrown e s2 => .thrown e s2
    | .timeout s2 => .timeout s2
  | .notMatched s1 => .notMatched s1
  | .thrown e s1 => .thrown e s1
  | .timeout s1 => .timeout s1

/-- The loop of `repeat(Pair)` (used by `Block`): stop at EOF or on the
first non-matching pair, with a full whitespace/comment skip after every
success; zero successes is a soft non-match. -/
def repeatPairLoopStep (g : Grammar) (s : Scanner) (body : List JsValue) :
    PRes (List JsValue) :=
  if s.eof then (if body.isEmpty then .notMatched s else .matched body s)
  else
    match g.pair s with
    | .matched v s1 =>
      withSkip false true s1 fun s2 => g.repeatPairLoop s2 (body ++ [v])
    | .notMatched s1 =>
      if body.isEmpty then .notMatched s1 else .matched body s1
    | .thrown e s1 => .thrown e s1
    | .timeout s1 => .timeout s1

/-- `Block`: a full skip, then `merge(repeat(Pair))` wrapped as a `Block`
construct. -/
def BlockStep (g : Grammar) (s : Scanner) : PRes TomlBlock :=
  withSkip false true s fun s1 =>
    match g.repeatPairLoop s1 [] with
    | .matched records s2 =>
      .matched { type := .Block, key := [], value := mergeRecords records } s2
    | .notMatched s2 => .notMatched s2
    | .thrown e s2 => .thrown e s2
    | .timeout s2 => .timeout s2

/-- `Table`: a full skip, the `[`-header, a full skip, then an optional
block (`{}` when the block does not match). -/
def TableStep (g : Grammar) (fuel : Nat) (s : Scanner) : PRes TomlBlock :=
  withSkip false true s fun s1 =>
    match TableHeader fuel s1 with
    | .matched key s2 =>
      withSkip false true s2 fun s3 =>
        match g.block s3 with
        | .matched blk s4 =>
          .matched { type := .Table, key := key, value := blk.value } s4
        | .notMatched s4 =>
          .matched { type := .Table, key := key, value := .table [] } s4
        | .thrown e s4 => .thrown e s4
        | .timeout s4 => .timeout s4
    | .notMatched s2 => .notMatched s2
    | .thrown e s2 => .thrown e s2
    | .timeout s2 => .timeout s2

/-- `TableArray`: a full skip, the `[[`-header, a full skip, then an
optional block. -/
def TableArrayStep (g : Grammar) (fuel : Nat) (s : Scanner) : PRes TomlBlock :=
  withSkip false true s fun s1 =>
    match TableArrayHeader fuel s1 with
    | .matched key s2 =>
      withSkip false true s2 fun s3 =>
        match g.block s3 with
        | .matched blk s4 =>
          .matched { type := .TableArray, key := key, value := blk.value } s4
        | .notMatched s4 =>
          .matched { type := .TableArray, key := key, value := .table [] } s4
        | .thrown e s4 => .thrown e s4
        | .timeout s4 => .timeout s4
    | .notMatched s2 => .notMatched s2
    | .thrown e s2 => .thrown e s2
    | .timeout s2 => .timeout s2

/-- The loop of `repeat(or([Block, TableArray, Table]))`: the document's
top-level repetition (order matters: `Block` first, `TableArray` before
`Table`). -/
def tomlRepeatLoopStep (g : Grammar) (s : Scanner) (body : List TomlBlock) :
    PRes (List TomlBlock) :=
  if s.eof then (if body.isEmpty then .notMatched s else .matched body s)
  else
    match (g.block s).orElse
        (fun sa => (g.tableArray sa).orElse fun sb => g.tableP sb) with
    | .matched v s1 =>
      withSkip false true s1 fun s2 => g.tomlRepeatLoop s2 (body ++ [v])
    | .notMatched s1 =>
      if body.isEmpty then .notMatched s1 else .matched body s1
    | .thrown e s1 => .thrown e s1
    | .timeout s1 => .timeout s1

/-- `Toml`: parse the top-level block sequence and fold it into the root
mapping (an assignment error is thrown at the scanner position after the
blocks). -/
def TomlStep (g : Grammar) (s : Scanner) : PRes JsValue :=
  match g.tomlRepeatLoop s [] with
  | .matched blocks s1 =>
    match tomlFold (.table []) blocks with
    | .ok body => .matched body s1
    | .error e => .thrown e s1
  | .notMatched s1 => .notMatched s1
  | .thrown e s1 => .thrown e s1
  | .timeout s1 => .timeout s1

/-- Level `fuel + 1` of the knot from level `fuel` (the `fuel` parameter
is also handed to `DottedKey`'s separator loop, whose iterations spend the
same budget). -/
def grammarStep (g : Grammar) (fuel : Nat) : Grammar where
  value := ValueStep g
  arrayValueLoop := arrayValueLoopStep g
  arrayValue := ArrayValueStep g
  pairJoin := pairJoinStep g
  pairJoinLoop := pairJoinLoopStep g
  inlineTable := InlineTableStep g
  pair := PairStep g fuel
  repeatPairLoop := repeatPairLoopStep g
  block := BlockStep g
  tableP := TableStep g fuel
  tableArray := TableArrayStep g fuel
  tomlRepeatLoop := tomlRepeatLoopStep g
  toml := TomlStep g

/-- The grammar knot at each fuel level. -/
def grammar : Nat → Grammar
  | 0 => grammarZero
  | fuel + 1 => grammarStep (grammar fuel) fuel

/-- `Value` at a fuel level. -/
def Value (fuel : Nat) : Scanner → PRes JsValue := (grammar fuel).value

/-- `ArrayValue` at a fuel level. -/
def ArrayValue (fuel : Nat) : Scanner → PRes JsValue := (grammar fuel).arrayValue

/-- `InlineTable` at a fuel level. -/
def InlineTable (fuel : Nat) : Scanner → PRes JsValue := (grammar fuel).inlineTable

/-- `Pair` at a fuel level. -/
def Pair (fuel : Nat) : Scanner → PRes JsValue := (grammar fuel).pair

/-- `Block` at a fuel level. -/
def Block (fuel : Nat) : Scanner → PRes TomlBlock := (grammar fuel).block

/-- `Table` at a fuel level. -/
def Table (fuel : Nat) : Scanner → PRes TomlBlock := (grammar fuel).tableP

/-- `TableArray` at a fuel level. -/
def TableArray (fuel : Nat) : Scanner → PRes TomlBlock := (grammar fuel).tableArray

/-- `Toml` at a fuel level. -/
def Toml (fuel : Nat) : Scanner → PRes JsValue := (grammar fuel).toml

/-! ## The driver (`ParserFactory`) -/

/-- `subStr.split("\n")` (always at least one, possibly empty, line). -/
def splitOnNl : List Char → List (List Char)
  | [] => [[]]
  | '\n' :: rest => [] :: splitOnNl rest
  | c :: rest =>
    match splitOnNl rest with
    | line :: lines => (c :: line) :: lines
    | [] => [[c]]

/-- The driver's row: the number of lines of the consumed prefix. -/
def rowOf (text : List Char) (position : Nat) : Nat :=
  (splitOnNl (text.take position)).length

/-- The driver's column loop: starting from the prefix length, subtract
each full line plus its newline while the count exceeds the line
length. -/
def colLoop (count : Nat) : List (List Char) → Nat
  | [] => count
  | line :: rest =>
    if line.length < count then colLoop (count - (line.length + 1)) rest
    else count

/-- The driver's column: the count of characters consumed since the last
newline. -/
def colOf (text : List Char) (position : Nat) : Nat :=
  colLoop (text.take position).length (splitOnNl (text.take position))

/-- The driver's positioned message. -/
def formatParseError (text : List Char) (position : Nat) (msg : String) : String :=
  "Parse error on line " ++ toString (rowOf text position) ++ ", column " ++
    toString (colOf text position) ++ ": " ++ msg

/-- `Unexpected character: "<char>"` with the scanner's current character
(the empty string at EOF). -/
def unexpectedCharMsg (s : Scanner) : String :=
  "Unexpected character: \"" ++ String.mk (s.char).toList ++ "\""

/-- The fuel `parse` supplies: linear in the input length (its adequacy is
the termination theorem). -/
def fuelFor (n : Nat) : Nat := 16 * n + 64

/-- `ParserFactory(parser)`: run the parser on a fresh scanner; convert a
thrown error, a non-match, trailing unconsumed input — or, in this
embedding, fuel exhaustion, which the termination theorem rules out — into
a positioned `TOMLParseError` message; otherwise return the body. -/
def ParserFactory (parser : Nat → Scanner → PRes JsValue)
    (tomlString : List Char) : Except String JsValue :=
  match parser (fuelFor tomlString.length) ⟨tomlString, 0⟩ with
  | .matched body s =>
    if s.eof then .ok body
    else .error (formatParseError tomlString s.position (unexpectedCharMsg s))
  | .notMatched s =>
    .error (formatParseError tomlString s.position (unexpectedCharMsg s))
  | .thrown e s =>
    .error (formatParseError tomlString s.position e.message)
  | .timeout s =>
    .error (formatParseError tomlString s.position "embedding fuel exhausted")

/-- `parse = ParserFactory(Toml)`. -/
def parse (tomlString : List Char) : Except String JsValue :=
  ParserFactory Toml tomlString

/-! ## The serializer (`Dumper` / `stringify`) -/

/-- Two lower-case hex digits. -/
def hexPad2 (n : Nat) : List Char := [Nat.digitChar (n / 16), Nat.digitChar (n % 16)]

/-- One character of `JSON.stringify`'s string escaping. -/
def jsonEscapeChar (c : Char) : List Char :=
  if c = '"' then ['\\', '"']
  else if c = '\\' then ['\\', '\\']
  else if c = '\x08' then ['\\', 'b']
  else if c = '\x0c' then ['\\', 'f']
  else if c = '\n' then ['\\', 'n']
  else if c = '\r' then ['\\', 'r']
  else if c = '\t' then ['\\', 't']
  else if c.toNat < 0x20 then '\\' :: 'u' :: '0' :: '0' :: hexPad2 c.toNat
  else [c]

/-- `JSON.stringify` of a string (lone surrogates cannot inhabit `Char`,
so the well-formedness escapes do not arise). -/
def jsonQuote (s : String) : String :=
  "\"" ++ String.mk (s.toList.map jsonEscapeChar).flatten ++ "\""

/-- `joinKeys`: dot-join the segments, JSON-quoting a segment that is
empty or contains a character outside `[A-Za-z0-9_-]`. -/
def joinKeys (keys : List String) : String :=
  String.intercalate "." (keys.map fun str =>
    if str.length = 0 ∨ str.toList.any (fun c => !isBareKeyChar c) then jsonQuote str
    else str)

/-- `#printDate` renders the host date's UTC fields as
`YYYY-MM-DDTHH:MM:SS.mmm`; host calendar arithmetic (including the
local-time reading of unzoned inputs) is not modelled, so the model keeps
the stored text.  No theorem evaluates this. -/
def printDate (iso : String) : String := iso

/-- The host's number-to-string conversion for the numbers the model
carries; a `float` literal is rendered as its text (the host would render
the double's shortest decimal form, which agrees on canonical literals; no
theorem evaluates a non-canonical one). -/
def jsNumToString : JsNum → String
  | .int i => toString i
  | .float lit => lit
  | .inf => "Infinity"
  | .neginf => "-Infinity"
  | .nan => "NaN"

/-- The serializer's array classification. -/
inductive ArrayType where
  | ONLY_PRIMITIVE
  | ONLY_OBJECT_EXCLUDING_ARRAY
  | MIXED
deriving Repr, DecidableEq

/-- `#isPrimitive`: `Date`, `RegExp`, string, number or boolean. -/
def isPrimitive : JsValue → Bool
  | .vStr _ => true
  | .vNum _ => true
  | .vBool _ => true
  | .vDate _ => true
  | _ => false

/-- Runtime `instanceof Array`. -/
def isArrayV : JsValue → Bool
  | .arr _ => true
  | _ => false

/-- `#getTypeOfArray` (the per-node memo cache only avoids recomputation
and is dropped): empty arrays count as primitive-only; a leading array or
any primitive/object disagreement is mixed. -/
def getTypeOfArray (a : List JsValue) : ArrayType :=
  match a with
  | [] => .ONLY_PRIMITIVE
  | a0 :: rest =>
    if isArrayV a0 then .MIXED
    else if rest.any (fun x => (isPrimitive x != isPrimitive a0) || isArrayV x) then .MIXED
    else if isPrimitive a0 then .ONLY_PRIMITIVE
    else .ONLY_OBJECT_EXCLUDING_ARRAY

/-- `#isSimplySerializable`: primitives, and arrays that are not arrays of
objects. -/
def isSimplySerializable : JsValue → Bool
  | .vStr _ => true
  | .vNum _ => true
  | .vBool _ => true
  | .vDate _ => true
  | .arr a => getTypeOfArray a != .ONLY_OBJECT_EXCLUDING_ARRAY
  | .table _ => false

mutual

/-- `#printAsInlineValue`. -/
def printAsInlineValue : JsValue → String
  | .vDate d => "\"" ++ printDate d ++ "\""
  | .vStr s => jsonQuote s
  | .vNum n => jsNumToString n
  | .vBool b => if b then "true" else "false"
  | .arr xs => "[" ++ String.intercalate "," (printInlineList xs) ++ "]"
  | .table fields => "\x7b" ++ String.intercalate "," (printInlineFields fields) ++ "\x7d"

/-- Inline rendering of array elements. -/
def printInlineList : List JsValue → List String
  | [] => []
  | x :: t => printAsInlineValue x :: printInlineList t

/-- Inline rendering of `dotted.key = value` members. -/
def printInlineFields : List (String × JsValue) → List String
  | [] => []
  | (k, v) :: t =>
    (joinKeys [k] ++ " = " ++ printAsInlineValue v) :: printInlineFields t

end

mutual

/-- `JSON.stringify` of a value (used for primitive-only array
declarations): the non-finite numbers serialize as `null`; a date
serializes via its ISO string. -/
def jsonStringifyValue : JsValue → String
  | .vStr s => jsonQuote s
  | .vNum (.int i) => toString i
  | .vNum (.float lit) => lit
  | .vNum _ => "null"
  | .vBool b => if b then "true" else "false"
  | .vDate d => jsonQuote (printDate d)
  | .arr xs => "[" ++ String.intercalate "," (jsonStringifyList xs) ++ "]"
  | .table fs => "\x7b" ++ String.intercalate "," (jsonStringifyFields fs) ++ "\x7d"

/-- `JSON.stringify` of array elements. -/
def jsonStringifyList : List JsValue → List String
  | [] => []
  | x :: t => jsonStringifyValue x :: jsonStringifyList t

/-- `JSON.stringify` of object members. -/
def jsonStringifyFields : List (String × JsValue) → List String
  | [] => []
  | (k, v) :: t => (jsonQuote k ++ ":" ++ jsonStringifyValue v) :: jsonStringifyFields t

end

/-- `#declaration` (the `maxPad` bookkeeping only feeds the key-alignment
option, which is off in every claim and not modelled). -/
def declaration (keys : List String) : String := joinKeys keys ++ " = "

/-- `#header`. -/
def header (keys : List String) : String := "[" ++ joinKeys keys ++ "]"

/-- `#headerGroup`. -/
def headerGroup (keys : List String) : String := "[[" ++ joinKeys keys ++ "]]"

/-- `#strDeclaration`. -/
def strDeclaration (keys : List String) (value : String) : String :=
  declaration keys ++ jsonQuote value

/-- `#arrayDeclaration`. -/
def arrayDeclaration (keys : List String) (value : JsValue) : String :=
  declaration keys ++ jsonStringifyValue value

/-- `#numberDeclaration`: infinities render as `inf`/`-inf`; every other
number uses the host conversion. -/
def numberDeclaration (keys : List String) (value : JsNum) : String :=
  match value with
  | .inf => declaration keys ++ "inf"
  | .neginf => declaration keys ++ "-inf"
  | v => declaration keys ++ jsNumToString v

/-- `#boolDeclaration`. -/
def boolDeclaration (keys : List String) (value : Bool) : String :=
  declaration keys ++ (if value then "true" else "false")

/-- `#dateDeclaration`. -/
def dateDeclaration (keys : List String) (d : String) : String :=
  declaration keys ++ printDate d

mutual

/-- `#printObject`, fuel-bounded (one unit per call; the wrapper supplies
more than the recursion tree can use): inline-serializable properties (in
insertion order) render before the others (`sortedProps =
inlineProps.concat(multilineProps)`, realized as two passes over the field
list); one empty line closes every object. -/
def printObjectGo : Nat → List (String × JsValue) → List String → List String
  | 0, _, _ => []
  | n + 1, fields, keys =>
    printPropsGo n (fields.filter fun kv => isSimplySerializable kv.2) keys ++
      printPropsGo n (fields.filter fun kv => !isSimplySerializable kv.2) keys ++ [""]

/-- The property loop of `#printObject`. -/
def printPropsGo : Nat → List (String × JsValue) → List String → List String
  | 0, _, _ => []
  | _ + 1, [], _ => []
  | n + 1, (prop, value) :: rest, keys =>
    printOnePropGo n prop value keys ++ printPropsGo n rest keys

/-- One property of `#printObject`: dispatch on the value's runtime type
(`Date` before string/`RegExp`, then number, boolean, array — classified —
and finally plain objects, which emit a header and recurse). -/
def printOnePropGo : Nat → String → JsValue → List String → List String
  | 0, _, _, _ => []
  | n + 1, prop, value, keys =>
    match value with
    | .vDate d => [dateDeclaration [prop] d]
    | .vStr sv => [strDeclaration [prop] sv]
    | .vNum nv => [numberDeclaration [prop] nv]
    | .vBool b => [boolDeclaration [prop] b]
    | .arr xs =>
      match getTypeOfArray xs with
      | .ONLY_PRIMITIVE => [arrayDeclaration [prop] (.arr xs)]
      | .ONLY_OBJECT_EXCLUDING_ARRAY => printTableArrayElemsGo n xs (keys ++ [prop])
      | .MIXED =>
        [declaration [prop] ++ "[" ++ String.intercalate "," (printInlineList xs) ++ "]"]
    | .table fs => ["", header (keys ++ [prop])] ++ printObjectGo n fs (keys ++ [prop])

/-- The array-of-objects case of `#printObject`: one `[[...]]` header and
one recursive body per element (when the classification said
array-of-objects every element is a mapping; the `[""]` arm is
`#printObject` of an object with no enumerable own properties). -/
def printTableArrayElemsGo : Nat → List JsValue → List String → List String
  | 0, _, _ => []
  | _ + 1, [], _ => []
  | n + 1, x :: t, keys =>
    (["", headerGroup keys] ++
      (match x with
       | .table fs => printObjectGo n fs keys
       | _ => [""])) ++ printTableArrayElemsGo n t keys

end

/-- `#printObject` at a fuel its recursion cannot exhaust (each call
consumes one unit and descends into a strictly smaller part of the
tree). -/
def printObject (fields : List (String × JsValue)) (keys : List String) :
    List String :=
  printObjectGo (4 * jsFieldsSize fields + 4) fields keys

/-- The header test of `#format`: first character `[`, second not `[`. -/
def isPlainHeaderLine (l : String) : Bool :=
  match l.toList with
  | '[' :: rest => rest.head? != some '['
  | _ => false

/-- The header-collapsing loop of `#format` (with `keyAlignment` off, its
only other branch is a plain copy): a `[...]` header directly followed by
an empty line and a line whose prefix extends the header by a dot is
dropped together with that empty line. -/
def headerDropLoop : List String → List String
  | [] => []
  | l :: rest =>
    if isPlainHeaderLine l then
      match rest with
      | "" :: l2 :: rest2 =>
        if l2.toList.take l.length == (l.toList.dropLast ++ ['.']) then
          headerDropLoop (l2 :: rest2)
        else l :: headerDropLoop ("" :: l2 :: rest2)
      | [] => [l]
      | [r1] => l :: headerDropLoop [r1]
      | r1 :: r2 :: rest2 => l :: headerDropLoop (r1 :: r2 :: rest2)
    else l :: headerDropLoop rest

/-- The blank-line cleanup of `#format`: keep only the last empty line of
every run. -/
def cleanBlanks : List String → List String
  | [] => []
  | "" :: "" :: rest => cleanBlanks ("" :: rest)
  | l :: rest => l :: cleanBlanks rest

/-- `stringify(srcObj)` with default format options (`keyAlignment`
off). -/
def stringify (srcObj : JsValue) : String :=
  match srcObj with
  | .table fields =>
    String.intercalate "\n" (cleanBlanks (headerDropLoop (printObject fields [])))
  | _ => String.intercalate "\n" (cleanBlanks (headerDropLoop [""]))

/-! ## Concrete documents used by the claim theorems -/

/-- The two-block table-array document of claim C3. -/
def binDoc : List Char :=
  "[[bin]]\nname = \"deno\"\n\n[[bin]]\nname = \"deno_core\"".toList

/-- The first `[[bin]]` block as the parser returns it. -/
def binBlk1 : TomlBlock :=
  ⟨.TableArray, ["bin"], .table [("name", .vStr "deno")]⟩

/-- The second `[[bin]]` block as the parser returns it. -/
def binBlk2 : TomlBlock :=
  ⟨.TableArray, ["bin"], .table [("name", .vStr "deno_core")]⟩

/-! ## Shared assembly lemmas for concrete parses -/

/-- A skip that succeeds lets `withSkip` continue at the skipped scanner. -/
theorem withSkip_ok {α : Type} (inl com : Bool) (s s1 : Scanner) (k : Scanner → PRes α)
    (h : s.nextUntilChar inl com = .ok s1) : withSkip inl com s k = k s1 := by
  unfold withSkip
  rw [h]

/-- One successful iteration of the top-level block loop, stated over
abstract pieces so concrete instances assemble by rewriting. -/
theorem tomlRepeatLoopStep_matched (g : Grammar) (s s1 s2 : Scanner)
    (body : List TomlBlock) (v : TomlBlock) (res : PRes (List TomlBlock))
    (hne : s.eof = false)
    (hm : (g.block s).orElse
        (fun sa => (g.tableArray sa).orElse fun sb => g.tableP sb) =
      .matched v s1)
    (hskip : s1.nextUntilChar false true = .ok s2)
    (hrec : g.tomlRepeatLoop s2 (body ++ [v]) = res) :
    tomlRepeatLoopStep g s body = res := by
  unfold tomlRepeatLoopStep
  rw [hm]
  split
  · next h => rw [hne] at h; exact absurd h Bool.false_ne_true
  · show withSkip false true s1 (fun s2 => g.tomlRepeatLoop s2 (body ++ [v])) = res
    unfold withSkip
    rw [hskip]
    exact hrec

/-! ## The `[[bin]]` document, block by block -/

set_option maxHeartbeats 2000000 in
theorem binStage1 : (grammar 846).block ⟨binDoc, 0⟩ = .notMatched ⟨binDoc, 0⟩ := by rfl

set_option maxHeartbeats 2000000 in
theorem binStage2 : (grammar 846).tableArray ⟨binDoc, 0⟩ = .matched binBlk1 ⟨binDoc, 23⟩ := by rfl

set_option maxHeartbeats 2000000 in
theorem binStage3 : (grammar 845).block ⟨binDoc, 23⟩ = .notMatched ⟨binDoc, 23⟩ := by rfl

set_option maxHeartbeats 2000000 in
theorem binStage4 : (grammar 845).tableArray ⟨binDoc, 23⟩ = .matched binBlk2 ⟨binDoc, 49⟩ := by rfl

set_option maxHeartbeats 2000000 in
theorem binLoop2 : (grammar 846).tomlRepeatLoop ⟨binDoc, 23⟩ [binBlk1] =
    .matched [binBlk1, binBlk2] ⟨binDoc, 49⟩ := by
  rw [show (grammar 846).tomlRepeatLoop = tomlRepeatLoopStep (grammar 845) from rfl]
  unfold tomlRepeatLoopStep
  rw [binStage3]
  simp only [PRes.orElse]
  rw [binStage4]
  simp only [PRes.orElse]
  rfl

set_option maxRecDepth 8000 in
theorem binOr1 : ((grammar 846).block ⟨binDoc, 0⟩).orElse
    (fun sa => ((grammar 846).tableArray sa).orElse fun sb => (grammar 846).tableP sb) =
    .matched binBlk1 ⟨binDoc, 23⟩ := by
  rw [binStage1]
  simp only [PRes.orElse]
  rw [binStage2]

set_option maxRecDepth 8000 in
theorem binLoop1 : (grammar 847).tomlRepeatLoop ⟨binDoc, 0⟩ [] =
    .matched [binBlk1, binBlk2] ⟨binDoc, 49⟩ := by
  rw [show (grammar 847).tomlRepeatLoop = tomlRepeatLoopStep (grammar 846) from rfl]
  refine tomlRepeatLoopStep_matched (grammar 846) ⟨binDoc, 0⟩ ⟨binDoc, 23⟩ ⟨binDoc, 23⟩
      [] binBlk1 _ (by rfl) binOr1 (by rfl) ?_
  rw [List.nil_append]
  exact binLoop2

set_option maxRecDepth 8000 in
theorem binToml : Toml (fuelFor binDoc.length) ⟨binDoc, 0⟩ =
    .matched (.table [("bin", .arr [.table [("name", .vStr "deno")],
      .table [("name", .vStr "deno_core")]])]) ⟨binDoc, 49⟩ := by
  rw [show Toml (fuelFor binDoc.length) = TomlStep (grammar 847) from rfl]
  unfold TomlStep
  rw [binLoop1]
  rfl

set_option maxRecDepth 8000 in
theorem binParse : parse binDoc =
    .ok (.table [("bin", .arr [.table [("name", .vStr "deno")],
      .table [("name", .vStr "deno_core")]])]) := by
  show ParserFactory Toml binDoc = _
  unfold ParserFactory
  rw [binToml]
  rfl

/-- C3: in the assignment algorithm, when the value at the first key
segment is a sequence, a `TableArray` declaration with exactly one
remaining key segment appends its value to that sequence, any other
declaration recurses into the last element of the sequence with the
remaining key path, and parsing two consecutive `[[bin]]` blocks holding
`name = "deno"` and `name = "deno_core"` yields
`bin = [ name deno, name deno_core ]`. -/
theorem c3_table_array_assignment :
    (∀ (target value : JsValue) (k0 : String) (xs : List JsValue),
      jsGet target k0 = some (.arr xs) →
        deepAssignGo target .TableArray [k0] value =
          .ok (jsSet target k0 (.arr (xs ++ [value])))) ∧
    (∀ (target value lastv lastv2 : JsValue) (ty : BlockKind) (k0 : String)
        (rest : List String) (xs : List JsValue),
      jsGet target k0 = some (.arr xs) →
      ¬(ty = BlockKind.TableArray ∧ rest = []) →
      xs.getLast? = some lastv →
      deepAssignGo lastv ty rest value = .ok lastv2 →
        deepAssignGo target ty (k0 :: rest) value =
          .ok (jsSet target k0 (.arr (xs.dropLast ++ [lastv2])))) ∧
    parse binDoc = .ok (.table [("bin", .arr [.table [("name", .vStr "deno")],
      .table [("name", .vStr "deno_core")]])]) := by
  refine ⟨?_, ?_, binParse⟩
  · intro target value k0 xs hget
    unfold deepAssignGo
    rw [hget]
    show (if BlockKind.TableArray = BlockKind.TableArray ∧ ([] : List String) = [] then
        Except.ok (jsSet target k0 (JsValue.arr (xs ++ [value])))
      else _) = _
    exact if_pos ⟨rfl, rfl⟩
  · intro target value lastv lastv2 ty k0 rest xs hget hne hlast hrec
    unfold deepAssignGo
    rw [hget]
    show (if ty = BlockKind.TableArray ∧ rest = [] then
        Except.ok (jsSet target k0 (JsValue.arr (xs ++ [value])))
      else _) = _
    rw [if_neg hne]
    rw [hlast]
    show (match deepAssignGo lastv ty rest value with
      | .ok lastv2 => Except.ok (jsSet target k0 (JsValue.arr (xs.dropLast ++ [lastv2])))
      | .error e => Except.error e) = _
    rw [hrec]

/-! ## Shape of every driver outcome -/

/-- Every run of `parse` either succeeds completely or fails with a
message positioned by `formatParseError`. -/
theorem parse_shape (toml : List Char) : (∃ v, parse toml = .ok v) ∨
    (∃ position msg, parse toml = .error (formatParseError toml position msg)) := by
  unfold parse ParserFactory
  cases hT : Toml (fuelFor toml.length) ⟨toml, 0⟩ with
  | matched body s =>
    by_cases he : s.eof = true
    · refine Or.inl ⟨body, ?_⟩
      show (if s.eof = true then Except.ok body
          else Except.error (formatParseError toml s.position (unexpectedCharMsg s))) =
        Except.ok body
      rw [if_pos he]
    · refine Or.inr ⟨s.position, unexpectedCharMsg s, ?_⟩
      show (if s.eof = true then Except.ok body
          else Except.error (formatParseError toml s.position (unexpectedCharMsg s))) =
        Except.error (formatParseError toml s.position (unexpectedCharMsg s))
      rw [if_neg he]
  | notMatched s => exact Or.inr ⟨s.position, unexpectedCharMsg s, rfl⟩
  | thrown e s => exact Or.inr ⟨s.position, e.message, rfl⟩
  | timeout s => exact Or.inr ⟨s.position, "embedding fuel exhausted", rfl⟩

/-! ## Invalid-whitespace checks after each skip mode -/

/-- Full-mode skip stopping on a non-EOL unicode whitespace makes
`nextUntilChar` fail with the escaped code point in the message. -/
theorem nextUntilChar_full_invalid_ws (s : Scanner) (com : Bool) (c : Char)
    (hc : (Scanner.skipFull com s).char = some c)
    (he : (Scanner.skipFull com s).isCurrentCharEOL = false)
    (hw : isJsSpace c = true) :
    s.nextUntilChar false com =
      .error (.toml ("Contains invalid whitespaces: `" ++ escapeUnicode c ++ "`"),
        Scanner.skipFull com s) := by
  unfold Scanner.nextUntilChar
  show Scanner.invalidWsCheck (Scanner.skipFull com s) = _
  unfold Scanner.invalidWsCheck
  rw [hc]
  show (if (Scanner.skipFull com s).isCurrentCharEOL = false ∧ isJsSpace c = true then
      (Except.error (JsErr.toml ("Contains invalid whitespaces: `" ++ escapeUnicode c ++ "`"),
        Scanner.skipFull com s) : Except (JsErr × Scanner) Scanner)
    else Except.ok (Scanner.skipFull com s)) = _
  rw [if_pos ⟨he, hw⟩]

/-- Inline-mode skip stopping on a non-EOL unicode whitespace makes
`nextUntilChar` fail the same way: the check runs after inline skips
too. -/
theorem nextUntilChar_inline_invalid_ws (s : Scanner) (com : Bool) (c : Char)
    (hc : (Scanner.skipInline s).char = some c)
    (he : (Scanner.skipInline s).isCurrentCharEOL = false)
    (hw : isJsSpace c = true) :
    s.nextUntilChar true com =
      .error (.toml ("Contains invalid whitespaces: `" ++ escapeUnicode c ++ "`"),
        Scanner.skipInline s) := by
  unfold Scanner.nextUntilChar
  show Scanner.invalidWsCheck (Scanner.skipInline s) = _
  unfold Scanner.invalidWsCheck
  rw [hc]
  show (if (Scanner.skipInline s).isCurrentCharEOL = false ∧ isJsSpace c = true then
      (Except.error (JsErr.toml ("Contains invalid whitespaces: `" ++ escapeUnicode c ++ "`"),
        Scanner.skipInline s) : Except (JsErr × Scanner) Scanner)
    else Except.ok (Scanner.skipInline s)) = _
  rw [if_pos ⟨he, hw⟩]

/-! ## The empty-inline-table fast path -/

/-- After the full skip, `InlineTable` looks only at the character at
offset 1: a closing brace there matches an empty table consuming two
characters, whatever the current character is. -/
theorem inlineTableStep_fast_path (g : Grammar) (s s1 : Scanner)
    (hskip : s.nextUntilChar false true = .ok s1)
    (hc : s1.char 1 = some '}') :
    InlineTableStep g s = .matched (.table []) (s1.next 2) := by
  unfold InlineTableStep
  rw [withSkip_ok false true s s1 _ hskip]
  show (if s1.char 1 = some '}' then PRes.matched (JsValue.table []) (s1.next 2) else _) = _
  rw [if_pos hc]

/-! ## The multiline-basic-string continuation step -/

/-- A backslash directly before a line feed continues the content loop at
the position `nextUntilChar` (full skip, comments off) reaches from the
character after the backslash. -/
theorem mbsLoopGo_continuation (n : Nat) (s s1 : Scanner) (acc : List Char)
    (hq : ¬s.slice 0 3 = ['"', '"', '"']) (he : s.eof = false)
    (hc : s.slice 0 2 = ['\\', '\n'])
    (hskip : (s.next 1).nextUntilChar false false = .ok s1) :
    mbsLoopGo (n + 1) s acc = mbsLoopGo n s1 acc := by
  simp only [mbsLoopGo]
  rw [if_pos ⟨hq, he⟩, if_pos hc, hskip]

/-! ## The claim theorems (C1, C2, C5, C6, C8, C9, C10) -/

/-- C1 counterexample: `a = nan` parses, its serialization prints `NaN`,
and parsing that serialization fails — the round trip is not idempotent on
every accepted document. -/
theorem c1_nan_counterexample :
    parse "a = nan".toList = .ok (.table [("a", .vNum .nan)]) ∧
    stringify (.table [("a", .vNum .nan)]) = "a = NaN\n" ∧
    parse "a = NaN\n".toList =
      .error "Parse error on line 1, column 4: Value of key/value pair is invalid data format" :=
  ⟨by rfl, by rfl, by rfl⟩

set_option maxRecDepth 8000 in
/-- C1 (amended): the round trip is idempotent on documents whose values
survive serialization; radix-prefixed integers and local times are stable
strings across both directions. -/
theorem c1_roundtrip_stable_strings :
    (parse "a = 0x10".toList = .ok (.table [("a", .vStr "0x10")]) ∧
      parse (stringify (.table [("a", .vStr "0x10")])).toList = parse "a = 0x10".toList) ∧
    (parse "t = 07:32:00".toList = .ok (.table [("t", .vStr "07:32:00")]) ∧
      parse (stringify (.table [("t", .vStr "07:32:00")])).toList =
        parse "t = 07:32:00".toList) := by
  refine ⟨⟨by rfl, ?_⟩, ⟨by rfl, ?_⟩⟩
  · rw [show stringify (.table [("a", .vStr "0x10")]) = "a = \"0x10\"\n" from by rfl,
      show parse "a = \"0x10\"\n".toList =
        Except.ok (JsValue.table [("a", JsValue.vStr "0x10")]) from by rfl,
      show parse "a = 0x10".toList =
        Except.ok (JsValue.table [("a", JsValue.vStr "0x10")]) from by rfl]
  · rw [show stringify (.table [("t", .vStr "07:32:00")]) = "t = \"07:32:00\"\n" from by rfl,
      show parse "t = \"07:32:00\"\n".toList =
        Except.ok (JsValue.table [("t", JsValue.vStr "07:32:00")]) from by rfl,
      show parse "t = 07:32:00".toList =
        Except.ok (JsValue.table [("t", JsValue.vStr "07:32:00")]) from by rfl]

/-- C2 counterexample: the error for an unconsumed `?` at position 0 names
column 0 — the driver's column is 0-based, not 1-based. -/
theorem c2_column_zero_counterexample :
    parse "?".toList =
      .error "Parse error on line 1, column 0: Unexpected character: \"?\"" := by rfl

/-- C2 (amended): every run of `parse` returns the complete tree or a
positioned error built by `formatParseError`; the line is 1-based and the
column counts characters since the last newline starting at 0. -/
theorem c2_complete_or_positioned_error :
    (∀ toml : List Char, (∃ v, parse toml = .ok v) ∨
      (∃ position msg, parse toml = .error (formatParseError toml position msg))) ∧
    rowOf "?".toList 0 = 1 ∧ colOf "?".toList 0 = 0 ∧
    parse "?".toList =
      .error (formatParseError "?".toList 0 "Unexpected character: \"?\"") :=
  ⟨parse_shape, by rfl, by rfl, by rfl⟩

/-- C5 counterexample: after a line continuation the comment sign and the
rest of its line stay in the content — `a#c\nb`, not `ab` — because the
continuation skip runs with comments off. -/
theorem c5_comment_kept_counterexample :
    MultilineBasicString ⟨"\"\"\"a\\\n#c\nb\"\"\"".toList, 0⟩ =
      .matched "a#c\nb" ⟨"\"\"\"a\\\n#c\nb\"\"\"".toList, 13⟩ := by rfl

/-- C5 (amended): the newline after the opening delimiter is trimmed; a
backslash before a line break continues via the full skip with comments
off (whitespace-only gaps are elided, a comment stays content); a fourth
quote after the content is absorbed into the string. -/
theorem c5_multiline_basic_string_behavior :
    (∀ (n : Nat) (s s1 : Scanner) (acc : List Char),
      ¬s.slice 0 3 = ['"', '"', '"'] → s.eof = false →
      s.slice 0 2 = ['\\', '\n'] →
      (s.next 1).nextUntilChar false false = .ok s1 →
        mbsLoopGo (n + 1) s acc = mbsLoopGo n s1 acc) ∧
    MultilineBasicString ⟨"\"\"\"a\nb\"\"\"".toList, 0⟩ =
      .matched "a\nb" ⟨"\"\"\"a\nb\"\"\"".toList, 9⟩ ∧
    MultilineBasicString ⟨"\"\"\"a\\\n  b\"\"\"".toList, 0⟩ =
      .matched "ab" ⟨"\"\"\"a\\\n  b\"\"\"".toList, 12⟩ ∧
    MultilineBasicString ⟨"\"\"\"a\\\n#c\nb\"\"\"".toList, 0⟩ =
      .matched "a#c\nb" ⟨"\"\"\"a\\\n#c\nb\"\"\"".toList, 13⟩ ∧
    MultilineBasicString ⟨"\"\"\"a\"\"\"\"".toList, 0⟩ =
      .matched "a\"" ⟨"\"\"\"a\"\"\"\"".toList, 8⟩ :=
  ⟨mbsLoopGo_continuation, by rfl, by rfl, by rfl, by rfl⟩

/-- C6: a full-mode skip that stops on a non-EOL unicode whitespace raises
the structural error naming the escaped code point, and a vertical tab at
the top level makes `parse` fail with that message. -/
theorem c6_full_skip_invalid_ws :
    (∀ (s : Scanner) (com : Bool) (c : Char),
      (Scanner.skipFull com s).char = some c →
      (Scanner.skipFull com s).isCurrentCharEOL = false →
      isJsSpace c = true →
        s.nextUntilChar false com =
          .error (.toml ("Contains invalid whitespaces: `" ++ escapeUnicode c ++ "`"),
            Scanner.skipFull com s)) ∧
    parse "\x0Ba = 1".toList =
      .error "Parse error on line 1, column 0: Contains invalid whitespaces: `\\ub`" :=
  ⟨nextUntilChar_full_invalid_ws, by rfl⟩

/-- C8: the empty-inline-table fast path looks only at offset 1 after the
full skip, so `a = x\x7d` parses to a table holding an empty table instead
of failing. -/
theorem c8_inline_table_fast_path :
    (∀ (g : Grammar) (s s1 : Scanner), s.nextUntilChar false true = .ok s1 →
      s1.char 1 = some '}' → InlineTableStep g s = .matched (.table []) (s1.next 2)) ∧
    parse "a = x\x7d".toList = .ok (.table [("a", .table [])]) :=
  ⟨inlineTableStep_fast_path, by rfl⟩

/-- C9: every outcome of `parse` is a success or a single positioned
error; the range error of an invalid `\uXXXX` escape (a non-TOML throw)
is converted into that positioned form. -/
theorem c9_driver_positions_every_throw :
    (∀ toml : List Char, (∃ v, parse toml = .ok v) ∨
      (∃ position msg, parse toml = .error (formatParseError toml position msg))) ∧
    EscapeSequence ⟨"a = \"\\uzzzz\"".toList, 5⟩ =
      .thrown (.other "Invalid code point NaN") ⟨"a = \"\\uzzzz\"".toList, 6⟩ ∧
    parse "a = \"\\uzzzz\"".toList =
      .error "Parse error on line 1, column 6: Invalid code point NaN" :=
  ⟨parse_shape, by rfl, by rfl⟩

/-- C10: the invalid-whitespace check also runs after inline-mode skips:
a non-EOL unicode whitespace after spaces and tabs raises the structural
error, as a vertical tab or a lone carriage return inside a key/value line
shows. -/
theorem c10_inline_skip_invalid_ws :
    (∀ (s : Scanner) (com : Bool) (c : Char),
      (Scanner.skipInline s).char = some c →
      (Scanner.skipInline s).isCurrentCharEOL = false →
      isJsSpace c = true →
        s.nextUntilChar true com =
          .error (.toml ("Contains invalid whitespaces: `" ++ escapeUnicode c ++ "`"),
            Scanner.skipInline s)) ∧
    parse "a \x0B= 1".toList =
      .error "Parse error on line 1, column 2: Contains invalid whitespaces: `\\ub`" ∧
    parse "a \r= 1".toList =
      .error "Parse error on line 1, column 2: Contains invalid whitespaces: `\\ud`" :=
  ⟨nextUntilChar_inline_invalid_ws, by rfl, by rfl⟩

/-! ## Cursor bookkeeping: every result carries a scanner -/

/-- The scanner a result leaves behind (the source mutates one scanner in
place, so every outcome has a current cursor). -/
def PRes.scanner {α : Type} : PRes α → Scanner
  | .matched _ s => s
  | .notMatched s => s
  | .thrown _ s => s
  | .timeout s => s

@[simp] theorem PRes.scanner_matched {α : Type} (v : α) (s : Scanner) :
    (PRes.matched v s).scanner = s := rfl

@[simp] theorem PRes.scanner_notMatched {α : Type} (s : Scanner) :
    (PRes.notMatched (α := α) s).scanner = s := rfl

@[simp] theorem PRes.scanner_thrown {α : Type} (e : JsErr) (s : Scanner) :
    (PRes.thrown (α := α) e s).scanner = s := rfl

@[simp] theorem PRes.scanner_timeout {α : Type} (s : Scanner) :
    (PRes.timeout (α := α) s).scanner = s := rfl

/-- The cursor contract of a single result: same source, never rewound. -/
def ResMono {α : Type} (r : PRes α) (s : Scanner) : Prop :=
  r.scanner.source = s.source ∧ s.position ≤ r.scanner.position

/-- The cursor contract of a parser: every outcome keeps the source and
never rewinds the cursor. -/
def MonoParser {α : Type} (p : Scanner → PRes α) : Prop :=
  ∀ s : Scanner, ResMono (p s) s

/-- A parser with the cursor contract, strict consumption on every match,
and no fuel exhaustion. -/
def GoodLeaf {α : Type} (p : Scanner → PRes α) : Prop :=
  ∀ s : Scanner, ResMono (p s) s ∧
    (∀ v s1, p s = .matched v s1 → s.position < s1.position) ∧
    (∀ s1, p s ≠ .timeout s1)

theorem ResMono.refl {α : Type} (r : PRes α) (h : r.scanner = r.scanner) :
    ResMono r r.scanner := ⟨rfl, le_refl _⟩

theorem ResMono.trans {α : Type} {r : PRes α} {s1 s : Scanner}
    (h : ResMono r s1) (hsrc : s1.source = s.source) (hpos : s.position ≤ s1.position) :
    ResMono r s := ⟨h.1.trans hsrc, hpos.trans h.2⟩

/-- The invalid-whitespace check fails with the scanner it was given. -/
theorem Scanner.invalidWsCheck_error {t s1 : Scanner} {e : JsErr}
    (h : Scanner.invalidWsCheck t = .error (e, s1)) : s1 = t := by
  unfold Scanner.invalidWsCheck at h
  split at h
  · split at h <;> simp_all
  · simp_all

/-- A failing skip also keeps the source and never rewinds. -/
theorem Scanner.nextUntilChar_error {s s1 : Scanner} {e : JsErr} {i c : Bool}
    (h : s.nextUntilChar i c = .error (e, s1)) :
    s1.source = s.source ∧ s.position ≤ s1.position := by
  unfold Scanner.nextUntilChar at h
  have h1 := Scanner.invalidWsCheck_error h
  subst h1
  rcases i with _ | _ <;> simp only [if_true, if_false, Bool.false_eq_true]
  · exact ⟨Scanner.skipFull_source c s, Scanner.skipFull_position_le c s⟩
  · exact ⟨Scanner.skipInline_source s, Scanner.skipInline_position_le s⟩

/-- Eliminator for `withSkip`: prove a property of the two possible
shapes. -/
theorem withSkip_elim {α : Type} {motive : PRes α → Prop} (i c : Bool) (s : Scanner)
    (k : Scanner → PRes α)
    (hok : ∀ s1, s.nextUntilChar i c = .ok s1 → motive (k s1))
    (herr : ∀ e s1, s.nextUntilChar i c = .error (e, s1) → motive (.thrown e s1)) :
    motive (withSkip i c s k) := by
  unfold withSkip
  cases h : s.nextUntilChar i c with
  | ok s1 => exact hok s1 h
  | error es => cases es with | mk e s1 => exact herr e s1 h

/-- `ResMono` composition through `withSkip`. -/
theorem withSkip_resMono {α : Type} (i c : Bool) (s : Scanner) (k : Scanner → PRes α)
    (hk : ∀ s1, s1.source = s.source → s.position ≤ s1.position → ResMono (k s1) s1) :
    ResMono (withSkip i c s k) s := by
  refine withSkip_elim (motive := fun r => ResMono r s) i c s k
    (fun s1 h => ?_) (fun e s1 h => ?_)
  · obtain ⟨hsrc, hpos⟩ := Scanner.nextUntilChar_ok h
    exact ResMono.trans (hk s1 hsrc hpos) hsrc hpos
  · obtain ⟨hsrc, hpos⟩ := Scanner.nextUntilChar_error h
    exact ⟨hsrc, hpos⟩

/-- Strictness composition through `withSkip`. -/
theorem withSkip_strict {α : Type} (i c : Bool) (s : Scanner) (k : Scanner → PRes α)
    (hk : ∀ s1, s1.source = s.source → s.position ≤ s1.position →
      ∀ v s2, k s1 = .matched v s2 → s1.position < s2.position) :
    ∀ v s2, withSkip i c s k = .matched v s2 → s.position < s2.position := by
  intro v s2
  refine withSkip_elim (motive := fun r => r = .matched v s2 → s.position < s2.position)
    i c s k (fun s1 h hm => ?_) (fun e s1 h hm => by cases hm)
  obtain ⟨hsrc, hpos⟩ := Scanner.nextUntilChar_ok h
  exact lt_of_le_of_lt hpos (hk s1 hsrc hpos v s2 hm)

/-- No-timeout composition through `withSkip`. -/
theorem withSkip_nto {α : Type} (i c : Bool) (s : Scanner) (k : Scanner → PRes α)
    (hk : ∀ s1, s1.source = s.source → s.position ≤ s1.position →
      ∀ s2, k s1 ≠ .timeout s2) :
    ∀ s2, withSkip i c s k ≠ .timeout s2 := by
  intro s2
  refine withSkip_elim (motive := fun r => r ≠ .timeout s2) i c s k
    (fun s1 h => ?_) (fun e s1 h => by intro hx; cases hx)
  obtain ⟨hsrc, hpos⟩ := Scanner.nextUntilChar_ok h
  exact hk s1 hsrc hpos s2

/-- `ResMono` composition through `orElse`. -/
theorem orElse_resMono {α : Type} {r : PRes α} {k : Scanner → PRes α} {s : Scanner}
    (hr : ResMono r s)
    (hk : ∀ s1, s1.source = s.source → s.position ≤ s1.position → ResMono (k s1) s1) :
    ResMono (r.orElse k) s := by
  cases r with
  | matched v s1 => exact hr
  | notMatched s1 =>
    exact ResMono.trans (hk s1 hr.1 hr.2) hr.1 hr.2
  | thrown e s1 => exact hr
  | timeout s1 => exact hr

/-- Strictness composition through `orElse`. -/
theorem orElse_strict {α : Type} {r : PRes α} {k : Scanner → PRes α} {s : Scanner}
    (hr : ResMono r s)
    (hrs : ∀ v s1, r = .matched v s1 → s.position < s1.position)
    (hk : ∀ s1, s1.source = s.source → s.position ≤ s1.position →
      ∀ v s2, k s1 = .matched v s2 → s1.position < s2.position) :
    ∀ v s2, r.orElse k = .matched v s2 → s.position < s2.position := by
  intro v s2 hm
  cases r with
  | matched w s1 => cases hm; exact hrs v s2 rfl
  | notMatched s1 =>
    exact lt_of_le_of_lt hr.2 (hk s1 hr.1 hr.2 v s2 hm)
  | thrown e s1 => cases hm
  | timeout s1 => cases hm

/-- No-timeout composition through `orElse`. -/
theorem orElse_nto {α : Type} {r : PRes α} {k : Scanner → PRes α} {s : Scanner}
    (hr : ResMono r s)
    (hrt : ∀ s1, r ≠ .timeout s1)
    (hk : ∀ s1, s1.source = s.source → s.position ≤ s1.position →
      ∀ s2, k s1 ≠ .timeout s2) :
    ∀ s2, r.orElse k ≠ .timeout s2 := by
  intro s2
  cases r with
  | matched w s1 => intro hx; cases hx
  | notMatched s1 => exact hk s1 hr.1 hr.2 s2
  | thrown e s1 => intro hx; cases hx
  | timeout s1 => exact fun _ => hrt s1 rfl

@[simp] theorem PRes.map_scanner {α β : Type} (f : α → β) (r : PRes α) :
    (r.map f).scanner = r.scanner := by
  cases r <;> rfl

theorem PRes.map_matched_inv {α β : Type} {f : α → β} {r : PRes α} {v : β} {s1 : Scanner}
    (h : r.map f = .matched v s1) : ∃ w, r = .matched w s1 := by
  cases r with
  | matched w s2 =>
    simp [PRes.map] at h
    exact ⟨w, by rw [h.2]⟩
  | notMatched s2 => simp [PRes.map] at h
  | thrown e s2 => simp [PRes.map] at h
  | timeout s2 => simp [PRes.map] at h

theorem PRes.map_timeout_inv {α β : Type} {f : α → β} {r : PRes α} {s1 : Scanner}
    (h : r.map f = .timeout s1) : r = .timeout s1 := by
  cases r <;> simp [PRes.map] at h
  simp [h]

theorem map_resMono {α β : Type} {f : α → β} {r : PRes α} {s : Scanner}
    (hr : ResMono r s) : ResMono (r.map f) s := by
  unfold ResMono
  rw [PRes.map_scanner]
  exact hr

/-! ## Scan-loop arithmetic -/

theorem scanWhileGo_len_le (p : Char → Bool) (n : Nat) (s : Scanner) (acc : List Char) :
    acc.length ≤ (scanWhileGo p n s acc).1.length := by
  induction n generalizing s acc with
  | zero => exact le_refl _
  | succ n ih =>
    rw [scanWhileGo]
    split
    · exact le_trans (by simp) (ih (s.next 1) _)
    · exact le_refl _

theorem scanWhileGo_length (p : Char → Bool) (n : Nat) (s : Scanner) (acc : List Char) :
    (scanWhileGo p n s acc).2.position + acc.length =
      s.position + (scanWhileGo p n s acc).1.length := by
  induction n generalizing s acc with
  | zero => rfl
  | succ n ih =>
    rw [scanWhileGo]
    split
    · have h := ih (s.next 1) (acc ++ [(s.char).getD ' '])
      simp only [Scanner.next_position, List.length_append, List.length_cons,
        List.length_nil] at h
      omega
    · rfl

theorem scanWhile_length (p : Char → Bool) (s : Scanner) (acc : List Char) :
    (scanWhile p s acc).2.position + acc.length =
      s.position + (scanWhile p s acc).1.length :=
  scanWhileGo_length p _ s acc

theorem scanWhile_len_lt_of_testO (p : Char → Bool) (s : Scanner) (acc : List Char)
    (h : testO p s.char = true) : acc.length < (scanWhile p s acc).1.length := by
  unfold scanWhile
  have h0 : 0 < s.source.length - s.position :=
    Nat.sub_pos_of_lt (Scanner.lt_of_testO h)
  obtain ⟨m, hm⟩ := Nat.exists_eq_succ_of_ne_zero (Nat.pos_iff_ne_zero.mp h0)
  rw [hm, scanWhileGo, if_pos h]
  have h2 := scanWhileGo_len_le p m (s.next 1) (acc ++ [(s.char).getD ' '])
  simp only [List.length_append, List.length_cons, List.length_nil] at h2
  omega

theorem scanWhile_pos_of_testO (p : Char → Bool) (s : Scanner) (acc : List Char)
    (h : testO p s.char = true) : s.position < (scanWhile p s acc).2.position := by
  have h1 := scanWhile_length p s acc
  have h2 := scanWhile_len_lt_of_testO p s acc h
  omega

theorem scanWhile_pos_of_ne (p : Char → Bool) (s : Scanner)
    (h : (scanWhile p s []).1 ≠ []) : s.position < (scanWhile p s []).2.position := by
  have h1 := scanWhile_length p s []
  have h2 : 0 < (scanWhile p s []).1.length := List.length_pos.mpr h
  simp only [List.length_nil, Nat.add_zero] at h1
  omega

/-! ## Goodness of the token recognizers -/

theorem character_goodLeaf (str : String) (hs : str.toList ≠ []) :
    GoodLeaf (character str) := by
  have hlen : 0 < str.length := by
    have h0 : 0 < str.toList.length := List.length_pos.mpr hs
    exact h0
  intro s
  refine ⟨?_, ?_, ?_⟩
  · unfold character
    refine withSkip_resMono true false s _ (fun s1 hsrc hpos => ?_)
    split
    · refine ResMono.trans (withSkip_resMono true false (s1.next str.length)
        (fun s2 => PRes.matched () s2) (fun s2 hsrc2 hpos2 => ⟨rfl, le_refl _⟩))
        rfl (Nat.le_add_right _ _)
    · exact ⟨rfl, le_refl _⟩
  · unfold character
    refine withSkip_strict true false s _ (fun s1 hsrc hpos v s2 => ?_)
    split
    · intro hm
      have h2 := withSkip_resMono true false (s1.next str.length)
        (fun s2 => PRes.matched () s2) (fun s3 h1 h2 => ⟨rfl, le_refl _⟩)
      cases hw : withSkip true false (s1.next str.length)
          (fun s2 => PRes.matched () s2) with
      | matched w s3 =>
        rw [hw] at hm h2
        cases hm
        have := h2.2
        simp only [PRes.scanner_matched, Scanner.next_position] at this
        omega
      | notMatched s3 => rw [hw] at hm; cases hm
      | thrown e s3 => rw [hw] at hm; cases hm
      | timeout s3 => rw [hw] at hm; cases hm
    · intro hm; cases hm
  · unfold character
    refine withSkip_nto true false s _ (fun s1 hsrc hpos s2 => ?_)
    split
    · exact withSkip_nto true false (s1.next str.length) _
        (fun s3 h1 h2 s4 => by intro hx; cases hx) s2
    · intro hx; cases hx

theorem symbolPairs_len (p : String × JsValue) (hp : p ∈ symbolPairs) :
    p.1.toList ≠ [] := by
  simp only [symbolPairs, List.mem_cons, List.not_mem_nil, or_false] at hp
  rcases hp with h | h | h | h | h | h | h | h <;> subst h <;> decide

theorem Symbols_goodLeaf : GoodLeaf Symbols := by
  intro s
  refine ⟨?_, ?_, ?_⟩
  · unfold Symbols
    refine withSkip_resMono true false s _ (fun s1 hsrc hpos => ?_)
    cases hf : symbolPairs.find? (fun p => s1.slice 0 p.1.length == p.1.toList) with
    | none => exact ⟨rfl, le_refl _⟩
    | some p =>
      cases p with
      | mk str v => exact ⟨rfl, Nat.le_add_right _ _⟩
  · unfold Symbols
    refine withSkip_strict true false s _ (fun s1 hsrc hpos v s2 => ?_)
    cases hf : symbolPairs.find? (fun p => s1.slice 0 p.1.length == p.1.toList) with
    | none => intro hm; cases hm
    | some p =>
      cases p with
      | mk str v2 =>
        intro hm
        cases hm
        have hmem := List.mem_of_find?_eq_some hf
        have hne := symbolPairs_len _ hmem
        have : 0 < str.length := by
          have h0 : 0 < str.toList.length := List.length_pos.mpr hne
          exact h0
        simp only [Scanner.next_position]
        omega
  · unfold Symbols
    refine withSkip_nto true false s _ (fun s1 hsrc hpos s2 => ?_)
    cases hf : symbolPairs.find? (fun p => s1.slice 0 p.1.length == p.1.toList) with
    | none => intro hx; cases hx
    | some p =>
      cases p with
      | mk str v => intro hx; cases hx

theorem BareKey_goodLeaf : GoodLeaf BareKey := by
  intro s
  refine ⟨?_, ?_, ?_⟩
  · unfold BareKey
    refine withSkip_resMono true false s _ (fun s1 hsrc hpos => ?_)
    by_cases ht : testO isBareKeyChar s1.char = true
    · rw [if_pos ht]
      rcases hsw : scanWhile isBareKeyChar s1 [] with ⟨acc, s2⟩
      have h1 : s2.source = s1.source := by
        have := scanWhile_source isBareKeyChar s1 []
        rw [hsw] at this
        exact this
      have h2 : s1.position ≤ s2.position := by
        have := scanWhile_position_le isBareKeyChar s1 []
        rw [hsw] at this
        exact this
      exact ⟨h1, h2⟩
    · rw [if_neg ht]
      exact ⟨rfl, le_refl _⟩
  · unfold BareKey
    refine withSkip_strict true false s _ (fun s1 hsrc hpos v s2 => ?_)
    by_cases ht : testO isBareKeyChar s1.char = true
    · rw [if_pos ht]
      rcases hsw : scanWhile isBareKeyChar s1 [] with ⟨acc, s3⟩
      intro hm
      cases hm
      have := scanWhile_pos_of_testO isBareKeyChar s1 [] ht
      rw [hsw] at this
      exact this
    · rw [if_neg ht]
      intro hm; cases hm
  · unfold BareKey
    refine withSkip_nto true false s _ (fun s1 hsrc hpos s2 => ?_)
    by_cases ht : testO isBareKeyChar s1.char = true
    · rw [if_pos ht]
      rcases hsw : scanWhile isBareKeyChar s1 [] with ⟨acc, s3⟩
      intro hx; cases hx
    · rw [if_neg ht]
      intro hx; cases hx

theorem EscapeSequence_nto (s : Scanner) : ∀ s1, EscapeSequence s ≠ .timeout s1 := by
  intro s1
  unfold EscapeSequence
  split
  · split <;>
      first
      | (intro hx; cases hx)
      | (unfold escapeUnicodeCase; split <;> intro hx <;> cases hx)
  · intro hx; cases hx

/-! ## Goodness of the string loops -/

theorem basicStringLoopGo_mono (n : Nat) (s : Scanner) (acc : List Char) :
    ResMono (basicStringLoopGo n s acc) s := by
  induction n generalizing s acc with
  | zero => exact ⟨rfl, le_refl _⟩
  | succ n ih =>
    rw [basicStringLoopGo]
    split
    · split
      · exact ⟨rfl, le_refl _⟩
      · cases hE : EscapeSequence s with
        | matched str s1 =>
          obtain ⟨hsrc, hpos⟩ := EscapeSequence_matched hE
          exact ResMono.trans (ih s1 _) hsrc (le_of_lt hpos)
        | notMatched s1 =>
          have h1 := EscapeSequence_notMatched hE
          refine ResMono.trans (ih (s1.next 1) _) ?_ ?_
          · rw [h1]
            exact Scanner.next_source s 1
          · rw [h1]
            exact Nat.le_add_right _ _
        | thrown e s1 =>
          obtain ⟨hsrc, hpos⟩ := EscapeSequence_thrown hE
          exact ⟨hsrc, hpos⟩
        | timeout s1 => exact absurd hE (EscapeSequence_nto s s1)
    · exact ⟨rfl, le_refl _⟩

theorem basicStringLoopGo_nto (n : Nat) (s : Scanner) (acc : List Char) :
    ∀ s1, basicStringLoopGo n s acc ≠ .timeout s1 := by
  induction n generalizing s acc with
  | zero => intro s1 hx; cases hx
  | succ n ih =>
    intro s1
    rw [basicStringLoopGo]
    split
    · split
      · intro hx; cases hx
      · cases hE : EscapeSequence s with
        | matched str s2 => exact ih s2 _ s1
        | notMatched s2 => exact ih (s2.next 1) _ s1
        | thrown e s2 => intro hx; cases hx
        | timeout s2 => exact absurd hE (EscapeSequence_nto s s2)
    · intro hx; cases hx

theorem basicStringLoop_mono (s : Scanner) (acc : List Char) :
    ResMono (basicStringLoop s acc) s := basicStringLoopGo_mono _ s acc

theorem basicStringLoop_nto (s : Scanner) (acc : List Char) :
    ∀ s1, basicStringLoop s acc ≠ .timeout s1 := basicStringLoopGo_nto _ s acc

theorem literalStringLoopGo_mono (n : Nat) (s : Scanner) (acc : List Char) :
    ResMono (literalStringLoopGo n s acc) s := by
  induction n generalizing s acc with
  | zero => exact ⟨rfl, le_refl _⟩
  | succ n ih =>
    rw [literalStringLoopGo]
    split
    · split
      · exact ⟨rfl, le_refl _⟩
      · exact ResMono.trans (ih (s.next 1) _) rfl (Nat.le_add_right _ _)
    · exact ⟨rfl, le_refl _⟩

theorem literalStringLoopGo_nto (n : Nat) (s : Scanner) (acc : List Char) :
    ∀ s1, literalStringLoopGo n s acc ≠ .timeout s1 := by
  induction n generalizing s acc with
  | zero => intro s1 hx; cases hx
  | succ n ih =>
    intro s1
    rw [literalStringLoopGo]
    split
    · split
      · intro hx; cases hx
      · exact ih (s.next 1) _ s1
    · intro hx; cases hx

theorem literalStringLoop_mono (s : Scanner) (acc : List Char) :
    ResMono (literalStringLoop s acc) s := literalStringLoopGo_mono _ s acc

theorem literalStringLoop_nto (s : Scanner) (acc : List Char) :
    ∀ s1, literalStringLoop s acc ≠ .timeout s1 := literalStringLoopGo_nto _ s acc

theorem mbsLoopGo_mono (n : Nat) (s : Scanner) (acc : List Char) :
    ResMono (mbsLoopGo n s acc) s := by
  induction n generalizing s acc with
  | zero => exact ⟨rfl, le_refl _⟩
  | succ n ih =>
    rw [mbsLoopGo]
    split
    · split
      · cases hN : (s.next 1).nextUntilChar false false with
        | ok s1 =>
          obtain ⟨hsrc, hpos⟩ := Scanner.nextUntilChar_ok hN
          refine ResMono.trans (ih s1 _) ?_ ?_
          · exact hsrc
          · exact le_trans (Nat.le_add_right _ _) hpos
        | error es =>
          cases es with
          | mk e s1 =>
            obtain ⟨hsrc, hpos⟩ := Scanner.nextUntilChar_error hN
            exact ⟨hsrc, le_trans (Nat.le_add_right _ _) hpos⟩
      · split
        · cases hN : (s.next 1).nextUntilChar false false with
          | ok s1 =>
            obtain ⟨hsrc, hpos⟩ := Scanner.nextUntilChar_ok hN
            refine ResMono.trans (ih s1 _) ?_ ?_
            · exact hsrc
            · exact le_trans (Nat.le_add_right _ _) hpos
          | error es =>
            cases es with
            | mk e s1 =>
              obtain ⟨hsrc, hpos⟩ := Scanner.nextUntilChar_error hN
              exact ⟨hsrc, le_trans (Nat.le_add_right _ _) hpos⟩
        · cases hE : EscapeSequence s with
          | matched str s1 =>
            obtain ⟨hsrc, hpos⟩ := EscapeSequence_matched hE
            exact ResMono.trans (ih s1 _) hsrc (le_of_lt hpos)
          | notMatched s1 =>
            have h1 := EscapeSequence_notMatched hE
            refine ResMono.trans (ih (s1.next 1) _) ?_ ?_
            · rw [h1]
              exact Scanner.next_source s 1
            · rw [h1]
              exact Nat.le_add_right _ _
          | thrown e s1 =>
            obtain ⟨hsrc, hpos⟩ := EscapeSequence_thrown hE
            exact ⟨hsrc, hpos⟩
          | timeout s1 => exact absurd hE (EscapeSequence_nto s s1)
    · exact ⟨rfl, le_refl _⟩

theorem mbsLoopGo_nto (n : Nat) (s : Scanner) (acc : List Char) :
    ∀ s1, mbsLoopGo n s acc ≠ .timeout s1 := by
  induction n generalizing s acc with
  | zero => intro s1 hx; cases hx
  | succ n ih =>
    intro s1
    rw [mbsLoopGo]
    split
    · split
      · cases hN : (s.next 1).nextUntilChar false false with
        | ok s2 => exact ih s2 _ s1
        | error es => cases es with | mk e s2 => intro hx; cases hx
      · split
        · cases hN : (s.next 1).nextUntilChar false false with
          | ok s2 => exact ih s2 _ s1
          | error es => cases es with | mk e s2 => intro hx; cases hx
        · cases hE : EscapeSequence s with
          | matched str s2 => exact ih s2 _ s1
          | notMatched s2 => exact ih (s2.next 1) _ s1
          | thrown e s2 => intro hx; cases hx
          | timeout s2 => exact absurd hE (EscapeSequence_nto s s2)
    · intro hx; cases hx

theorem mbsLoop_mono (s : Scanner) (acc : List Char) :
    ResMono (mbsLoop s acc) s := mbsLoopGo_mono _ s acc

theorem mbsLoop_nto (s : Scanner) (acc : List Char) :
    ∀ s1, mbsLoop s acc ≠ .timeout s1 := mbsLoopGo_nto _ s acc

theorem mlsLoopGo_source (n : Nat) (s : Scanner) (acc : List Char) :
    (mlsLoopGo n s acc).2.source = s.source := by
  induction n generalizing s acc with
  | zero => rfl
  | succ n ih =>
    rw [mlsLoopGo]
    split
    · simpa using ih (s.next 1) _
    · rfl

theorem mlsLoopGo_position_le (n : Nat) (s : Scanner) (acc : List Char) :
    s.position ≤ (mlsLoopGo n s acc).2.position := by
  induction n generalizing s acc with
  | zero => exact le_refl _
  | succ n ih =>
    rw [mlsLoopGo]
    split
    · exact le_trans (Nat.le_add_right _ _) (ih (s.next 1) _)
    · exact le_refl _

theorem mlsLoop_source (s : Scanner) (acc : List Char) :
    (mlsLoop s acc).2.source = s.source := mlsLoopGo_source _ s acc

theorem mlsLoop_position_le (s : Scanner) (acc : List Char) :
    s.position ≤ (mlsLoop s acc).2.position := mlsLoopGo_position_le _ s acc

theorem BasicString_goodLeaf : GoodLeaf BasicString := by
  intro s
  refine ⟨?_, ?_, ?_⟩
  · unfold BasicString
    refine withSkip_resMono true false s _ (fun s1 hsrc hpos => ?_)
    split
    · split
      · rename_i acc s2 heq
        have hm := basicStringLoop_mono (s1.next 1) []
        rw [heq] at hm
        have hsrc2 : s2.source = s1.source := hm.1
        have hpos2 : s1.position + 1 ≤ s2.position := hm.2
        split
        · exact ⟨hsrc2, by simp only [PRes.scanner_matched, PRes.scanner_notMatched, PRes.scanner_thrown, PRes.scanner_timeout, Scanner.next_position]; omega⟩
        · refine ⟨hsrc2, ?_⟩
          simp only [PRes.scanner_matched, PRes.scanner_notMatched, PRes.scanner_thrown, PRes.scanner_timeout, Scanner.next_position]
          omega
      · rename_i s2 heq
        have hm := basicStringLoop_mono (s1.next 1) []
        rw [heq] at hm
        have hsrc2 : s2.source = s1.source := hm.1
        have hpos2 : s1.position + 1 ≤ s2.position := hm.2
        exact ⟨hsrc2, by simp only [PRes.scanner_matched, PRes.scanner_notMatched, PRes.scanner_thrown, PRes.scanner_timeout, Scanner.next_position]; omega⟩
      · rename_i e s2 heq
        have hm := basicStringLoop_mono (s1.next 1) []
        rw [heq] at hm
        have hsrc2 : s2.source = s1.source := hm.1
        have hpos2 : s1.position + 1 ≤ s2.position := hm.2
        exact ⟨hsrc2, by simp only [PRes.scanner_matched, PRes.scanner_notMatched, PRes.scanner_thrown, PRes.scanner_timeout, Scanner.next_position]; omega⟩
      · rename_i s2 heq
        exact absurd heq (basicStringLoop_nto (s1.next 1) [] s2)
    · exact ⟨rfl, le_refl _⟩
  · unfold BasicString
    refine withSkip_strict true false s _ (fun s1 hsrc hpos v s2 => ?_)
    split
    · split
      · rename_i acc s3 heq
        have hm := basicStringLoop_mono (s1.next 1) []
        rw [heq] at hm
        have hpos2 : s1.position + 1 ≤ s3.position := hm.2
        split
        · intro hx; cases hx
        · intro hx
          cases hx
          simp only [PRes.scanner_matched, PRes.scanner_notMatched, PRes.scanner_thrown, PRes.scanner_timeout, Scanner.next_position]
          omega
      · rename_i s3 heq
        intro hx; cases hx
      · rename_i e s3 heq
        intro hx; cases hx
      · rename_i s3 heq
        intro hx; cases hx
    · intro hx; cases hx
  · unfold BasicString
    refine withSkip_nto true false s _ (fun s1 hsrc hpos s2 => ?_)
    split
    · split
      · rename_i acc s3 heq
        split
        · intro hx; cases hx
        · intro hx; cases hx
      · rename_i s3 heq
        intro hx; cases hx
      · rename_i e s3 heq
        intro hx; cases hx
      · rename_i s3 heq
        exact absurd heq (basicStringLoop_nto (s1.next 1) [] s3)
    · intro hx; cases hx

theorem LiteralString_goodLeaf : GoodLeaf LiteralString := by
  intro s
  refine ⟨?_, ?_, ?_⟩
  · unfold LiteralString
    refine withSkip_resMono true false s _ (fun s1 hsrc hpos => ?_)
    split
    · split
      · rename_i acc s2 heq
        have hm := literalStringLoop_mono (s1.next 1) []
        rw [heq] at hm
        have hsrc2 : s2.source = s1.source := hm.1
        have hpos2 : s1.position + 1 ≤ s2.position := hm.2
        split
        · exact ⟨hsrc2, by simp only [PRes.scanner_matched, PRes.scanner_notMatched, PRes.scanner_thrown, PRes.scanner_timeout, Scanner.next_position]; omega⟩
        · refine ⟨hsrc2, ?_⟩
          simp only [PRes.scanner_matched, PRes.scanner_notMatched, PRes.scanner_thrown, PRes.scanner_timeout, Scanner.next_position]
          omega
      · rename_i s2 heq
        have hm := literalStringLoop_mono (s1.next 1) []
        rw [heq] at hm
        have hsrc2 : s2.source = s1.source := hm.1
        have hpos2 : s1.position + 1 ≤ s2.position := hm.2
        exact ⟨hsrc2, by simp only [PRes.scanner_matched, PRes.scanner_notMatched, PRes.scanner_thrown, PRes.scanner_timeout, Scanner.next_position]; omega⟩
      · rename_i e s2 heq
        have hm := literalStringLoop_mono (s1.next 1) []
        rw [heq] at hm
        have hsrc2 : s2.source = s1.source := hm.1
        have hpos2 : s1.position + 1 ≤ s2.position := hm.2
        exact ⟨hsrc2, by simp only [PRes.scanner_matched, PRes.scanner_notMatched, PRes.scanner_thrown, PRes.scanner_timeout, Scanner.next_position]; omega⟩
      · rename_i s2 heq
        exact absurd heq (literalStringLoop_nto (s1.next 1) [] s2)
    · exact ⟨rfl, le_refl _⟩
  · unfold LiteralString
    refine withSkip_strict true false s _ (fun s1 hsrc hpos v s2 => ?_)
    split
    · split
      · rename_i acc s3 heq
        have hm := literalStringLoop_mono (s1.next 1) []
        rw [heq] at hm
        have hpos2 : s1.position + 1 ≤ s3.position := hm.2
        split
        · intro hx; cases hx
        · intro hx
          cases hx
          simp only [PRes.scanner_matched, PRes.scanner_notMatched, PRes.scanner_thrown, PRes.scanner_timeout, Scanner.next_position]
          omega
      · rename_i s3 heq
        intro hx; cases hx
      · rename_i e s3 heq
        intro hx; cases hx
      · rename_i s3 heq
        intro hx; cases hx
    · intro hx; cases hx
  · unfold LiteralString
    refine withSkip_nto true false s _ (fun s1 hsrc hpos s2 => ?_)
    split
    · split
      · rename_i acc s3 heq
        split
        · intro hx; cases hx
        · intro hx; cases hx
      · rename_i s3 heq
        intro hx; cases hx
      · rename_i e s3 heq
        intro hx; cases hx
      · rename_i s3 heq
        exact absurd heq (literalStringLoop_nto (s1.next 1) [] s3)
    · intro hx; cases hx

/-- The trim of the newline after the opening delimiter only moves the
cursor forward on the same source. -/
theorem mbsTrim_bounds (s2 : Scanner) :
    (if s2.char = some '\n' then s2.next 1
      else if s2.slice 0 2 = ['\r', '\n'] then s2.next 2 else s2).source = s2.source ∧
    s2.position ≤ (if s2.char = some '\n' then s2.next 1
      else if s2.slice 0 2 = ['\r', '\n'] then s2.next 2 else s2).position := by
  split
  · exact ⟨rfl, Nat.le_add_right _ _⟩
  · split
    · exact ⟨rfl, Nat.le_add_right _ _⟩
    · exact ⟨rfl, le_refl _⟩

theorem MultilineBasicString_goodLeaf : GoodLeaf MultilineBasicString := by
  intro s
  refine ⟨?_, ?_, ?_⟩
  · unfold MultilineBasicString
    refine withSkip_resMono true false s _ (fun s1 hsrc hpos => ?_)
    split
    · lift_lets
      extract_lets s2 s3
      have hts2 : s3.source = s1.source := (mbsTrim_bounds (s1.next 3)).1
      have htp2 : s1.position + 3 ≤ s3.position := (mbsTrim_bounds (s1.next 3)).2
      split
      · rename_i acc s4 heq
        have hm := mbsLoop_mono s3 []
        rw [heq] at hm
        have hsrc4 : s4.source = s1.source := hm.1.trans hts2
        have hpos4 : s1.position + 3 ≤ s4.position := le_trans htp2 hm.2
        split
        · exact ⟨hsrc4, by simp only [PRes.scanner_matched, PRes.scanner_notMatched, PRes.scanner_thrown, PRes.scanner_timeout, Scanner.next_position]; omega⟩
        · split
          · refine ⟨hsrc4, ?_⟩
            simp only [PRes.scanner_matched, PRes.scanner_notMatched, PRes.scanner_thrown, PRes.scanner_timeout, Scanner.next_position]
            omega
          · refine ⟨hsrc4, ?_⟩
            simp only [PRes.scanner_matched, PRes.scanner_notMatched, PRes.scanner_thrown, PRes.scanner_timeout, Scanner.next_position]
            omega
      · rename_i s4 heq
        have hm := mbsLoop_mono s3 []
        rw [heq] at hm
        have hsrc4 : s4.source = s1.source := hm.1.trans hts2
        have hpos4 : s1.position + 3 ≤ s4.position := le_trans htp2 hm.2
        exact ⟨hsrc4, by simp only [PRes.scanner_matched, PRes.scanner_notMatched, PRes.scanner_thrown, PRes.scanner_timeout, Scanner.next_position]; omega⟩
      · rename_i e s4 heq
        have hm := mbsLoop_mono s3 []
        rw [heq] at hm
        have hsrc4 : s4.source = s1.source := hm.1.trans hts2
        have hpos4 : s1.position + 3 ≤ s4.position := le_trans htp2 hm.2
        exact ⟨hsrc4, by simp only [PRes.scanner_matched, PRes.scanner_notMatched, PRes.scanner_thrown, PRes.scanner_timeout, Scanner.next_position]; omega⟩
      · rename_i s4 heq
        exact absurd heq (mbsLoop_nto s3 [] s4)
    · exact ⟨rfl, le_refl _⟩
  · unfold MultilineBasicString
    refine withSkip_strict true false s _ (fun s1 hsrc hpos v s2 => ?_)
    split
    · lift_lets
      extract_lets t2 t3
      have htp2 : s1.position + 3 ≤ t3.position := (mbsTrim_bounds (s1.next 3)).2
      split
      · rename_i acc s4 heq
        have hm := mbsLoop_mono t3 []
        rw [heq] at hm
        have hpos4 : s1.position + 3 ≤ s4.position := le_trans htp2 hm.2
        split
        · intro hx; cases hx
        · split
          · intro hx
            cases hx
            simp only [PRes.scanner_matched, PRes.scanner_notMatched, PRes.scanner_thrown, PRes.scanner_timeout, Scanner.next_position]
            omega
          · intro hx
            cases hx
            simp only [PRes.scanner_matched, PRes.scanner_notMatched, PRes.scanner_thrown, PRes.scanner_timeout, Scanner.next_position]
            omega
      · rename_i s4 heq
        intro hx; cases hx
      · rename_i e s4 heq
        intro hx; cases hx
      · rename_i s4 heq
        intro hx; cases hx
    · intro hx; cases hx
  · unfold MultilineBasicString
    refine withSkip_nto true false s _ (fun s1 hsrc hpos s2 => ?_)
    split
    · lift_lets
      extract_lets t2 t3
      split
      · rename_i acc s4 heq
        split
        · intro hx; cases hx
        · split
          · intro hx; cases hx
          · intro hx; cases hx
      · rename_i s4 heq
        intro hx; cases hx
      · rename_i e s4 heq
        intro hx; cases hx
      · rename_i s4 heq
        exact absurd heq (mbsLoop_nto t3 [] s4)
    · intro hx; cases hx

theorem MultilineLiteralString_goodLeaf : GoodLeaf MultilineLiteralString := by
  intro s
  refine ⟨?_, ?_, ?_⟩
  · unfold MultilineLiteralString
    refine withSkip_resMono true false s _ (fun s1 hsrc hpos => ?_)
    split
    · lift_lets
      extract_lets s2 s3
      have hts2 : s3.source = s1.source := (mbsTrim_bounds (s1.next 3)).1
      have htp2 : s1.position + 3 ≤ s3.position := (mbsTrim_bounds (s1.next 3)).2
      split
      rename_i acc s4 heq
      have hs := mlsLoop_source s3 []
      have hp := mlsLoop_position_le s3 []
      rw [heq] at hs hp
      have hsrc4 : s4.source = s1.source :=
        (show s4.source = s3.source from hs).trans hts2
      have hpos4 : s1.position + 3 ≤ s4.position :=
        le_trans htp2 (show s3.position ≤ s4.position from hp)
      split
      · exact ⟨hsrc4, by simp only [PRes.scanner_matched, PRes.scanner_notMatched, PRes.scanner_thrown, PRes.scanner_timeout, Scanner.next_position]; omega⟩
      · split
        · refine ⟨hsrc4, ?_⟩
          simp only [PRes.scanner_matched, PRes.scanner_notMatched, PRes.scanner_thrown, PRes.scanner_timeout, Scanner.next_position]
          omega
        · refine ⟨hsrc4, ?_⟩
          simp only [PRes.scanner_matched, PRes.scanner_notMatched, PRes.scanner_thrown, PRes.scanner_timeout, Scanner.next_position]
          omega
    · exact ⟨rfl, le_refl _⟩
  · unfold MultilineLiteralString
    refine withSkip_strict true false s _ (fun s1 hsrc hpos v s2 => ?_)
    split
    · lift_lets
      extract_lets t2 t3
      have htp2 : s1.position + 3 ≤ t3.position := (mbsTrim_bounds (s1.next 3)).2
      split
      rename_i acc s4 heq
      have hp := mlsLoop_position_le t3 []
      rw [heq] at hp
      have hpos4 : s1.position + 3 ≤ s4.position :=
        le_trans htp2 (show t3.position ≤ s4.position from hp)
      split
      · intro hx; cases hx
      · split
        · intro hx
          cases hx
          simp only [PRes.scanner_matched, PRes.scanner_notMatched, PRes.scanner_thrown, PRes.scanner_timeout, Scanner.next_position]
          omega
        · intro hx
          cases hx
          simp only [PRes.scanner_matched, PRes.scanner_notMatched, PRes.scanner_thrown, PRes.scanner_timeout, Scanner.next_position]
          omega
    · intro hx; cases hx
  · unfold MultilineLiteralString
    refine withSkip_nto true false s _ (fun s1 hsrc hpos s2 => ?_)
    split
    · lift_lets
      extract_lets t2 t3
      split
      rename_i acc s4 heq
      split
      · intro hx; cases hx
      · split
        · intro hx; cases hx
        · intro hx; cases hx
    · intro hx; cases hx

/-- The optional-sign prefix step shared by `Integer` and `Float`: either
no sign (scanner untouched) or one consumed sign character. -/
theorem signAnd_split (s1 : Scanner) (sa : List Char × Scanner)
    (h : sa = match s1.char with
      | some c => if isSign c then (([c] : List Char), s1.next 1)
        else (([] : List Char), s1)
      | none => (([] : List Char), s1)) :
    (sa.1 = [] ∧ sa.2 = s1) ∨
      ∃ c, isSign c = true ∧ sa.1 = [c] ∧ sa.2 = s1.next 1 := by
  rcases hc : s1.char with _ | c
  · rw [hc] at h
    have h2 : sa = (([] : List Char), s1) := h
    exact Or.inl ⟨by rw [h2], by rw [h2]⟩
  · rw [hc] at h
    by_cases hs : isSign c = true
    · have h2 : sa = (if isSign c = true then (([c] : List Char), s1.next 1)
          else (([] : List Char), s1)) := h
      rw [if_pos hs] at h2
      exact Or.inr ⟨c, hs, by rw [h2], by rw [h2]⟩
    · have h2 : sa = (if isSign c = true then (([c] : List Char), s1.next 1)
          else (([] : List Char), s1)) := h
      rw [if_neg hs] at h2
      exact Or.inl ⟨by rw [h2], by rw [h2]⟩

theorem DateTime_goodLeaf : GoodLeaf DateTime := by
  intro s
  refine ⟨?_, ?_, ?_⟩
  · unfold DateTime
    refine withSkip_resMono true false s _ (fun s1 hsrc hpos => ?_)
    rcases hq : scanWhile isDateTimeChar (s1.next 10) [] with ⟨acc, s3⟩
    have ha := scanWhile_source isDateTimeChar (s1.next 10) []
    have hb := scanWhile_position_le isDateTimeChar (s1.next 10) []
    rw [hq] at ha hb
    have hsrc3 : s3.source = s1.source := show s3.source = (s1.next 10).source from ha
    have hpos3 : s1.position + 10 ≤ s3.position :=
      show (s1.next 10).position ≤ s3.position from hb
    simp only [hq]
    split
    · split
      · exact ⟨hsrc3, by simp only [PRes.scanner_matched, PRes.scanner_notMatched, PRes.scanner_thrown, PRes.scanner_timeout, Scanner.next_position]; omega⟩
      · exact ⟨hsrc3, by simp only [PRes.scanner_matched, PRes.scanner_notMatched, PRes.scanner_thrown, PRes.scanner_timeout, Scanner.next_position]; omega⟩
    · exact ⟨rfl, le_refl _⟩
  · unfold DateTime
    refine withSkip_strict true false s _ (fun s1 hsrc hpos v s2 => ?_)
    rcases hq : scanWhile isDateTimeChar (s1.next 10) [] with ⟨acc, s3⟩
    have hb := scanWhile_position_le isDateTimeChar (s1.next 10) []
    rw [hq] at hb
    have hpos3 : s1.position + 10 ≤ s3.position :=
      show (s1.next 10).position ≤ s3.position from hb
    simp only [hq]
    split
    · split
      · intro hx
        cases hx
        omega
      · intro hx; cases hx
    · intro hx; cases hx
  · unfold DateTime
    refine withSkip_nto true false s _ (fun s1 hsrc hpos s2 => ?_)
    rcases hq : scanWhile isDateTimeChar (s1.next 10) [] with ⟨acc, s3⟩
    simp only [hq]
    split
    · split
      · intro hx; cases hx
      · intro hx; cases hx
    · intro hx; cases hx

theorem LocalTime_goodLeaf : GoodLeaf LocalTime := by
  intro s
  refine ⟨?_, ?_, ?_⟩
  · unfold LocalTime
    refine withSkip_resMono true false s _ (fun s1 hsrc hpos => ?_)
    rcases hq : scanWhile Char.isDigit ((s1.next 8).next 1) [] with ⟨digits, s3⟩
    have ha := scanWhile_source Char.isDigit ((s1.next 8).next 1) []
    have hb := scanWhile_position_le Char.isDigit ((s1.next 8).next 1) []
    rw [hq] at ha hb
    have hsrc3 : s3.source = s1.source := show s3.source = ((s1.next 8).next 1).source from ha
    have hpos3 : ((s1.next 8).next 1).position ≤ s3.position := hb
    simp only [Scanner.next_position] at hpos3
    simp only [hq]
    split
    · split
      · exact ⟨hsrc3, by simp only [PRes.scanner_matched, PRes.scanner_notMatched, PRes.scanner_thrown, PRes.scanner_timeout, Scanner.next_position]; omega⟩
      · exact ⟨rfl, by simp only [PRes.scanner_matched, PRes.scanner_notMatched, PRes.scanner_thrown, PRes.scanner_timeout, Scanner.next_position]; omega⟩
    · exact ⟨rfl, le_refl _⟩
  · unfold LocalTime
    refine withSkip_strict true false s _ (fun s1 hsrc hpos v s2 => ?_)
    rcases hq : scanWhile Char.isDigit ((s1.next 8).next 1) [] with ⟨digits, s3⟩
    have hb := scanWhile_position_le Char.isDigit ((s1.next 8).next 1) []
    rw [hq] at hb
    have hpos3 : ((s1.next 8).next 1).position ≤ s3.position := hb
    simp only [Scanner.next_position] at hpos3
    simp only [hq]
    split
    · split
      · intro hx
        cases hx
        omega
      · intro hx
        cases hx
        simp only [PRes.scanner_matched, PRes.scanner_notMatched, PRes.scanner_thrown, PRes.scanner_timeout, Scanner.next_position]
        omega
    · intro hx; cases hx
  · unfold LocalTime
    refine withSkip_nto true false s _ (fun s1 hsrc hpos s2 => ?_)
    rcases hq : scanWhile Char.isDigit ((s1.next 8).next 1) [] with ⟨digits, s3⟩
    simp only [hq]
    split
    · split
      · intro hx; cases hx
      · intro hx; cases hx
    · intro hx; cases hx

theorem Float_goodLeaf : GoodLeaf Float := by
  intro s
  refine ⟨?_, ?_, ?_⟩
  · unfold Float
    refine withSkip_resMono true false s _ (fun s1 hsrc hpos => ?_)
    split
    · lift_lets
      extract_lets signAnd
      rcases hq : scanWhile isFloatChar signAnd.2 [] with ⟨digits, s3⟩
      have ha := scanWhile_source isFloatChar signAnd.2 []
      have hb := scanWhile_position_le isFloatChar signAnd.2 []
      rw [hq] at ha hb
      have has : s3.source = signAnd.2.source := ha
      have hbs : signAnd.2.position ≤ s3.position := hb
      have hsa := signAnd_split s1 signAnd rfl
      have hsrc3 : s3.source = s1.source := by
        rcases hsa with ⟨h1, h2⟩ | ⟨c, hsgn, h1, h2⟩
        · rw [has, h2]
        · rw [has, h2]
          exact Scanner.next_source s1 1
      have hpos3 : s1.position ≤ s3.position := by
        rcases hsa with ⟨h1, h2⟩ | ⟨c, hsgn, h1, h2⟩
        · rw [h2] at hbs
          exact hbs
        · rw [h2] at hbs
          simp only [Scanner.next_position] at hbs
          omega
      simp only [hq]
      split
      · exact ⟨hsrc3, hpos3⟩
      · split
        · exact ⟨hsrc3, hpos3⟩
        · exact ⟨hsrc3, hpos3⟩
    · exact ⟨rfl, le_refl _⟩
  · unfold Float
    refine withSkip_strict true false s _ (fun s1 hsrc hpos v s2 => ?_)
    split
    · lift_lets
      extract_lets signAnd
      rcases hq : scanWhile isFloatChar signAnd.2 [] with ⟨digits, s3⟩
      have hb := scanWhile_position_le isFloatChar signAnd.2 []
      rw [hq] at hb
      have hbs : signAnd.2.position ≤ s3.position := hb
      have hsa := signAnd_split s1 signAnd rfl
      simp only [hq]
      split
      · intro hx; cases hx
      · rename_i hne
        split
        · intro hx; cases hx
        · intro hx
          cases hx
          rcases hsa with ⟨h1, h2⟩ | ⟨c, hsgn, h1, h2⟩
          · have hdig : digits ≠ [] := by
              intro hd
              apply hne
              rw [h1, hd]
              rfl
            rw [h2] at hq
            have hlt := scanWhile_pos_of_ne isFloatChar s1 (by rw [hq]; exact hdig)
            rw [hq] at hlt
            exact hlt
          · rw [h2] at hbs
            simp only [Scanner.next_position] at hbs
            omega
    · intro hx; cases hx
  · unfold Float
    refine withSkip_nto true false s _ (fun s1 hsrc hpos s2 => ?_)
    split
    · lift_lets
      extract_lets signAnd
      rcases hq : scanWhile isFloatChar signAnd.2 [] with ⟨digits, s3⟩
      simp only [hq]
      split
      · intro hx; cases hx
      · split
        · intro hx; cases hx
        · intro hx; cases hx
    · intro hx; cases hx

theorem Integer_goodLeaf : GoodLeaf Integer := by
  intro s
  refine ⟨?_, ?_, ?_⟩
  · unfold Integer
    refine withSkip_resMono true false s _ (fun s1 hsrc hpos => ?_)
    lift_lets
    extract_lets first2 signAnd
    by_cases hr : (first2.length = 2 ∧ isRadixPrefix first2 = true)
    · rw [if_pos hr]
      rcases hq : scanWhile isHexUnd (s1.next 2) [] with ⟨digits, s3⟩
      have ha := scanWhile_source isHexUnd (s1.next 2) []
      have hb := scanWhile_position_le isHexUnd (s1.next 2) []
      rw [hq] at ha hb
      have hsrc3 : s3.source = s1.source := show s3.source = (s1.next 2).source from ha
      have hb2 : s1.position + 2 ≤ s3.position :=
        show (s1.next 2).position ≤ s3.position from hb
      have hle : s1.position ≤ s3.position := by omega
      simp only [hq]
      by_cases hd : digits = []
      · rw [if_pos hd]
        exact ⟨hsrc3, hle⟩
      · rw [if_neg hd]
        exact ⟨hsrc3, hle⟩
    · rw [if_neg hr]
      rcases signAnd_split s1 signAnd rfl with ⟨h1, h2⟩ | ⟨c, hsgn, h1, h2⟩
      · rw [h1, h2]
        rcases hq : scanWhile isDigitUnd s1 [] with ⟨digits, s3⟩
        have ha := scanWhile_source isDigitUnd s1 []
        have hb := scanWhile_position_le isDigitUnd s1 []
        rw [hq] at ha hb
        have hsrc3 : s3.source = s1.source := ha
        have hle : s1.position ≤ s3.position := hb
        simp only [hq, List.nil_append]
        cases digits with
        | nil => exact ⟨hsrc3, hle⟩
        | cons d ds =>
          cases ds with
          | nil =>
            dsimp only
            by_cases hs2 : isSign d = true
            · rw [if_pos hs2]
              exact ⟨hsrc3, hle⟩
            · rw [if_neg hs2]
              exact ⟨hsrc3, hle⟩
          | cons e es => exact ⟨hsrc3, hle⟩
      · rw [h1, h2]
        rcases hq : scanWhile isDigitUnd (s1.next 1) [] with ⟨digits, s3⟩
        have ha := scanWhile_source isDigitUnd (s1.next 1) []
        have hb := scanWhile_position_le isDigitUnd (s1.next 1) []
        rw [hq] at ha hb
        have hsrc3 : s3.source = s1.source := ha
        have hle : s1.position ≤ s3.position := by
          have hb2 : (s1.next 1).position ≤ s3.position := hb
          simp only [Scanner.next_position] at hb2
          omega
        simp only [hq, List.cons_append, List.nil_append]
        cases digits with
        | nil =>
          dsimp only
          rw [if_pos hsgn]
          exact ⟨hsrc3, hle⟩
        | cons d ds => exact ⟨hsrc3, hle⟩
  · unfold Integer
    refine withSkip_strict true false s _ (fun s1 hsrc hpos v s2 => ?_)
    lift_lets
    extract_lets first2 signAnd
    by_cases hr : (first2.length = 2 ∧ isRadixPrefix first2 = true)
    · rw [if_pos hr]
      rcases hq : scanWhile isHexUnd (s1.next 2) [] with ⟨digits, s3⟩
      have hb := scanWhile_position_le isHexUnd (s1.next 2) []
      rw [hq] at hb
      have hb2 : s1.position + 2 ≤ s3.position :=
        show (s1.next 2).position ≤ s3.position from hb
      simp only [hq]
      by_cases hd : digits = []
      · rw [if_pos hd]
        intro hx; cases hx
      · rw [if_neg hd]
        intro hx
        cases hx
        omega
    · rw [if_neg hr]
      rcases signAnd_split s1 signAnd rfl with ⟨h1, h2⟩ | ⟨c, hsgn, h1, h2⟩
      · rw [h1, h2]
        rcases hq : scanWhile isDigitUnd s1 [] with ⟨digits, s3⟩
        simp only [hq, List.nil_append]
        cases digits with
        | nil => intro hx; cases hx
        | cons d ds =>
          have hlt : s1.position < s3.position := by
            have := scanWhile_pos_of_ne isDigitUnd s1
              (by rw [hq]; intro hx2; cases hx2)
            rw [hq] at this
            exact this
          cases ds with
          | nil =>
            dsimp only
            by_cases hs2 : isSign d = true
            · rw [if_pos hs2]
              intro hx; cases hx
            · rw [if_neg hs2]
              intro hx
              cases hx
              exact hlt
          | cons e es =>
            intro hx
            cases hx
            exact hlt
      · rw [h1, h2]
        rcases hq : scanWhile isDigitUnd (s1.next 1) [] with ⟨digits, s3⟩
        have hb := scanWhile_position_le isDigitUnd (s1.next 1) []
        rw [hq] at hb
        have hlt : s1.position < s3.position := by
          have hb2 : (s1.next 1).position ≤ s3.position := hb
          simp only [Scanner.next_position] at hb2
          omega
        simp only [hq, List.cons_append, List.nil_append]
        cases digits with
        | nil =>
          dsimp only
          rw [if_pos hsgn]
          intro hx; cases hx
        | cons d ds =>
          intro hx
          cases hx
          exact hlt
  · unfold Integer
    refine withSkip_nto true false s _ (fun s1 hsrc hpos s2 => ?_)
    lift_lets
    extract_lets first2 signAnd
    by_cases hr : (first2.length = 2 ∧ isRadixPrefix first2 = true)
    · rw [if_pos hr]
      rcases hq : scanWhile isHexUnd (s1.next 2) [] with ⟨digits, s3⟩
      simp only [hq]
      by_cases hd : digits = []
      · rw [if_pos hd]
        intro hx; cases hx
      · rw [if_neg hd]
        intro hx; cases hx
    · rw [if_neg hr]
      rcases signAnd_split s1 signAnd rfl with ⟨h1, h2⟩ | ⟨c, hsgn, h1, h2⟩
      · rw [h1, h2]
        rcases hq : scanWhile isDigitUnd s1 [] with ⟨digits, s3⟩
        simp only [hq, List.nil_append]
        cases digits with
        | nil => intro hx; cases hx
        | cons d ds =>
          cases ds with
          | nil =>
            dsimp only
            by_cases hs2 : isSign d = true
            · rw [if_pos hs2]
              intro hx; cases hx
            · rw [if_neg hs2]
              intro hx; cases hx
          | cons e es => intro hx; cases hx
      · rw [h1, h2]
        rcases hq : scanWhile isDigitUnd (s1.next 1) [] with ⟨digits, s3⟩
        simp only [hq, List.cons_append, List.nil_append]
        cases digits with
        | nil =>
          dsimp only
          rw [if_pos hsgn]
          intro hx; cases hx
        | cons d ds => intro hx; cases hx

/-! ## Goodness of the generic combinators -/

theorem orP_goodLeaf {α : Type} (ps : List (Scanner → PRes α))
    (h : ∀ p ∈ ps, GoodLeaf p) : GoodLeaf (orP ps) := by
  induction ps with
  | nil =>
    intro s
    have hz : orP ([] : List (Scanner → PRes α)) s = PRes.notMatched s := rfl
    refine ⟨?_, ?_, ?_⟩
    · rw [hz]
      exact ⟨rfl, le_refl _⟩
    · intro v s1 hx
      rw [hz] at hx
      cases hx
    · intro s1 hx
      rw [hz] at hx
      cases hx
  | cons p rest ih =>
    have hp : GoodLeaf p := h p (List.mem_cons_self _ _)
    have hrest : GoodLeaf (orP rest) := ih (fun q hq => h q (List.mem_cons_of_mem _ hq))
    intro s
    refine ⟨?_, ?_, ?_⟩
    · cases hps : p s with
      | matched v s1 =>
        have horp : orP (p :: rest) s = PRes.matched v s1 := by
          unfold orP
          rw [hps]
        have hm := (hp s).1
        rw [hps] at hm
        rw [horp]
        exact hm
      | notMatched s1 =>
        have horp : orP (p :: rest) s = orP rest s1 := by
          conv_lhs => unfold orP
          rw [hps]
        have hm := (hp s).1
        rw [hps] at hm
        rw [horp]
        exact ResMono.trans ((hrest s1).1) hm.1 hm.2
      | thrown e s1 =>
        have horp : orP (p :: rest) s = PRes.thrown e s1 := by
          unfold orP
          rw [hps]
        have hm := (hp s).1
        rw [hps] at hm
        rw [horp]
        exact hm
      | timeout s1 => exact absurd hps ((hp s).2.2 s1)
    · intro v s2 hx
      cases hps : p s with
      | matched w s1 =>
        have horp : orP (p :: rest) s = PRes.matched w s1 := by
          unfold orP
          rw [hps]
        rw [horp] at hx
        cases hx
        exact (hp s).2.1 v s2 hps
      | notMatched s1 =>
        have horp : orP (p :: rest) s = orP rest s1 := by
          conv_lhs => unfold orP
          rw [hps]
        rw [horp] at hx
        have hm := (hp s).1
        rw [hps] at hm
        exact lt_of_le_of_lt hm.2 ((hrest s1).2.1 v s2 hx)
      | thrown e s1 =>
        have horp : orP (p :: rest) s = PRes.thrown e s1 := by
          unfold orP
          rw [hps]
        rw [horp] at hx
        cases hx
      | timeout s1 => exact absurd hps ((hp s).2.2 s1)
    · intro s2 hx
      cases hps : p s with
      | matched w s1 =>
        have horp : orP (p :: rest) s = PRes.matched w s1 := by
          unfold orP
          rw [hps]
        rw [horp] at hx
        cases hx
      | notMatched s1 =>
        have horp : orP (p :: rest) s = orP rest s1 := by
          conv_lhs => unfold orP
          rw [hps]
        rw [horp] at hx
        exact (hrest s1).2.2 s2 hx
      | thrown e s1 =>
        have horp : orP (p :: rest) s = PRes.thrown e s1 := by
          unfold orP
          rw [hps]
        rw [horp] at hx
        cases hx
      | timeout s1 => exact absurd hps ((hp s).2.2 s1)

theorem keyAlt_goodLeaf : GoodLeaf keyAlt := by
  refine orP_goodLeaf _ ?_
  intro p hp
  simp only [List.mem_cons, List.not_mem_nil, or_false] at hp
  rcases hp with h | h | h <;> subst h
  · exact BareKey_goodLeaf
  · exact BasicString_goodLeaf
  · exact LiteralString_goodLeaf

/-! ## Goodness of the separator loops -/

theorem joinLoop_mono {α : Type} (p : Scanner → PRes α) (sep : String)
    (hp : GoodLeaf p) (hsep : sep.toList ≠ []) (fuel : Nat) :
    ∀ (acc : List α) (s : Scanner), ResMono (joinLoop p sep acc fuel s) s := by
  induction fuel with
  | zero => exact fun acc s => ⟨rfl, le_refl _⟩
  | succ n ih =>
    intro acc s
    rw [joinLoop]
    split
    · exact ⟨rfl, le_refl _⟩
    · split
      · rename_i u s1 heqc
        have hcm := (character_goodLeaf sep hsep s).1
        rw [heqc] at hcm
        split
        · rename_i v s2 heqp
          have hpm := (hp s1).1
          rw [heqp] at hpm
          exact ResMono.trans (ResMono.trans (ih (acc ++ [v]) s2) hpm.1 hpm.2) hcm.1 hcm.2
        · rename_i s2 heqp
          have hpm := (hp s1).1
          rw [heqp] at hpm
          exact ⟨hpm.1.trans hcm.1, le_trans hcm.2 hpm.2⟩
        · rename_i e s2 heqp
          have hpm := (hp s1).1
          rw [heqp] at hpm
          exact ⟨hpm.1.trans hcm.1, le_trans hcm.2 hpm.2⟩
        · rename_i s2 heqp
          exact absurd heqp ((hp s1).2.2 s2)
      · rename_i s1 heqc
        have hcm := (character_goodLeaf sep hsep s).1
        rw [heqc] at hcm
        exact hcm
      · rename_i e s1 heqc
        have hcm := (character_goodLeaf sep hsep s).1
        rw [heqc] at hcm
        exact hcm
      · rename_i s1 heqc
        exact absurd heqc ((character_goodLeaf sep hsep s).2.2 s1)

theorem joinLoop_nto {α : Type} (p : Scanner → PRes α) (sep : String)
    (hp : GoodLeaf p) (hsep : sep.toList ≠ []) (fuel : Nat) :
    ∀ (acc : List α) (s : Scanner),
      s.source.length - s.position + 1 ≤ fuel →
      ∀ sx, joinLoop p sep acc fuel s ≠ .timeout sx := by
  induction fuel with
  | zero =>
    intro acc s hb
    omega
  | succ n ih =>
    intro acc s hb sx
    rw [joinLoop]
    split
    · intro hx; cases hx
    · rename_i heof
      have heof2 : s.eof = false := by
        cases he : s.eof with
        | false => rfl
        | true => exact absurd he heof
      have hlt := Scanner.lt_length_of_not_eof heof2
      split
      · rename_i u s1 heqc
        have hcm := (character_goodLeaf sep hsep s).1
        have hcs := (character_goodLeaf sep hsep s).2.1 u s1 heqc
        rw [heqc] at hcm
        split
        · rename_i v s2 heqp
          have hpm := (hp s1).1
          rw [heqp] at hpm
          refine ih (acc ++ [v]) s2 ?_ sx
          have h1 : s2.source = s.source := hpm.1.trans hcm.1
          have h2 : s.position < s2.position :=
            lt_of_lt_of_le (show s.position < s1.position from hcs) hpm.2
          rw [h1]
          omega
        · rename_i s2 heqp
          intro hx; cases hx
        · rename_i e s2 heqp
          intro hx; cases hx
        · rename_i s2 heqp
          exact absurd heqp ((hp s1).2.2 s2)
      · rename_i s1 heqc
        intro hx; cases hx
      · rename_i e s1 heqc
        intro hx; cases hx
      · rename_i s1 heqc
        exact absurd heqc ((character_goodLeaf sep hsep s).2.2 s1)

theorem join_resMono {α : Type} (p : Scanner → PRes α) (sep : String)
    (hp : GoodLeaf p) (hsep : sep.toList ≠ []) (fuel : Nat) (s : Scanner) :
    ResMono (join p sep fuel s) s := by
  unfold join
  split
  · rename_i v s1 heqp
    have hpm := (hp s).1
    rw [heqp] at hpm
    exact ResMono.trans (joinLoop_mono p sep hp hsep fuel [v] s1) hpm.1 hpm.2
  · rename_i s1 heqp
    have hpm := (hp s).1
    rw [heqp] at hpm
    exact hpm
  · rename_i e s1 heqp
    have hpm := (hp s).1
    rw [heqp] at hpm
    exact hpm
  · rename_i s1 heqp
    exact absurd heqp ((hp s).2.2 s1)

theorem join_strict {α : Type} (p : Scanner → PRes α) (sep : String)
    (hp : GoodLeaf p) (hsep : sep.toList ≠ []) (fuel : Nat) (s : Scanner) :
    ∀ v s2, join p sep fuel s = .matched v s2 → s.position < s2.position := by
  intro v s2
  unfold join
  split
  · rename_i w s1 heqp
    intro hx
    have hps := (hp s).2.1 w s1 heqp
    have hlm := joinLoop_mono p sep hp hsep fuel [w] s1
    rw [hx] at hlm
    exact lt_of_lt_of_le hps hlm.2
  · rename_i s1 heqp
    intro hx; cases hx
  · rename_i e s1 heqp
    intro hx; cases hx
  · rename_i s1 heqp
    intro hx
    exact absurd heqp ((hp s).2.2 s1)

theorem join_nto {α : Type} (p : Scanner → PRes α) (sep : String)
    (hp : GoodLeaf p) (hsep : sep.toList ≠ []) (fuel : Nat) (s : Scanner)
    (hb : s.source.length - s.position + 1 ≤ fuel) :
    ∀ sx, join p sep fuel s ≠ .timeout sx := by
  intro sx
  unfold join
  split
  · rename_i v s1 heqp
    have hpm := (hp s).1
    rw [heqp] at hpm
    refine joinLoop_nto p sep hp hsep fuel [v] s1 ?_ sx
    have h1 : s1.source = s.source := hpm.1
    rw [h1]
    have h2 : s.position ≤ s1.position := hpm.2
    omega
  · rename_i s1 heqp
    intro hx; cases hx
  · rename_i e s1 heqp
    intro hx; cases hx
  · rename_i s1 heqp
    exact absurd heqp ((hp s).2.2 s1)

/-! ## Goodness of the dotted keys and headers -/

theorem DottedKey_resMono (fuel : Nat) (s : Scanner) : ResMono (DottedKey fuel s) s :=
  join_resMono keyAlt "." keyAlt_goodLeaf (by decide) fuel s

theorem DottedKey_strict (fuel : Nat) (s : Scanner) :
    ∀ v s2, DottedKey fuel s = .matched v s2 → s.position < s2.position :=
  join_strict keyAlt "." keyAlt_goodLeaf (by decide) fuel s

theorem DottedKey_nto (fuel : Nat) (s : Scanner)
    (hb : s.source.length - s.position + 1 ≤ fuel) :
    ∀ sx, DottedKey fuel s ≠ .timeout sx :=
  join_nto keyAlt "." keyAlt_goodLeaf (by decide) fuel s hb

theorem surround_resMono {α : Type} (left right : String)
    (hl : left.toList ≠ []) (hr : right.toList ≠ [])
    (p : Nat → Scanner → PRes α)
    (hpm : ∀ fuel s, ResMono (p fuel s) s)
    (fuel : Nat) (s : Scanner) : ResMono (surround left p right fuel s) s := by
  unfold surround
  split
  · rename_i u s1 heql
    have hlm := (character_goodLeaf left hl s).1
    rw [heql] at hlm
    split
    · rename_i v s2 heqp
      have hpm2 := hpm fuel s1
      rw [heqp] at hpm2
      have hmid : ResMono (PRes.matched v s2) s :=
        ResMono.trans hpm2 hlm.1 hlm.2
      split
      · rename_i w s3 heqr
        have hrm := (character_goodLeaf right hr s2).1
        rw [heqr] at hrm
        exact ResMono.trans hrm hmid.1 hmid.2
      · rename_i s3 heqr
        have hrm := (character_goodLeaf right hr s2).1
        rw [heqr] at hrm
        exact ResMono.trans hrm hmid.1 hmid.2
      · rename_i e s3 heqr
        have hrm := (character_goodLeaf right hr s2).1
        rw [heqr] at hrm
        exact ResMono.trans hrm hmid.1 hmid.2
      · rename_i s3 heqr
        exact absurd heqr ((character_goodLeaf right hr s2).2.2 s3)
    · rename_i s2 heqp
      have hpm2 := hpm fuel s1
      rw [heqp] at hpm2
      exact ResMono.trans hpm2 hlm.1 hlm.2
    · rename_i e s2 heqp
      have hpm2 := hpm fuel s1
      rw [heqp] at hpm2
      exact ResMono.trans hpm2 hlm.1 hlm.2
    · rename_i s2 heqp
      have hpm2 := hpm fuel s1
      rw [heqp] at hpm2
      exact ResMono.trans hpm2 hlm.1 hlm.2
  · rename_i s1 heql
    have hlm := (character_goodLeaf left hl s).1
    rw [heql] at hlm
    exact hlm
  · rename_i e s1 heql
    have hlm := (character_goodLeaf left hl s).1
    rw [heql] at hlm
    exact hlm
  · rename_i s1 heql
    exact absurd heql ((character_goodLeaf left hl s).2.2 s1)

theorem surround_strict {α : Type} (left right : String)
    (hl : left.toList ≠ []) (hr : right.toList ≠ [])
    (p : Nat → Scanner → PRes α)
    (hpm : ∀ fuel s, ResMono (p fuel s) s)
    (fuel : Nat) (s : Scanner) :
    ∀ v sx, surround left p right fuel s = .matched v sx → s.position < sx.position := by
  intro v sx
  unfold surround
  split
  · rename_i u s1 heql
    have hls := (character_goodLeaf left hl s).2.1 u s1 heql
    split
    · rename_i w s2 heqp
      have hpm2 := hpm fuel s1
      rw [heqp] at hpm2
      split
      · rename_i w2 s3 heqr
        have hrm := (character_goodLeaf right hr s2).1
        rw [heqr] at hrm
        intro hx
        cases hx
        exact lt_of_lt_of_le hls (le_trans hpm2.2 hrm.2)
      · rename_i s3 heqr
        intro hx; cases hx
      · rename_i e s3 heqr
        intro hx; cases hx
      · rename_i s3 heqr
        intro hx; cases hx
    · rename_i s2 heqp
      intro hx; cases hx
    · rename_i e s2 heqp
      intro hx; cases hx
    · rename_i s2 heqp
      intro hx; cases hx
  · rename_i s1 heql
    intro hx; cases hx
  · rename_i e s1 heql
    intro hx; cases hx
  · rename_i s1 heql
    intro hx; cases hx

theorem surround_nto {α : Type} (left right : String)
    (hl : left.toList ≠ []) (hr : right.toList ≠ [])
    (p : Nat → Scanner → PRes α)
    (hpm : ∀ fuel s, ResMono (p fuel s) s)
    (hpn : ∀ fuel s2, s2.source.length - s2.position + 1 ≤ fuel →
      ∀ sx, p fuel s2 ≠ .timeout sx)
    (fuel : Nat) (s : Scanner)
    (hb : s.source.length - s.position + 1 ≤ fuel) :
    ∀ sx, surround left p right fuel s ≠ .timeout sx := by
  intro sx
  unfold surround
  split
  · rename_i u s1 heql
    have hlm := (character_goodLeaf left hl s).1
    rw [heql] at hlm
    split
    · rename_i w s2 heqp
      split
      · rename_i w2 s3 heqr
        intro hx; cases hx
      · rename_i s3 heqr
        intro hx; cases hx
      · rename_i e s3 heqr
        intro hx; cases hx
      · rename_i s3 heqr
        exact absurd heqr ((character_goodLeaf right hr s2).2.2 s3)
    · rename_i s2 heqp
      intro hx; cases hx
    · rename_i e s2 heqp
      intro hx; cases hx
    · rename_i s2 heqp
      refine absurd heqp (hpn fuel s1 ?_ s2)
      have h1 : s1.source = s.source := hlm.1
      have h2 : s.position ≤ s1.position := hlm.2
      rw [h1]
      omega
  · rename_i s1 heql
    intro hx; cases hx
  · rename_i e s1 heql
    intro hx; cases hx
  · rename_i s1 heql
    exact absurd heql ((character_goodLeaf left hl s).2.2 s1)

theorem TableHeader_resMono (fuel : Nat) (s : Scanner) :
    ResMono (TableHeader fuel s) s :=
  surround_resMono "[" "]" (by decide) (by decide) DottedKey DottedKey_resMono fuel s

theorem TableHeader_strict (fuel : Nat) (s : Scanner) :
    ∀ v sx, TableHeader fuel s = .matched v sx → s.position < sx.position :=
  surround_strict "[" "]" (by decide) (by decide) DottedKey DottedKey_resMono fuel s

theorem TableHeader_nto (fuel : Nat) (s : Scanner)
    (hb : s.source.length - s.position + 1 ≤ fuel) :
    ∀ sx, TableHeader fuel s ≠ .timeout sx :=
  surround_nto "[" "]" (by decide) (by decide) DottedKey DottedKey_resMono
    (fun f s2 h => DottedKey_nto f s2 h) fuel s hb

theorem TableArrayHeader_resMono (fuel : Nat) (s : Scanner) :
    ResMono (TableArrayHeader fuel s) s :=
  surround_resMono "[[" "]]" (by decide) (by decide) DottedKey DottedKey_resMono fuel s

theorem TableArrayHeader_strict (fuel : Nat) (s : Scanner) :
    ∀ v sx, TableArrayHeader fuel s = .matched v sx → s.position < sx.position :=
  surround_strict "[[" "]]" (by decide) (by decide) DottedKey DottedKey_resMono fuel s

theorem TableArrayHeader_nto (fuel : Nat) (s : Scanner)
    (hb : s.source.length - s.position + 1 ≤ fuel) :
    ∀ sx, TableArrayHeader fuel s ≠ .timeout sx :=
  surround_nto "[[" "]]" (by decide) (by decide) DottedKey DottedKey_resMono
    (fun f s2 h => DottedKey_nto f s2 h) fuel s hb

/-! ## A match implies the entry position is inside the source -/

theorem Scanner.slice_ne_nil_lt {s : Scanner} {a b : Nat} (h : s.slice a b ≠ []) :
    s.position + a < s.source.length := by
  unfold Scanner.slice at h
  by_contra hge
  push_neg at hge
  rw [List.drop_eq_nil_of_le hge] at h
  simp at h

theorem character_matched_lt (str : String) (hs : str.toList ≠ []) (s : Scanner)
    {u : Unit} {s2 : Scanner} (h : character str s = .matched u s2) :
    s.position < s.source.length := by
  revert h
  unfold character
  refine withSkip_elim
    (motive := fun r => r = .matched u s2 → s.position < s.source.length)
    true false s _ (fun s1 hok => ?_) (fun e s1 herr => fun h => nomatch h)
  intro h
  obtain ⟨hsrc1, hpos1⟩ := Scanner.nextUntilChar_ok hok
  by_cases hc : (s1.slice 0 str.length == str.toList) = true
  · have hnn : s1.slice 0 str.length ≠ [] := by
      rw [beq_iff_eq.mp hc]
      exact hs
    have hlt := Scanner.slice_ne_nil_lt hnn
    rw [hsrc1] at hlt
    omega
  · rw [if_neg hc] at h
    cases h

theorem BareKey_matched_lt {s : Scanner} {v : String} {s2 : Scanner}
    (h : BareKey s = .matched v s2) : s.position < s.source.length := by
  revert h
  unfold BareKey
  refine withSkip_elim
    (motive := fun r => r = .matched v s2 → s.position < s.source.length)
    true false s _ (fun s1 hok => ?_) (fun e s1 herr => fun h => nomatch h)
  intro h
  obtain ⟨hsrc1, hpos1⟩ := Scanner.nextUntilChar_ok hok
  by_cases ht : testO isBareKeyChar s1.char = true
  · have hlt := Scanner.lt_of_testO ht
    rw [hsrc1] at hlt
    omega
  · rw [if_neg ht] at h
    cases h

theorem BasicString_matched_lt {s : Scanner} {v : String} {s2 : Scanner}
    (h : BasicString s = .matched v s2) : s.position < s.source.length := by
  revert h
  unfold BasicString
  refine withSkip_elim
    (motive := fun r => r = .matched v s2 → s.position < s.source.length)
    true false s _ (fun s1 hok => ?_) (fun e s1 herr => fun h => nomatch h)
  intro h
  obtain ⟨hsrc1, hpos1⟩ := Scanner.nextUntilChar_ok hok
  by_cases hc : s1.char = some '"'
  · have hlt := Scanner.char_isSome_lt hc
    rw [hsrc1] at hlt
    omega
  · rw [if_neg hc] at h
    cases h

theorem LiteralString_matched_lt {s : Scanner} {v : String} {s2 : Scanner}
    (h : LiteralString s = .matched v s2) : s.position < s.source.length := by
  revert h
  unfold LiteralString
  refine withSkip_elim
    (motive := fun r => r = .matched v s2 → s.position < s.source.length)
    true false s _ (fun s1 hok => ?_) (fun e s1 herr => fun h => nomatch h)
  intro h
  obtain ⟨hsrc1, hpos1⟩ := Scanner.nextUntilChar_ok hok
  by_cases hc : s1.char = some '\x27'
  · have hlt := Scanner.char_isSome_lt hc
    rw [hsrc1] at hlt
    omega
  · rw [if_neg hc] at h
    cases h

theorem keyAlt_matched_lt {s : Scanner} {v : String} {s2 : Scanner}
    (h : keyAlt s = .matched v s2) : s.position < s.source.length := by
  revert h
  show orP [BareKey, BasicString, LiteralString] s = _ → _
  cases h1 : BareKey s with
  | matched w s1 =>
    have horp : orP [BareKey, BasicString, LiteralString] s = PRes.matched w s1 := by
      unfold orP
      rw [h1]
    rw [horp]
    intro hx
    cases hx
    exact BareKey_matched_lt h1
  | notMatched s1 =>
    have hm1 := (BareKey_goodLeaf s).1
    rw [h1] at hm1
    have horp : orP [BareKey, BasicString, LiteralString] s =
        orP [BasicString, LiteralString] s1 := by
      conv_lhs => unfold orP
      rw [h1]
    rw [horp]
    cases h2 : BasicString s1 with
    | matched w s2b =>
      have horp2 : orP [BasicString, LiteralString] s1 = PRes.matched w s2b := by
        unfold orP
        rw [h2]
      rw [horp2]
      intro hx
      cases hx
      have := BasicString_matched_lt h2
      have e1 : s1.source = s.source := hm1.1
      have p1 : s.position ≤ s1.position := hm1.2
      rw [e1] at this
      omega
    | notMatched s2b =>
      have hm2 := (BasicString_goodLeaf s1).1
      rw [h2] at hm2
      have horp2 : orP [BasicString, LiteralString] s1 =
          orP [LiteralString] s2b := by
        conv_lhs => unfold orP
        rw [h2]
      rw [horp2]
      cases h3 : LiteralString s2b with
      | matched w s3b =>
        have horp3 : orP [LiteralString] s2b = PRes.matched w s3b := by
          unfold orP
          rw [h3]
        rw [horp3]
        intro hx
        cases hx
        have := LiteralString_matched_lt h3
        have e1 : s1.source = s.source := hm1.1
        have e2 : s2b.source = s1.source := hm2.1
        have p1 : s.position ≤ s1.position := hm1.2
        have p2 : s1.position ≤ s2b.position := hm2.2
        rw [e2, e1] at this
        omega
      | notMatched s3b =>
        have horp3 : orP [LiteralString] s2b = orP [] s3b := by
          conv_lhs => unfold orP
          rw [h3]
        rw [horp3]
        intro hx
        cases hx
      | thrown e s3b =>
        have horp3 : orP [LiteralString] s2b = PRes.thrown e s3b := by
          unfold orP
          rw [h3]
        rw [horp3]
        intro hx
        cases hx
      | timeout s3b => exact absurd h3 ((LiteralString_goodLeaf s2b).2.2 s3b)
    | thrown e s2b =>
      have horp2 : orP [BasicString, LiteralString] s1 = PRes.thrown e s2b := by
        unfold orP
        rw [h2]
      rw [horp2]
      intro hx
      cases hx
    | timeout s2b => exact absurd h2 ((BasicString_goodLeaf s1).2.2 s2b)
  | thrown e s1 =>
    have horp : orP [BareKey, BasicString, LiteralString] s = PRes.thrown e s1 := by
      unfold orP
      rw [h1]
    rw [horp]
    intro hx
    cases hx
  | timeout s1 => exact absurd h1 ((BareKey_goodLeaf s).2.2 s1)

theorem DottedKey_matched_lt {fuel : Nat} {s : Scanner} {v : List String} {s2 : Scanner}
    (h : DottedKey fuel s = .matched v s2) : s.position < s.source.length := by
  revert h
  show join keyAlt "." fuel s = _ → _
  unfold join
  split
  · rename_i w s1 heqp
    intro hx
    exact keyAlt_matched_lt heqp
  · rename_i s1 heqp
    intro hx; cases hx
  · rename_i e s1 heqp
    intro hx; cases hx
  · rename_i s1 heqp
    intro hx; cases hx

theorem TableHeader_matched_lt {fuel : Nat} {s : Scanner} {v : List String}
    {s2 : Scanner} (h : TableHeader fuel s = .matched v s2) :
    s.position < s.source.length := by
  revert h
  show surround "[" DottedKey "]" fuel s = _ → _
  unfold surround
  split
  · rename_i u s1 heql
    intro hx
    exact character_matched_lt "[" (by decide) s heql
  · rename_i s1 heql
    intro hx; cases hx
  · rename_i e s1 heql
    intro hx; cases hx
  · rename_i s1 heql
    intro hx; cases hx

theorem TableArrayHeader_matched_lt {fuel : Nat} {s : Scanner} {v : List String}
    {s2 : Scanner} (h : TableArrayHeader fuel s = .matched v s2) :
    s.position < s.source.length := by
  revert h
  show surround "[[" DottedKey "]]" fuel s = _ → _
  unfold surround
  split
  · rename_i u s1 heql
    intro hx
    exact character_matched_lt "[[" (by decide) s heql
  · rename_i s1 heql
    intro hx; cases hx
  · rename_i e s1 heql
    intro hx; cases hx
  · rename_i s1 heql
    intro hx; cases hx

/-! ## The grammar-level invariant -/

/-- The inductive invariant of the grammar knot at level `L`: every field
keeps the source and never rewinds; the value-producing fields consume at
least one character on every match (`repeatPairLoop` when started from the
empty body); and no field times out once the level dominates the stated
linear function of the remaining input. -/
structure GoodG (g : Grammar) (L : Nat) : Prop where
  (value_mono : ∀ s, ResMono (g.value s) s)
  (value_strict : ∀ s v s1, g.value s = .matched v s1 → s.position < s1.position)
  (value_nto : ∀ s sx, 8 + 16 * (s.source.length - s.position) ≤ L →
    g.value s ≠ .timeout sx)
  (avl_mono : ∀ s acc, ResMono (g.arrayValueLoop s acc) s)
  (avl_nto : ∀ s acc sx, 9 + 16 * (s.source.length - s.position) ≤ L →
    g.arrayValueLoop s acc ≠ .timeout sx)
  (av_mono : ∀ s, ResMono (g.arrayValue s) s)
  (av_strict : ∀ s v s1, g.arrayValue s = .matched v s1 → s.position < s1.position)
  (av_nto : ∀ s sx, 7 + 16 * (s.source.length - s.position) ≤ L →
    g.arrayValue s ≠ .timeout sx)
  (pj_mono : ∀ s, ResMono (g.pairJoin s) s)
  (pj_nto : ∀ s sx, 9 + 16 * (s.source.length - s.position) ≤ L →
    g.pairJoin s ≠ .timeout sx)
  (pjl_mono : ∀ s acc, ResMono (g.pairJoinLoop s acc) s)
  (pjl_nto : ∀ s acc sx, 9 + 16 * (s.source.length - s.position) ≤ L →
    g.pairJoinLoop s acc ≠ .timeout sx)
  (it_mono : ∀ s, ResMono (g.inlineTable s) s)
  (it_strict : ∀ s v s1, g.inlineTable s = .matched v s1 → s.position < s1.position)
  (it_nto : ∀ s sx, 7 + 16 * (s.source.length - s.position) ≤ L →
    g.inlineTable s ≠ .timeout sx)
  (pair_mono : ∀ s, ResMono (g.pair s) s)
  (pair_strict : ∀ s v s1, g.pair s = .matched v s1 → s.position < s1.position)
  (pair_lt : ∀ s v s1, g.pair s = .matched v s1 → s.position < s.source.length)
  (pair_nto : ∀ s sx, 8 + 16 * (s.source.length - s.position) ≤ L →
    g.pair s ≠ .timeout sx)
  (rpl_mono : ∀ s acc, ResMono (g.repeatPairLoop s acc) s)
  (rpl_strict_nil : ∀ s v s1, g.repeatPairLoop s [] = .matched v s1 →
    s.position < s1.position)
  (rpl_nto : ∀ s acc sx, 9 + 16 * (s.source.length - s.position) ≤ L →
    g.repeatPairLoop s acc ≠ .timeout sx)
  (blk_mono : ∀ s, ResMono (g.block s) s)
  (blk_strict : ∀ s v s1, g.block s = .matched v s1 → s.position < s1.position)
  (blk_nto : ∀ s sx, 10 + 16 * (s.source.length - s.position) ≤ L →
    g.block s ≠ .timeout sx)
  (tbl_mono : ∀ s, ResMono (g.tableP s) s)
  (tbl_strict : ∀ s v s1, g.tableP s = .matched v s1 → s.position < s1.position)
  (tbl_nto : ∀ s sx, 10 + 16 * (s.source.length - s.position) ≤ L →
    g.tableP s ≠ .timeout sx)
  (ta_mono : ∀ s, ResMono (g.tableArray s) s)
  (ta_strict : ∀ s v s1, g.tableArray s = .matched v s1 → s.position < s1.position)
  (ta_nto : ∀ s sx, 10 + 16 * (s.source.length - s.position) ≤ L →
    g.tableArray s ≠ .timeout sx)
  (trl_mono : ∀ s acc, ResMono (g.tomlRepeatLoop s acc) s)
  (trl_nto : ∀ s acc sx, 11 + 16 * (s.source.length - s.position) ≤ L →
    g.tomlRepeatLoop s acc ≠ .timeout sx)
  (toml_mono : ∀ s, ResMono (g.toml s) s)
  (toml_nto : ∀ s sx, 12 + 16 * (s.source.length - s.position) ≤ L →
    g.toml s ≠ .timeout sx)

theorem goodG_zero : GoodG grammarZero 0 := by
  refine ⟨?_, ?_, ?_, ?_, ?_, ?_, ?_, ?_, ?_, ?_, ?_, ?_, ?_, ?_, ?_, ?_, ?_, ?_,
    ?_, ?_, ?_, ?_, ?_, ?_, ?_, ?_, ?_, ?_, ?_, ?_, ?_, ?_, ?_, ?_, ?_⟩ <;>
  first
  | exact fun s => ⟨rfl, le_refl _⟩
  | exact fun s acc => ⟨rfl, le_refl _⟩
  | exact fun s v s1 hx =>
      nomatch (show PRes.timeout s = PRes.matched v s1 from hx)
  | exact fun s sx hb => absurd hb (by omega)
  | exact fun s acc sx hb => absurd hb (by omega)

/-! ## The value alternation -/

theorem ValueStep_mono (g : Grammar)
    (hav : ∀ s, ResMono (g.arrayValue s) s)
    (hit : ∀ s, ResMono (g.inlineTable s) s) :
    ∀ s, ResMono (ValueStep g s) s := by
  intro s
  unfold ValueStep
  refine orElse_resMono (map_resMono (MultilineBasicString_goodLeaf s).1)
    (fun s1 ha1 hb1 => ?_)
  refine orElse_resMono (map_resMono (MultilineLiteralString_goodLeaf s1).1)
    (fun s2 ha2 hb2 => ?_)
  refine orElse_resMono (map_resMono (BasicString_goodLeaf s2).1)
    (fun s3 ha3 hb3 => ?_)
  refine orElse_resMono (map_resMono (LiteralString_goodLeaf s3).1)
    (fun s4 ha4 hb4 => ?_)
  refine orElse_resMono (Symbols_goodLeaf s4).1 (fun s5 ha5 hb5 => ?_)
  refine orElse_resMono (DateTime_goodLeaf s5).1 (fun s6 ha6 hb6 => ?_)
  refine orElse_resMono (LocalTime_goodLeaf s6).1 (fun s7 ha7 hb7 => ?_)
  refine orElse_resMono (Float_goodLeaf s7).1 (fun s8 ha8 hb8 => ?_)
  refine orElse_resMono (Integer_goodLeaf s8).1 (fun s9 ha9 hb9 => ?_)
  exact orElse_resMono (hav s9) (fun s10 ha10 hb10 => hit s10)

theorem ValueStep_strict (g : Grammar)
    (hav_m : ∀ s, ResMono (g.arrayValue s) s)
    (hav_s : ∀ s v s1, g.arrayValue s = .matched v s1 → s.position < s1.position)
    (hit_s : ∀ s v s1, g.inlineTable s = .matched v s1 → s.position < s1.position) :
    ∀ s v s1, ValueStep g s = .matched v s1 → s.position < s1.position := by
  intro s
  unfold ValueStep
  refine orElse_strict (map_resMono (MultilineBasicString_goodLeaf s).1)
    (fun v s1 hx => ?_) (fun s1 ha1 hb1 => ?_)
  · obtain ⟨w, hw⟩ := PRes.map_matched_inv hx
    exact (MultilineBasicString_goodLeaf s).2.1 w s1 hw
  refine orElse_strict (map_resMono (MultilineLiteralString_goodLeaf s1).1)
    (fun v s2 hx => ?_) (fun s2 ha2 hb2 => ?_)
  · obtain ⟨w, hw⟩ := PRes.map_matched_inv hx
    exact (MultilineLiteralString_goodLeaf s1).2.1 w s2 hw
  refine orElse_strict (map_resMono (BasicString_goodLeaf s2).1)
    (fun v s3 hx => ?_) (fun s3 ha3 hb3 => ?_)
  · obtain ⟨w, hw⟩ := PRes.map_matched_inv hx
    exact (BasicString_goodLeaf s2).2.1 w s3 hw
  refine orElse_strict (map_resMono (LiteralString_goodLeaf s3).1)
    (fun v s4 hx => ?_) (fun s4 ha4 hb4 => ?_)
  · obtain ⟨w, hw⟩ := PRes.map_matched_inv hx
    exact (LiteralString_goodLeaf s3).2.1 w s4 hw
  refine orElse_strict (Symbols_goodLeaf s4).1 ((Symbols_goodLeaf s4).2.1)
    (fun s5 ha5 hb5 => ?_)
  refine orElse_strict (DateTime_goodLeaf s5).1 ((DateTime_goodLeaf s5).2.1)
    (fun s6 ha6 hb6 => ?_)
  refine orElse_strict (LocalTime_goodLeaf s6).1 ((LocalTime_goodLeaf s6).2.1)
    (fun s7 ha7 hb7 => ?_)
  refine orElse_strict (Float_goodLeaf s7).1 ((Float_goodLeaf s7).2.1)
    (fun s8 ha8 hb8 => ?_)
  refine orElse_strict (Integer_goodLeaf s8).1 ((Integer_goodLeaf s8).2.1)
    (fun s9 ha9 hb9 => ?_)
  exact orElse_strict (hav_m s9) (hav_s s9) (fun s10 ha10 hb10 => hit_s s10)

theorem ValueStep_nto (g : Grammar) (s : Scanner)
    (hav_m : ∀ t, ResMono (g.arrayValue t) t)
    (hav_n : ∀ t, t.source = s.source → s.position ≤ t.position →
      ∀ sx, g.arrayValue t ≠ .timeout sx)
    (hit_n : ∀ t, t.source = s.source → s.position ≤ t.position →
      ∀ sx, g.inlineTable t ≠ .timeout sx) :
    ∀ sx, ValueStep g s ≠ .timeout sx := by
  unfold ValueStep
  intro sx
  refine orElse_nto (map_resMono (MultilineBasicString_goodLeaf s).1)
    (fun t hx => (MultilineBasicString_goodLeaf s).2.2 t (PRes.map_timeout_inv hx))
    (fun s1 ha1 hb1 sy => ?_) sx
  refine orElse_nto (map_resMono (MultilineLiteralString_goodLeaf s1).1)
    (fun t hx => (MultilineLiteralString_goodLeaf s1).2.2 t (PRes.map_timeout_inv hx))
    (fun s2 ha2 hb2 sy2 => ?_) sy
  refine orElse_nto (map_resMono (BasicString_goodLeaf s2).1)
    (fun t hx => (BasicString_goodLeaf s2).2.2 t (PRes.map_timeout_inv hx))
    (fun s3 ha3 hb3 sy3 => ?_) sy2
  refine orElse_nto (map_resMono (LiteralString_goodLeaf s3).1)
    (fun t hx => (LiteralString_goodLeaf s3).2.2 t (PRes.map_timeout_inv hx))
    (fun s4 ha4 hb4 sy4 => ?_) sy3
  refine orElse_nto (Symbols_goodLeaf s4).1 ((Symbols_goodLeaf s4).2.2)
    (fun s5 ha5 hb5 sy5 => ?_) sy4
  refine orElse_nto (DateTime_goodLeaf s5).1 ((DateTime_goodLeaf s5).2.2)
    (fun s6 ha6 hb6 sy6 => ?_) sy5
  refine orElse_nto (LocalTime_goodLeaf s6).1 ((LocalTime_goodLeaf s6).2.2)
    (fun s7 ha7 hb7 sy7 => ?_) sy6
  refine orElse_nto (Float_goodLeaf s7).1 ((Float_goodLeaf s7).2.2)
    (fun s8 ha8 hb8 sy8 => ?_) sy7
  refine orElse_nto (Integer_goodLeaf s8).1 ((Integer_goodLeaf s8).2.2)
    (fun s9 ha9 hb9 sy9 => ?_) sy8
  have hsrc9 : s9.source = s.source :=
    ha9.trans (ha8.trans (ha7.trans (ha6.trans (ha5.trans (ha4.trans
      (ha3.trans (ha2.trans ha1)))))))
  have hpos9 : s.position ≤ s9.position :=
    le_trans hb1 (le_trans hb2 (le_trans hb3 (le_trans hb4 (le_trans hb5
      (le_trans hb6 (le_trans hb7 (le_trans hb8 hb9)))))))
  refine orElse_nto (hav_m s9) (hav_n s9 hsrc9 hpos9)
    (fun s10 ha10 hb10 sy10 => ?_) sy9
  exact hit_n s10 (ha10.trans hsrc9) (le_trans hpos9 hb10) sy10

/-! ## One level of the knot: array and inline-table fields -/

theorem step_avl_mono (g : Grammar) (L : Nat) (hg : GoodG g L) :
    ∀ s acc, ResMono (arrayValueLoopStep g s acc) s := by
  intro s acc
  unfold arrayValueLoopStep
  split
  · exact ⟨rfl, le_refl _⟩
  · refine withSkip_resMono false true s _ (fun s1 h1 h2 => ?_)
    split
    · rename_i v s2 heqv
      have hvm := hg.value_mono s1
      rw [heqv] at hvm
      refine ResMono.trans ?_ hvm.1 hvm.2
      refine withSkip_resMono true false s2 _ (fun s3 h3 h4 => ?_)
      split
      · refine ResMono.trans (hg.avl_mono (s3.next 1) (acc ++ [v])) ?_ ?_
        · exact Scanner.next_source s3 1
        · exact Nat.le_add_right _ _
      · exact ⟨rfl, le_refl _⟩
    · rename_i s2 heqv
      have hvm := hg.value_mono s1
      rw [heqv] at hvm
      exact hvm
    · rename_i e s2 heqv
      have hvm := hg.value_mono s1
      rw [heqv] at hvm
      exact hvm
    · rename_i s2 heqv
      have hvm := hg.value_mono s1
      rw [heqv] at hvm
      exact hvm

theorem step_avl_nto (g : Grammar) (L : Nat) (hg : GoodG g L) :
    ∀ s acc sx, 9 + 16 * (s.source.length - s.position) ≤ L + 1 →
      arrayValueLoopStep g s acc ≠ .timeout sx := by
  intro s acc sx hb
  unfold arrayValueLoopStep
  split
  · intro hx; cases hx
  · rename_i heof
    have heof2 : s.eof = false := by
      cases he : s.eof with
      | false => rfl
      | true => exact absurd he heof
    have hlt0 := Scanner.lt_length_of_not_eof heof2
    refine withSkip_nto false true s _ (fun s1 h1 h2 sy => ?_) sx
    split
    · rename_i v s2 heqv
      have hvm := hg.value_mono s1
      rw [heqv] at hvm
      have hvs := hg.value_strict s1 v s2 heqv
      refine withSkip_nto true false s2 _ (fun s3 h3 h4 sz => ?_) sy
      split
      · refine hg.avl_nto (s3.next 1) (acc ++ [v]) sz ?_
        have e1 : s1.source = s.source := h1
        have e2 : s2.source = s1.source := hvm.1
        have e3 : s3.source = s2.source := h3
        have p2 : s2.position ≤ s3.position := h4
        simp only [Scanner.next_source, Scanner.next_position, e3, e2, e1]
        omega
      · intro hx; cases hx
    · rename_i s2 heqv
      intro hx; cases hx
    · rename_i e s2 heqv
      intro hx; cases hx
    · rename_i s2 heqv
      refine absurd heqv (hg.value_nto s1 s2 ?_)
      have e1 : s1.source = s.source := h1
      rw [e1]
      omega

theorem step_av_mono (g : Grammar) (L : Nat) (hg : GoodG g L) :
    ∀ s, ResMono (ArrayValueStep g s) s := by
  intro s
  unfold ArrayValueStep
  refine withSkip_resMono true false s _ (fun s1 h1 h2 => ?_)
  split
  · split
    · rename_i arr s2 heql
      have hlm := hg.avl_mono (s1.next 1) []
      rw [heql] at hlm
      have e2 : s2.source = s1.source := hlm.1
      have p2 : s1.position + 1 ≤ s2.position := hlm.2
      refine ResMono.trans (withSkip_resMono false true s2 _
        (fun s3 h3 h4 => ?_)) e2 (by omega)
      split
      · exact ⟨rfl, Nat.le_add_right _ _⟩
      · exact ⟨rfl, le_refl _⟩
    · rename_i s2 heql
      have hlm := hg.avl_mono (s1.next 1) []
      rw [heql] at hlm
      have e2 : s2.source = s1.source := hlm.1
      have p2 : s1.position + 1 ≤ s2.position := hlm.2
      exact ⟨e2, le_trans (Nat.le_add_right s1.position 1) p2⟩
    · rename_i e s2 heql
      have hlm := hg.avl_mono (s1.next 1) []
      rw [heql] at hlm
      have e2 : s2.source = s1.source := hlm.1
      have p2 : s1.position + 1 ≤ s2.position := hlm.2
      exact ⟨e2, le_trans (Nat.le_add_right s1.position 1) p2⟩
    · rename_i s2 heql
      have hlm := hg.avl_mono (s1.next 1) []
      rw [heql] at hlm
      have e2 : s2.source = s1.source := hlm.1
      have p2 : s1.position + 1 ≤ s2.position := hlm.2
      exact ⟨e2, le_trans (Nat.le_add_right s1.position 1) p2⟩
  · exact ⟨rfl, le_refl _⟩

theorem step_av_strict (g : Grammar) (L : Nat) (hg : GoodG g L) :
    ∀ s v s1, ArrayValueStep g s = .matched v s1 → s.position < s1.position := by
  intro s v0 sx0
  unfold ArrayValueStep
  refine withSkip_strict true false s _ (fun s1 h1 h2 v sx => ?_) v0 sx0
  split
  · split
    · rename_i arr s2 heql
      have hlm := hg.avl_mono (s1.next 1) []
      rw [heql] at hlm
      have p2 : s1.position + 1 ≤ s2.position := hlm.2
      intro hx
      refine lt_of_le_of_lt (show s1.position ≤ s2.position by omega)
        (withSkip_strict false true s2 _ (fun s3 h3 h4 w sy => ?_) v sx hx)
      split
      · intro hx2
        cases hx2
        simp only [Scanner.next_position]
        omega
      · intro hx2; cases hx2
    · rename_i s2 heql
      intro hx; cases hx
    · rename_i e s2 heql
      intro hx; cases hx
    · rename_i s2 heql
      intro hx; cases hx
  · intro hx; cases hx

theorem step_av_nto (g : Grammar) (L : Nat) (hg : GoodG g L) :
    ∀ s sx, 7 + 16 * (s.source.length - s.position) ≤ L + 1 →
      ArrayValueStep g s ≠ .timeout sx := by
  intro s sx hb
  unfold ArrayValueStep
  refine withSkip_nto true false s _ (fun s1 h1 h2 sy => ?_) sx
  split
  · rename_i hbr
    split
    · rename_i arr s2 heql
      refine withSkip_nto false true s2 _ (fun s3 h3 h4 sz => ?_) sy
      split
      · intro hx; cases hx
      · intro hx; cases hx
    · rename_i s2 heql
      intro hx; cases hx
    · rename_i e s2 heql
      intro hx; cases hx
    · rename_i s2 heql
      refine absurd heql (hg.avl_nto (s1.next 1) [] s2 ?_)
      have e1 : s1.source = s.source := h1
      have hlt := Scanner.char_isSome_lt hbr
      simp only [Scanner.next_source, Scanner.next_position, e1]
      rw [e1] at hlt
      omega
  · intro hx; cases hx

theorem step_pj_mono (g : Grammar) (L : Nat) (hg : GoodG g L) :
    ∀ s, ResMono (pairJoinStep g s) s := by
  intro s
  unfold pairJoinStep
  split
  · rename_i v s1 heqp
    have hpm := hg.pair_mono s
    rw [heqp] at hpm
    exact ResMono.trans (hg.pjl_mono s1 [v]) hpm.1 hpm.2
  · rename_i s1 heqp
    have hpm := hg.pair_mono s
    rw [heqp] at hpm
    exact hpm
  · rename_i e s1 heqp
    have hpm := hg.pair_mono s
    rw [heqp] at hpm
    exact hpm
  · rename_i s1 heqp
    have hpm := hg.pair_mono s
    rw [heqp] at hpm
    exact hpm

theorem step_pj_nto (g : Grammar) (L : Nat) (hg : GoodG g L) :
    ∀ s sx, 9 + 16 * (s.source.length - s.position) ≤ L + 1 →
      pairJoinStep g s ≠ .timeout sx := by
  intro s sx hb
  unfold pairJoinStep
  split
  · rename_i v s1 heqp
    have hpm := hg.pair_mono s
    rw [heqp] at hpm
    have hps := hg.pair_strict s v s1 heqp
    have hplt := hg.pair_lt s v s1 heqp
    refine hg.pjl_nto s1 [v] sx ?_
    have e1 : s1.source = s.source := hpm.1
    rw [e1]
    omega
  · rename_i s1 heqp
    intro hx; cases hx
  · rename_i e s1 heqp
    intro hx; cases hx
  · rename_i s1 heqp
    refine absurd heqp (hg.pair_nto s s1 ?_)
    omega

theorem step_pjl_mono (g : Grammar) (L : Nat) (hg : GoodG g L) :
    ∀ s acc, ResMono (pairJoinLoopStep g s acc) s := by
  intro s acc
  unfold pairJoinLoopStep
  split
  · exact ⟨rfl, le_refl _⟩
  · split
    · rename_i u s1 heqc
      have hcm := (character_goodLeaf "," (by decide) s).1
      rw [heqc] at hcm
      split
      · rename_i v s2 heqp
        have hpm := hg.pair_mono s1
        rw [heqp] at hpm
        refine ResMono.trans (ResMono.trans (hg.pjl_mono s2 (acc ++ [v]))
          hpm.1 hpm.2) hcm.1 hcm.2
      · rename_i s2 heqp
        have hpm := hg.pair_mono s1
        rw [heqp] at hpm
        exact ⟨hpm.1.trans hcm.1, le_trans hcm.2 hpm.2⟩
      · rename_i e s2 heqp
        have hpm := hg.pair_mono s1
        rw [heqp] at hpm
        exact ⟨hpm.1.trans hcm.1, le_trans hcm.2 hpm.2⟩
      · rename_i s2 heqp
        have hpm := hg.pair_mono s1
        rw [heqp] at hpm
        exact ⟨hpm.1.trans hcm.1, le_trans hcm.2 hpm.2⟩
    · rename_i s1 heqc
      have hcm := (character_goodLeaf "," (by decide) s).1
      rw [heqc] at hcm
      exact hcm
    · rename_i e s1 heqc
      have hcm := (character_goodLeaf "," (by decide) s).1
      rw [heqc] at hcm
      exact hcm
    · rename_i s1 heqc
      exact absurd heqc ((character_goodLeaf "," (by decide) s).2.2 s1)

theorem step_pjl_nto (g : Grammar) (L : Nat) (hg : GoodG g L) :
    ∀ s acc sx, 9 + 16 * (s.source.length - s.position) ≤ L + 1 →
      pairJoinLoopStep g s acc ≠ .timeout sx := by
  intro s acc sx hb
  unfold pairJoinLoopStep
  split
  · intro hx; cases hx
  · rename_i heof
    have heof2 : s.eof = false := by
      cases he : s.eof with
      | false => rfl
      | true => exact absurd he heof
    have hlt0 := Scanner.lt_length_of_not_eof heof2
    split
    · rename_i u s1 heqc
      have hcm := (character_goodLeaf "," (by decide) s).1
      rw [heqc] at hcm
      have hcs := (character_goodLeaf "," (by decide) s).2.1 u s1 heqc
      split
      · rename_i v s2 heqp
        have hpm := hg.pair_mono s1
        rw [heqp] at hpm
        have hps := hg.pair_strict s1 v s2 heqp
        refine hg.pjl_nto s2 (acc ++ [v]) sx ?_
        have e1 : s1.source = s.source := hcm.1
        have e2 : s2.source = s1.source := hpm.1
        rw [e2, e1]
        omega
      · rename_i s2 heqp
        intro hx; cases hx
      · rename_i e s2 heqp
        intro hx; cases hx
      · rename_i s2 heqp
        refine absurd heqp (hg.pair_nto s1 s2 ?_)
        have e1 : s1.source = s.source := hcm.1
        rw [e1]
        omega
    · rename_i s1 heqc
      intro hx; cases hx
    · rename_i e s1 heqc
      intro hx; cases hx
    · rename_i s1 heqc
      exact absurd heqc ((character_goodLeaf "," (by decide) s).2.2 s1)

theorem step_it_mono (g : Grammar) (L : Nat) (hg : GoodG g L) :
    ∀ s, ResMono (InlineTableStep g s) s := by
  intro s
  unfold InlineTableStep
  refine withSkip_resMono false true s _ (fun s1 h1 h2 => ?_)
  split
  · exact ⟨rfl, Nat.le_add_right _ _⟩
  · split
    · rename_i u s2 heql
      have hlm := (character_goodLeaf "\x7b" (by decide) s1).1
      rw [heql] at hlm
      split
      · rename_i pairs s3 heqj
        have hjm := hg.pj_mono s2
        rw [heqj] at hjm
        have hmid : (PRes.matched pairs s3).scanner.source = s1.source ∧
            s1.position ≤ (PRes.matched pairs s3).scanner.position :=
          ⟨hjm.1.trans hlm.1, le_trans hlm.2 hjm.2⟩
        split
        · rename_i u2 s4 heqr
          have hrm := (character_goodLeaf "\x7d" (by decide) s3).1
          rw [heqr] at hrm
          exact ⟨hrm.1.trans hmid.1, le_trans hmid.2 hrm.2⟩
        · rename_i s4 heqr
          have hrm := (character_goodLeaf "\x7d" (by decide) s3).1
          rw [heqr] at hrm
          exact ⟨hrm.1.trans hmid.1, le_trans hmid.2 hrm.2⟩
        · rename_i e s4 heqr
          have hrm := (character_goodLeaf "\x7d" (by decide) s3).1
          rw [heqr] at hrm
          exact ⟨hrm.1.trans hmid.1, le_trans hmid.2 hrm.2⟩
        · rename_i s4 heqr
          exact absurd heqr ((character_goodLeaf "\x7d" (by decide) s3).2.2 s4)
      · rename_i s3 heqj
        have hjm := hg.pj_mono s2
        rw [heqj] at hjm
        exact ⟨hjm.1.trans hlm.1, le_trans hlm.2 hjm.2⟩
      · rename_i e s3 heqj
        have hjm := hg.pj_mono s2
        rw [heqj] at hjm
        exact ⟨hjm.1.trans hlm.1, le_trans hlm.2 hjm.2⟩
      · rename_i s3 heqj
        have hjm := hg.pj_mono s2
        rw [heqj] at hjm
        exact ⟨hjm.1.trans hlm.1, le_trans hlm.2 hjm.2⟩
    · rename_i s2 heql
      have hlm := (character_goodLeaf "\x7b" (by decide) s1).1
      rw [heql] at hlm
      exact hlm
    · rename_i e s2 heql
      have hlm := (character_goodLeaf "\x7b" (by decide) s1).1
      rw [heql] at hlm
      exact hlm
    · rename_i s2 heql
      exact absurd heql ((character_goodLeaf "\x7b" (by decide) s1).2.2 s2)

theorem step_it_strict (g : Grammar) (L : Nat) (hg : GoodG g L) :
    ∀ s v s1, InlineTableStep g s = .matched v s1 → s.position < s1.position := by
  intro s v0 sx0
  unfold InlineTableStep
  refine withSkip_strict false true s _ (fun s1 h1 h2 v sx => ?_) v0 sx0
  split
  · intro hx
    cases hx
    simp only [Scanner.next_position]
    omega
  · split
    · rename_i u s2 heql
      have hls := (character_goodLeaf "\x7b" (by decide) s1).2.1 u s2 heql
      split
      · rename_i pairs s3 heqj
        have hjm := hg.pj_mono s2
        rw [heqj] at hjm
        split
        · rename_i u2 s4 heqr
          have hrm := (character_goodLeaf "\x7d" (by decide) s3).1
          rw [heqr] at hrm
          intro hx
          cases hx
          exact lt_of_lt_of_le hls (le_trans hjm.2 hrm.2)
        · rename_i s4 heqr
          intro hx; cases hx
        · rename_i e s4 heqr
          intro hx; cases hx
        · rename_i s4 heqr
          intro hx; cases hx
      · rename_i s3 heqj
        intro hx; cases hx
      · rename_i e s3 heqj
        intro hx; cases hx
      · rename_i s3 heqj
        intro hx; cases hx
    · rename_i s2 heql
      intro hx; cases hx
    · rename_i e s2 heql
      intro hx; cases hx
    · rename_i s2 heql
      intro hx; cases hx

theorem step_it_nto (g : Grammar) (L : Nat) (hg : GoodG g L) :
    ∀ s sx, 7 + 16 * (s.source.length - s.position) ≤ L + 1 →
      InlineTableStep g s ≠ .timeout sx := by
  intro s sx hb
  unfold InlineTableStep
  refine withSkip_nto false true s _ (fun s1 h1 h2 sy => ?_) sx
  split
  · intro hx; cases hx
  · split
    · rename_i u s2 heql
      have hlm := (character_goodLeaf "\x7b" (by decide) s1).1
      rw [heql] at hlm
      have hls := (character_goodLeaf "\x7b" (by decide) s1).2.1 u s2 heql
      split
      · rename_i pairs s3 heqj
        split
        · rename_i u2 s4 heqr
          intro hx; cases hx
        · rename_i s4 heqr
          intro hx; cases hx
        · rename_i e s4 heqr
          intro hx; cases hx
        · rename_i s4 heqr
          exact absurd heqr ((character_goodLeaf "\x7d" (by decide) s3).2.2 s4)
      · rename_i s3 heqj
        intro hx; cases hx
      · rename_i e s3 heqj
        intro hx; cases hx
      · rename_i s3 heqj
        refine absurd heqj (hg.pj_nto s2 s3 ?_)
        have e1 : s1.source = s.source := h1
        have e2 : s2.source = s1.source := hlm.1
        have hlt1 := character_matched_lt "\x7b" (by decide) s1 heql
        rw [e1] at hlt1
        rw [e2, e1]
        omega
    · rename_i s2 heql
      intro hx; cases hx
    · rename_i e s2 heql
      intro hx; cases hx
    · rename_i s2 heql
      exact absurd heql ((character_goodLeaf "\x7b" (by decide) s1).2.2 s2)

/-! ## One level of the knot: pairs, blocks, tables, the document -/

theorem step_value_nto (g : Grammar) (L : Nat) (hg : GoodG g L) :
    ∀ s sx, 8 + 16 * (s.source.length - s.position) ≤ L + 1 →
      ValueStep g s ≠ .timeout sx := by
  intro s sx hb
  refine ValueStep_nto g s hg.av_mono (fun t ht hp sx2 => hg.av_nto t sx2 ?_)
    (fun t ht hp sx2 => hg.it_nto t sx2 ?_) sx
  · rw [ht]
    omega
  · rw [ht]
    omega

theorem step_pair_mono (g : Grammar) (L : Nat) (hg : GoodG g L) :
    ∀ s, ResMono (PairStep g L s) s := by
  intro s
  unfold PairStep
  split
  · rename_i key s1 heqk
    have hkm := DottedKey_resMono L s
    rw [heqk] at hkm
    have e1 : s1.source = s.source := hkm.1
    have p1 : s.position ≤ s1.position := hkm.2
    split
    · rename_i u s2 heqc
      have hcm := (character_goodLeaf "=" (by decide) s1).1
      rw [heqc] at hcm
      have e2 : s2.source = s1.source := hcm.1
      have p2 : s1.position ≤ s2.position := hcm.2
      split
      · rename_i v s3 heqv
        have hvm := hg.value_mono s2
        rw [heqv] at hvm
        have e3 : s3.source = s2.source := hvm.1
        have p3 : s2.position ≤ s3.position := hvm.2
        refine ⟨?_, ?_⟩
        · show s3.source = s.source
          rw [e3, e2, e1]
        · show s.position ≤ s3.position
          omega
      · rename_i s3 heqv
        have hvm := hg.value_mono s2
        rw [heqv] at hvm
        have e3 : s3.source = s2.source := hvm.1
        have p3 : s2.position ≤ s3.position := hvm.2
        refine ⟨?_, ?_⟩
        · show s3.source = s.source
          rw [e3, e2, e1]
        · show s.position ≤ s3.position
          omega
      · rename_i e s3 heqv
        have hvm := hg.value_mono s2
        rw [heqv] at hvm
        have e3 : s3.source = s2.source := hvm.1
        have p3 : s2.position ≤ s3.position := hvm.2
        refine ⟨?_, ?_⟩
        · show s3.source = s.source
          rw [e3, e2, e1]
        · show s.position ≤ s3.position
          omega
      · rename_i s3 heqv
        have hvm := hg.value_mono s2
        rw [heqv] at hvm
        have e3 : s3.source = s2.source := hvm.1
        have p3 : s2.position ≤ s3.position := hvm.2
        refine ⟨?_, ?_⟩
        · show s3.source = s.source
          rw [e3, e2, e1]
        · show s.position ≤ s3.position
          omega
    · rename_i s2 heqc
      have hcm := (character_goodLeaf "=" (by decide) s1).1
      rw [heqc] at hcm
      have e2 : s2.source = s1.source := hcm.1
      have p2 : s1.position ≤ s2.position := hcm.2
      refine ⟨?_, ?_⟩
      · show s2.source = s.source
        rw [e2, e1]
      · show s.position ≤ s2.position
        omega
    · rename_i e s2 heqc
      have hcm := (character_goodLeaf "=" (by decide) s1).1
      rw [heqc] at hcm
      have e2 : s2.source = s1.source := hcm.1
      have p2 : s1.position ≤ s2.position := hcm.2
      refine ⟨?_, ?_⟩
      · show s2.source = s.source
        rw [e2, e1]
      · show s.position ≤ s2.position
        omega
    · rename_i s2 heqc
      have hcm := (character_goodLeaf "=" (by decide) s1).1
      rw [heqc] at hcm
      have e2 : s2.source = s1.source := hcm.1
      have p2 : s1.position ≤ s2.position := hcm.2
      refine ⟨?_, ?_⟩
      · show s2.source = s.source
        rw [e2, e1]
      · show s.position ≤ s2.position
        omega
  · rename_i s1 heqk
    have hkm := DottedKey_resMono L s
    rw [heqk] at hkm
    exact hkm
  · rename_i e s1 heqk
    have hkm := DottedKey_resMono L s
    rw [heqk] at hkm
    exact hkm
  · rename_i s1 heqk
    have hkm := DottedKey_resMono L s
    rw [heqk] at hkm
    exact hkm

theorem step_pair_strict (g : Grammar) (L : Nat) (hg : GoodG g L) :
    ∀ s v s1, PairStep g L s = .matched v s1 → s.position < s1.position := by
  intro s v s1
  unfold PairStep
  split
  · rename_i key s2 heqk
    have hks := DottedKey_strict L s key s2 heqk
    split
    · rename_i u s3 heqc
      have hcm := (character_goodLeaf "=" (by decide) s2).1
      rw [heqc] at hcm
      have p3 : s2.position ≤ s3.position := hcm.2
      split
      · rename_i w s4 heqv
        intro hx
        cases hx
        have hvm := hg.value_mono s3
        rw [heqv] at hvm
        have p4 : s3.position ≤ s1.position := hvm.2
        omega
      · intro hx; cases hx
      · intro hx; cases hx
      · intro hx; cases hx
    · intro hx; cases hx
    · intro hx; cases hx
    · intro hx; cases hx
  · intro hx; cases hx
  · intro hx; cases hx
  · intro hx; cases hx

theorem step_pair_lt (g : Grammar) (L : Nat) (hg : GoodG g L) :
    ∀ s v s1, PairStep g L s = .matched v s1 → s.position < s.source.length := by
  intro s v s1
  unfold PairStep
  split
  · rename_i key s2 heqk
    exact fun hx => DottedKey_matched_lt heqk
  · intro hx; cases hx
  · intro hx; cases hx
  · intro hx; cases hx

theorem step_pair_nto (g : Grammar) (L : Nat) (hg : GoodG g L) :
    ∀ s sx, 8 + 16 * (s.source.length - s.position) ≤ L + 1 →
      PairStep g L s ≠ .timeout sx := by
  intro s sx hb
  unfold PairStep
  split
  · rename_i key s2 heqk
    have hkm := DottedKey_resMono L s
    rw [heqk] at hkm
    have hklt := DottedKey_matched_lt heqk
    have hks := DottedKey_strict L s key s2 heqk
    split
    · rename_i u s3 heqc
      have hcm := (character_goodLeaf "=" (by decide) s2).1
      rw [heqc] at hcm
      split
      · intro hx; cases hx
      · intro hx; cases hx
      · intro hx; cases hx
      · rename_i s4 heqv
        refine absurd heqv (hg.value_nto s3 s4 ?_)
        have e1 : s2.source = s.source := hkm.1
        have e2 : s3.source = s2.source := hcm.1
        have p2 : s2.position ≤ s3.position := hcm.2
        rw [e2, e1]
        omega
    · intro hx; cases hx
    · intro hx; cases hx
    · rename_i s3 heqc
      exact absurd heqc ((character_goodLeaf "=" (by decide) s2).2.2 s3)
  · intro hx; cases hx
  · intro hx; cases hx
  · rename_i s2 heqk
    refine absurd heqk (DottedKey_nto L s ?_ s2)
    omega

theorem step_rpl_mono (g : Grammar) (L : Nat) (hg : GoodG g L) :
    ∀ s acc, ResMono (repeatPairLoopStep g s acc) s := by
  intro s acc
  unfold repeatPairLoopStep
  split
  · split
    · exact ⟨rfl, le_refl _⟩
    · exact ⟨rfl, le_refl _⟩
  · split
    · rename_i v s1 heqp
      have hpm := hg.pair_mono s
      rw [heqp] at hpm
      refine ResMono.trans ?_ hpm.1 hpm.2
      refine withSkip_resMono false true s1 _ (fun s2 h1 h2 => ?_)
      exact hg.rpl_mono s2 (acc ++ [v])
    · rename_i s1 heqp
      have hpm := hg.pair_mono s
      rw [heqp] at hpm
      split
      · exact hpm
      · exact ⟨hpm.1, hpm.2⟩
    · rename_i e s1 heqp
      have hpm := hg.pair_mono s
      rw [heqp] at hpm
      exact hpm
    · rename_i s1 heqp
      have hpm := hg.pair_mono s
      rw [heqp] at hpm
      exact hpm

theorem step_rpl_strict_nil (g : Grammar) (L : Nat) (hg : GoodG g L) :
    ∀ s v s1, repeatPairLoopStep g s [] = .matched v s1 →
      s.position < s1.position := by
  intro s v s1
  unfold repeatPairLoopStep
  split
  · split
    · intro hx; cases hx
    · rename_i hne
      exact absurd rfl hne
  · split
    · rename_i w s2 heqp
      have hps := hg.pair_strict s w s2 heqp
      intro hx
      have hwm : ResMono (withSkip false true s2
          fun s3 => g.repeatPairLoop s3 ([] ++ [w])) s2 :=
        withSkip_resMono false true s2 _
          (fun s3 h1 h2 => hg.rpl_mono s3 ([] ++ [w]))
      rw [hx] at hwm
      have p1 : s2.position ≤ s1.position := hwm.2
      omega
    · rename_i s2 heqp
      split
      · intro hx; cases hx
      · rename_i hne
        exact absurd rfl hne
    · intro hx; cases hx
    · intro hx; cases hx

theorem step_rpl_nto (g : Grammar) (L : Nat) (hg : GoodG g L) :
    ∀ s acc sx, 9 + 16 * (s.source.length - s.position) ≤ L + 1 →
      repeatPairLoopStep g s acc ≠ .timeout sx := by
  intro s acc sx hb
  unfold repeatPairLoopStep
  split
  · split
    · intro hx; cases hx
    · intro hx; cases hx
  · rename_i heof
    have heof2 : s.eof = false := by
      cases he : s.eof with
      | false => rfl
      | true => exact absurd he heof
    have hlt0 := Scanner.lt_length_of_not_eof heof2
    split
    · rename_i v s1 heqp
      have hpm := hg.pair_mono s
      rw [heqp] at hpm
      have hps := hg.pair_strict s v s1 heqp
      refine withSkip_nto false true s1 _ (fun s2 h1 h2 sy => ?_) sx
      refine hg.rpl_nto s2 (acc ++ [v]) sy ?_
      have e1 : s1.source = s.source := hpm.1
      rw [h1, e1]
      omega
    · split
      · intro hx; cases hx
      · intro hx; cases hx
    · intro hx; cases hx
    · rename_i s1 heqp
      refine absurd heqp (hg.pair_nto s s1 ?_)
      omega

theorem step_blk_mono (g : Grammar) (L : Nat) (hg : GoodG g L) :
    ∀ s, ResMono (BlockStep g s) s := by
  intro s
  unfold BlockStep
  refine withSkip_resMono false true s _ (fun s1 h1 h2 => ?_)
  split
  · rename_i records s2 heqr
    have hrm := hg.rpl_mono s1 []
    rw [heqr] at hrm
    exact ⟨hrm.1, hrm.2⟩
  · rename_i s2 heqr
    have hrm := hg.rpl_mono s1 []
    rw [heqr] at hrm
    exact hrm
  · rename_i e s2 heqr
    have hrm := hg.rpl_mono s1 []
    rw [heqr] at hrm
    exact hrm
  · rename_i s2 heqr
    have hrm := hg.rpl_mono s1 []
    rw [heqr] at hrm
    exact hrm

theorem step_blk_strict (g : Grammar) (L : Nat) (hg : GoodG g L) :
    ∀ s v s1, BlockStep g s = .matched v s1 → s.position < s1.position := by
  intro s v s1
  unfold BlockStep
  refine withSkip_strict false true s _ (fun s2 h1 h2 w s3 => ?_) v s1
  split
  · rename_i records s4 heqr
    intro hx
    cases hx
    exact hg.rpl_strict_nil s2 records s3 heqr
  · intro hx; cases hx
  · intro hx; cases hx
  · intro hx; cases hx

theorem step_blk_nto (g : Grammar) (L : Nat) (hg : GoodG g L) :
    ∀ s sx, 10 + 16 * (s.source.length - s.position) ≤ L + 1 →
      BlockStep g s ≠ .timeout sx := by
  intro s sx hb
  unfold BlockStep
  refine withSkip_nto false true s _ (fun s1 h1 h2 sy => ?_) sx
  split
  · intro hx; cases hx
  · intro hx; cases hx
  · intro hx; cases hx
  · rename_i s2 heqr
    refine absurd heqr (hg.rpl_nto s1 [] s2 ?_)
    rw [h1]
    omega

theorem step_tbl_mono (g : Grammar) (L : Nat) (hg : GoodG g L) :
    ∀ s, ResMono (TableStep g L s) s := by
  intro s
  unfold TableStep
  refine withSkip_resMono false true s _ (fun s1 h1 h2 => ?_)
  split
  · rename_i key s2 heqh
    have hhm := TableHeader_resMono L s1
    rw [heqh] at hhm
    refine ResMono.trans ?_ hhm.1 hhm.2
    refine withSkip_resMono false true s2 _ (fun s3 h3 h4 => ?_)
    split
    · rename_i blk s4 heqb
      have hbm := hg.blk_mono s3
      rw [heqb] at hbm
      exact ⟨hbm.1, hbm.2⟩
    · rename_i s4 heqb
      have hbm := hg.blk_mono s3
      rw [heqb] at hbm
      exact ⟨hbm.1, hbm.2⟩
    · rename_i e s4 heqb
      have hbm := hg.blk_mono s3
      rw [heqb] at hbm
      exact hbm
    · rename_i s4 heqb
      have hbm := hg.blk_mono s3
      rw [heqb] at hbm
      exact hbm
  · rename_i s2 heqh
    have hhm := TableHeader_resMono L s1
    rw [heqh] at hhm
    exact hhm
  · rename_i e s2 heqh
    have hhm := TableHeader_resMono L s1
    rw [heqh] at hhm
    exact hhm
  · rename_i s2 heqh
    have hhm := TableHeader_resMono L s1
    rw [heqh] at hhm
    exact hhm

theorem step_tbl_strict (g : Grammar) (L : Nat) (hg : GoodG g L) :
    ∀ s v s1, TableStep g L s = .matched v s1 → s.position < s1.position := by
  intro s v s1
  unfold TableStep
  refine withSkip_strict false true s _ (fun s2 h1 h2 w s3 => ?_) v s1
  split
  · rename_i key s4 heqh
    have hhs := TableHeader_strict L s2 key s4 heqh
    refine withSkip_elim
      (motive := fun r => r = .matched w s3 → s2.position < s3.position)
      false true s4 _ (fun s5 hok => ?_) (fun e s5 herr => fun hx => nomatch hx)
    obtain ⟨h5, h6⟩ := Scanner.nextUntilChar_ok hok
    split
    · rename_i blk s6 heqb
      intro hx
      cases hx
      have hbm := hg.blk_mono s5
      rw [heqb] at hbm
      have p6 : s5.position ≤ s3.position := hbm.2
      omega
    · rename_i s6 heqb
      intro hx
      cases hx
      have hbm := hg.blk_mono s5
      rw [heqb] at hbm
      have p6 : s5.position ≤ s3.position := hbm.2
      omega
    · intro hx; cases hx
    · intro hx; cases hx
  · intro hx; cases hx
  · intro hx; cases hx
  · intro hx; cases hx

theorem step_tbl_nto (g : Grammar) (L : Nat) (hg : GoodG g L) :
    ∀ s sx, 10 + 16 * (s.source.length - s.position) ≤ L + 1 →
      TableStep g L s ≠ .timeout sx := by
  intro s sx hb
  unfold TableStep
  refine withSkip_nto false true s _ (fun s1 h1 h2 sy => ?_) sx
  split
  · rename_i key s2 heqh
    have hhm := TableHeader_resMono L s1
    rw [heqh] at hhm
    have hhs := TableHeader_strict L s1 key s2 heqh
    have hhlt := TableHeader_matched_lt heqh
    have e1 : s1.source = s.source := h1
    rw [e1] at hhlt
    refine withSkip_nto false true s2 _ (fun s3 h3 h4 sz => ?_) sy
    split
    · intro hx; cases hx
    · intro hx; cases hx
    · intro hx; cases hx
    · rename_i s4 heqb
      refine absurd heqb (hg.blk_nto s3 s4 ?_)
      have e2 : s2.source = s1.source := hhm.1
      rw [h3, e2, e1]
      omega
  · intro hx; cases hx
  · intro hx; cases hx
  · rename_i s2 heqh
    refine absurd heqh (TableHeader_nto L s1 ?_ s2)
    rw [h1]
    omega

theorem step_ta_mono (g : Grammar) (L : Nat) (hg : GoodG g L) :
    ∀ s, ResMono (TableArrayStep g L s) s := by
  intro s
  unfold TableArrayStep
  refine withSkip_resMono false true s _ (fun s1 h1 h2 => ?_)
  split
  · rename_i key s2 heqh
    have hhm := TableArrayHeader_resMono L s1
    rw [heqh] at hhm
    refine ResMono.trans ?_ hhm.1 hhm.2
    refine withSkip_resMono false true s2 _ (fun s3 h3 h4 => ?_)
    split
    · rename_i blk s4 heqb
      have hbm := hg.blk_mono s3
      rw [heqb] at hbm
      exact ⟨hbm.1, hbm.2⟩
    · rename_i s4 heqb
      have hbm := hg.blk_mono s3
      rw [heqb] at hbm
      exact ⟨hbm.1, hbm.2⟩
    · rename_i e s4 heqb
      have hbm := hg.blk_mono s3
      rw [heqb] at hbm
      exact hbm
    · rename_i s4 heqb
      have hbm := hg.blk_mono s3
      rw [heqb] at hbm
      exact hbm
  · rename_i s2 heqh
    have hhm := TableArrayHeader_resMono L s1
    rw [heqh] at hhm
    exact hhm
  · rename_i e s2 heqh
    have hhm := TableArrayHeader_resMono L s1
    rw [heqh] at hhm
    exact hhm
  · rename_i s2 heqh
    have hhm := TableArrayHeader_resMono L s1
    rw [heqh] at hhm
    exact hhm

theorem step_ta_strict (g : Grammar) (L : Nat) (hg : GoodG g L) :
    ∀ s v s1, TableArrayStep g L s = .matched v s1 → s.position < s1.position := by
  intro s v s1
  unfold TableArrayStep
  refine withSkip_strict false true s _ (fun s2 h1 h2 w s3 => ?_) v s1
  split
  · rename_i key s4 heqh
    have hhs := TableArrayHeader_strict L s2 key s4 heqh
    refine withSkip_elim
      (motive := fun r => r = .matched w s3 → s2.position < s3.position)
      false true s4 _ (fun s5 hok => ?_) (fun e s5 herr => fun hx => nomatch hx)
    obtain ⟨h5, h6⟩ := Scanner.nextUntilChar_ok hok
    split
    · rename_i blk s6 heqb
      intro hx
      cases hx
      have hbm := hg.blk_mono s5
      rw [heqb] at hbm
      have p6 : s5.position ≤ s3.position := hbm.2
      omega
    · rename_i s6 heqb
      intro hx
      cases hx
      have hbm := hg.blk_mono s5
      rw [heqb] at hbm
      have p6 : s5.position ≤ s3.position := hbm.2
      omega
    · intro hx; cases hx
    · intro hx; cases hx
  · intro hx; cases hx
  · intro hx; cases hx
  · intro hx; cases hx

theorem step_ta_nto (g : Grammar) (L : Nat) (hg : GoodG g L) :
    ∀ s sx, 10 + 16 * (s.source.length - s.position) ≤ L + 1 →
      TableArrayStep g L s ≠ .timeout sx := by
  intro s sx hb
  unfold TableArrayStep
  refine withSkip_nto false true s _ (fun s1 h1 h2 sy => ?_) sx
  split
  · rename_i key s2 heqh
    have hhm := TableArrayHeader_resMono L s1
    rw [heqh] at hhm
    have hhs := TableArrayHeader_strict L s1 key s2 heqh
    have hhlt := TableArrayHeader_matched_lt heqh
    have e1 : s1.source = s.source := h1
    rw [e1] at hhlt
    refine withSkip_nto false true s2 _ (fun s3 h3 h4 sz => ?_) sy
    split
    · intro hx; cases hx
    · intro hx; cases hx
    · intro hx; cases hx
    · rename_i s4 heqb
      refine absurd heqb (hg.blk_nto s3 s4 ?_)
      have e2 : s2.source = s1.source := hhm.1
      rw [h3, e2, e1]
      omega
  · intro hx; cases hx
  · intro hx; cases hx
  · rename_i s2 heqh
    refine absurd heqh (TableArrayHeader_nto L s1 ?_ s2)
    rw [h1]
    omega

theorem step_trl_mono (g : Grammar) (L : Nat) (hg : GoodG g L) :
    ∀ s acc, ResMono (tomlRepeatLoopStep g s acc) s := by
  intro s acc
  unfold tomlRepeatLoopStep
  split
  · split
    · exact ⟨rfl, le_refl _⟩
    · exact ⟨rfl, le_refl _⟩
  · have hcm : ResMono ((g.block s).orElse fun sa =>
        (g.tableArray sa).orElse fun sb => g.tableP sb) s :=
      orElse_resMono (hg.blk_mono s) (fun sa ea pa =>
        orElse_resMono (hg.ta_mono sa) (fun sb eb pb => hg.tbl_mono sb))
    split
    · rename_i v s1 heq
      rw [heq] at hcm
      refine ResMono.trans ?_ hcm.1 hcm.2
      refine withSkip_resMono false true s1 _ (fun s2 h1 h2 => ?_)
      exact hg.trl_mono s2 (acc ++ [v])
    · rename_i s1 heq
      rw [heq] at hcm
      split
      · exact hcm
      · exact ⟨hcm.1, hcm.2⟩
    · rename_i e s1 heq
      rw [heq] at hcm
      exact hcm
    · rename_i s1 heq
      rw [heq] at hcm
      exact hcm

theorem step_trl_nto (g : Grammar) (L : Nat) (hg : GoodG g L) :
    ∀ s acc sx, 11 + 16 * (s.source.length - s.position) ≤ L + 1 →
      tomlRepeatLoopStep g s acc ≠ .timeout sx := by
  intro s acc sx hb
  unfold tomlRepeatLoopStep
  split
  · split
    · intro hx; cases hx
    · intro hx; cases hx
  · rename_i heof
    have heof2 : s.eof = false := by
      cases he : s.eof with
      | false => rfl
      | true => exact absurd he heof
    have hlt0 := Scanner.lt_length_of_not_eof heof2
    have hcm : ResMono ((g.block s).orElse fun sa =>
        (g.tableArray sa).orElse fun sb => g.tableP sb) s :=
      orElse_resMono (hg.blk_mono s) (fun sa ea pa =>
        orElse_resMono (hg.ta_mono sa) (fun sb eb pb => hg.tbl_mono sb))
    split
    · rename_i v s1 heq
      have hcs : s.position < s1.position :=
        orElse_strict (hg.blk_mono s) (hg.blk_strict s) (fun sa ea pa =>
          orElse_strict (hg.ta_mono sa) (hg.ta_strict sa) (fun sb eb pb =>
            hg.tbl_strict sb)) v s1 heq
      rw [heq] at hcm
      refine withSkip_nto false true s1 _ (fun s2 h1 h2 sy => ?_) sx
      refine hg.trl_nto s2 (acc ++ [v]) sy ?_
      have e1 : s1.source = s.source := hcm.1
      rw [h1, e1]
      omega
    · split
      · intro hx; cases hx
      · intro hx; cases hx
    · intro hx; cases hx
    · rename_i s1 heq
      refine absurd heq (orElse_nto (hg.blk_mono s)
        (fun t => hg.blk_nto s t ?_)
        (fun sa ea pa => orElse_nto (hg.ta_mono sa)
          (fun t2 => hg.ta_nto sa t2 ?_)
          (fun sb eb pb t3 => hg.tbl_nto sb t3 ?_)) s1)
      · omega
      · rw [ea]
        omega
      · rw [eb, ea]
        omega

theorem step_toml_mono (g : Grammar) (L : Nat) (hg : GoodG g L) :
    ∀ s, ResMono (TomlStep g s) s := by
  intro s
  unfold TomlStep
  split
  · rename_i blocks s1 heqt
    have htm := hg.trl_mono s []
    rw [heqt] at htm
    split
    · exact ⟨htm.1, htm.2⟩
    · exact ⟨htm.1, htm.2⟩
  · rename_i s1 heqt
    have htm := hg.trl_mono s []
    rw [heqt] at htm
    exact htm
  · rename_i e s1 heqt
    have htm := hg.trl_mono s []
    rw [heqt] at htm
    exact htm
  · rename_i s1 heqt
    have htm := hg.trl_mono s []
    rw [heqt] at htm
    exact htm

theorem step_toml_nto (g : Grammar) (L : Nat) (hg : GoodG g L) :
    ∀ s sx, 12 + 16 * (s.source.length - s.position) ≤ L + 1 →
      TomlStep g s ≠ .timeout sx := by
  intro s sx hb
  unfold TomlStep
  split
  · split
    · intro hx; cases hx
    · intro hx; cases hx
  · intro hx; cases hx
  · intro hx; cases hx
  · rename_i s1 heqt
    refine absurd heqt (hg.trl_nto s [] s1 ?_)
    omega

/-! ## The grammar invariant holds at every fuel level -/

theorem goodG_step (g : Grammar) (L : Nat) (hg : GoodG g L) :
    GoodG (grammarStep g L) (L + 1) :=
  { value_mono := ValueStep_mono g hg.av_mono hg.it_mono
    value_strict := ValueStep_strict g hg.av_mono hg.av_strict hg.it_strict
    value_nto := step_value_nto g L hg
    avl_mono := step_avl_mono g L hg
    avl_nto := step_avl_nto g L hg
    av_mono := step_av_mono g L hg
    av_strict := step_av_strict g L hg
    av_nto := step_av_nto g L hg
    pj_mono := step_pj_mono g L hg
    pj_nto := step_pj_nto g L hg
    pjl_mono := step_pjl_mono g L hg
    pjl_nto := step_pjl_nto g L hg
    it_mono := step_it_mono g L hg
    it_strict := step_it_strict g L hg
    it_nto := step_it_nto g L hg
    pair_mono := step_pair_mono g L hg
    pair_strict := step_pair_strict g L hg
    pair_lt := step_pair_lt g L hg
    pair_nto := step_pair_nto g L hg
    rpl_mono := step_rpl_mono g L hg
    rpl_strict_nil := step_rpl_strict_nil g L hg
    rpl_nto := step_rpl_nto g L hg
    blk_mono := step_blk_mono g L hg
    blk_strict := step_blk_strict g L hg
    blk_nto := step_blk_nto g L hg
    tbl_mono := step_tbl_mono g L hg
    tbl_strict := step_tbl_strict g L hg
    tbl_nto := step_tbl_nto g L hg
    ta_mono := step_ta_mono g L hg
    ta_strict := step_ta_strict g L hg
    ta_nto := step_ta_nto g L hg
    trl_mono := step_trl_mono g L hg
    trl_nto := step_trl_nto g L hg
    toml_mono := step_toml_mono g L hg
    toml_nto := step_toml_nto g L hg }

theorem goodG_all : ∀ L, GoodG (grammar L) L := by
  intro L
  induction L with
  | zero => exact goodG_zero
  | succ n ih => exact goodG_step (grammar n) n ih

/-! ## The C4 and C7 claims -/

/-- C4 counterexample: the original claim says a NotMatched result leaves
the cursor exactly where the parser was invoked, but `Integer` on the
input `0x` (a radix prefix with no digits) returns NotMatched with the
cursor advanced to offset 2, past the consumed prefix. -/
theorem c4_notmatched_cursor_advanced :
    Integer ⟨"0x".toList, 0⟩ = .notMatched ⟨"0x".toList, 2⟩ ∧
    (Integer ⟨"0x".toList, 0⟩).scanner.position ≠ 0 := by
  refine ⟨rfl, ?_⟩
  decide

/-- C4 (amended): every parser keeps the scanner source unchanged and
never rewinds the cursor (token recognizers such as `character`, `Integer`
and `Float`, and every grammar production at every fuel level, including
`Value`, `Pair` and `Toml`); a match of `Value` strictly advances the
cursor; but a NotMatched result may leave the cursor advanced past
consumed characters, as `Integer` on `0x` shows. -/
theorem c4_cursor_never_rewound :
    (∀ str : String, str.toList ≠ [] → MonoParser (character str)) ∧
    MonoParser Integer ∧
    MonoParser Float ∧
    (∀ fuel, MonoParser (Value fuel)) ∧
    (∀ fuel, MonoParser (Pair fuel)) ∧
    (∀ fuel, MonoParser (Toml fuel)) ∧
    (∀ fuel s v s1, Value fuel s = .matched v s1 → s.position < s1.position) ∧
    Integer ⟨"0x".toList, 0⟩ = .notMatched ⟨"0x".toList, 2⟩ := by
  refine ⟨?_, ?_, ?_, ?_, ?_, ?_, ?_, rfl⟩
  · intro str h s
    exact (character_goodLeaf str h s).1
  · intro s
    exact (Integer_goodLeaf s).1
  · intro s
    exact (Float_goodLeaf s).1
  · intro fuel s
    exact (goodG_all fuel).value_mono s
  · intro fuel s
    exact (goodG_all fuel).pair_mono s
  · intro fuel s
    exact (goodG_all fuel).toml_mono s
  · intro fuel s v s1
    exact (goodG_all fuel).value_strict s v s1

/-- C7: `parse` terminates on every input string — at the driver's fuel
budget `fuelFor` the embedded `Toml` parser never exhausts its fuel, and
every successful `Value` or `Pair` step consumes at least one character,
so no combinator loops without consuming and the parse is bounded by the
input length. -/
theorem c7_parse_terminates :
    (∀ tomlString : List Char, ∀ sx,
      Toml (fuelFor tomlString.length) ⟨tomlString, 0⟩ ≠ .timeout sx) ∧
    (∀ fuel s v s1, Value fuel s = .matched v s1 → s.position < s1.position) ∧
    (∀ fuel s v s1, Pair fuel s = .matched v s1 → s.position < s1.position) := by
  refine ⟨?_, ?_, ?_⟩
  · intro tomlString sx
    refine (goodG_all (fuelFor tomlString.length)).toml_nto ⟨tomlString, 0⟩ sx ?_
    show 12 + 16 * (tomlString.length - 0) ≤ 16 * tomlString.length + 64
    omega
  · intro fuel s v s1
    exact (goodG_all fuel).value_strict s v s1
  · intro fuel s v s1
    exact (goodG_all fuel).pair_strict s v s1

end TomlSpec
